import Mathlib

/-!
# connpass client

A shallow embedding of `connpass.go` (package `connpass`): the query builder `buildURL`
with its helpers `setIntValues`, `setStringValues` and `setTimeValues`, and the client with
`NewClient`, `newRequest`, `do` and `SearchEvents`, together with the parts of the Go
standard library they call (`strconv.Itoa`, `fmt.Sprintf` with `%0Nd`, `strings.Join`,
`net/url`'s `Values`, `QueryEscape`, `QueryUnescape`, `Parse`, `String` and
`ResolveReference`, `http.NewRequest` and `Header.Set`, the decoder and the encoder of
`encoding/json`).

Conventions of the embedding:
* a Go `string` is a sequence of bytes, `List (Fin 256)`;
* a Go `int` is an `Int`; where a text is read into an `int` the range of 64 bits is checked;
* a Go slice is an `Option (List α)`: `none` is the nil slice, `some []` an empty non-nil one;
* a Go `map[string][]string` is an association list; the order of its entries stands for
  one possible iteration order of the map;
* the transport of a client is a function from requests to an error or a response, and the
  body of a response is its content with a flag that tells whether it was closed;
* the type `time.Time` with its JSON form, and `runtime.Version()`, are parameters.
-/

set_option maxRecDepth 100000

namespace Connpass

/-! ## Strings -/

/-- One byte of a Go string. -/
abbrev Byte := Fin 256

/-- A Go string: an immutable sequence of bytes. -/
abbrev GoString := List Byte

/-- The byte of an ASCII character literal. -/
def ch (c : Char) : Byte := Fin.ofNat c.toNat

/-- The UTF-8 encoding of one code point, as Go source literals are encoded. -/
def utf8 (c : Char) : List Byte :=
  let n := c.toNat
  if n < 0x80 then [Fin.ofNat n]
  else if n < 0x800 then [Fin.ofNat (0xC0 + n / 64), Fin.ofNat (0x80 + n % 64)]
  else if n < 0x10000 then
    [Fin.ofNat (0xE0 + n / 4096), Fin.ofNat (0x80 + n / 64 % 64), Fin.ofNat (0x80 + n % 64)]
  else
    [Fin.ofNat (0xF0 + n / 262144), Fin.ofNat (0x80 + n / 4096 % 64),
     Fin.ofNat (0x80 + n / 64 % 64), Fin.ofNat (0x80 + n % 64)]

/-- The bytes of a string literal. -/
def str (s : String) : GoString := s.toList.foldr (fun c acc => utf8 c ++ acc) []

/-- Go's `strings.Join(elems, sep)`. -/
def join : List GoString → GoString → GoString
  | [], _ => []
  | [a], _ => a
  | a :: b :: rest, sep => a ++ sep ++ join (b :: rest) sep

/-- Go's `strings.Cut(s, sep)` for a one-byte separator: the text before the first `sep`,
the text after it, and whether `sep` occurs. -/
def cut (sep : Byte) : GoString → GoString × GoString × Bool
  | [] => ([], [], false)
  | b :: s =>
    if b = sep then ([], s, true)
    else
      let r := cut sep s
      (b :: r.1, r.2.1, r.2.2)

/-- Go's `strings.Contains(s, substr)`. -/
def contains : GoString → GoString → Bool
  | [], sub => sub.isEmpty
  | b :: s, sub => sub.isPrefixOf (b :: s) || contains s sub

/-- Go's `strings.HasPrefix(s, prefix)`. -/
def hasPrefix (s pre : GoString) : Bool := pre.isPrefixOf s

/-- Go's `strings.HasSuffix(s, suffix)`. -/
def hasSuffix (s suf : GoString) : Bool := suf.reverse.isPrefixOf s.reverse

/-- Go's `strings.Count(s, sep)` for a one-byte separator. -/
def countByte (s : GoString) (sep : Byte) : Nat := s.count sep

/-- Go's string comparison `a <= b`: lexicographic on bytes. -/
def strLe : GoString → GoString → Bool
  | [], _ => true
  | _ :: _, [] => false
  | a :: s, b :: t => decide (a < b) || (decide (a = b) && strLe s t)

/-- The order `sort.Strings` sorts by. -/
def StrLE (a b : GoString) : Prop := strLe a b = true

instance : DecidableRel StrLE := fun a b => inferInstanceAs (Decidable (strLe a b = true))

/-! ## Integer formatting -/

/-- The decimal digits of a natural number, most significant first, prepended to `acc`;
`fuel` bounds the number of digits. -/
def digitsAux : Nat → Nat → GoString → GoString
  | 0, _, acc => acc
  | fuel + 1, n, acc =>
    let acc1 := Fin.ofNat (48 + n % 10) :: acc
    if n < 10 then acc1 else digitsAux fuel (n / 10) acc1

/-- The decimal digits of a natural number (`"0"` for zero). -/
def natDigits (n : Nat) : GoString := digitsAux (n + 1) n []

/-- Go's `strconv.Itoa`, which is also how `fmt.Sprint` prints a value of an integer type
without a `String` method, such as `Order`. -/
def Itoa (i : Int) : GoString :=
  if i < 0 then ch '-' :: natDigits i.natAbs else natDigits i.natAbs

/-- Go's `fmt.Sprintf("%0wd", i)`: decimal, padded with zeros to width `w`, the sign
counting towards the width. -/
def fmtZeroPad (w : Nat) (i : Int) : GoString :=
  let ds := natDigits i.natAbs
  if i < 0 then ch '-' :: (List.replicate (w - 1 - ds.length) (ch '0') ++ ds)
  else List.replicate (w - ds.length) (ch '0') ++ ds

/-! ## net/url: escaping -/

/-- The escaping modes of `net/url` that `Parse`, `String` and `Values.Encode` use. -/
inductive Encoding
  | encodePath
  | encodeUserPassword
  | encodeHost
  | encodeZone
  | encodeQueryComponent
  | encodeFragment
  deriving DecidableEq, Repr

/-- Errors of `net/url`. -/
inductive Error
  | invalidControlCharacter
  | missingProtocolScheme
  | colonInFirstPathSegment
  | invalidPort (s : GoString)
  | escapeError (s : GoString)
  | invalidHostError (s : GoString)
  | invalidSemicolon
  | invalidUserinfo
  | missingBracket
  deriving DecidableEq, Repr

instance instDecidableEqExcept {ε α : Type} [DecidableEq ε] [DecidableEq α] :
    DecidableEq (Except ε α)
  | .ok a, .ok b =>
    if h : a = b then isTrue (congrArg Except.ok h)
    else isFalse (fun h1 => h (Except.ok.inj h1))
  | .error a, .error b =>
    if h : a = b then isTrue (congrArg Except.error h)
    else isFalse (fun h1 => h (Except.error.inj h1))
  | .ok _, .error _ => isFalse (fun h => Except.noConfusion h)
  | .error _, .ok _ => isFalse (fun h => Except.noConfusion h)

/-- ASCII letters and digits. -/
def isAlnum (c : Byte) : Bool :=
  (decide (ch 'a' ≤ c) && decide (c ≤ ch 'z')) || (decide (ch 'A' ≤ c) && decide (c ≤ ch 'Z'))
    || (decide (ch '0' ≤ c) && decide (c ≤ ch '9'))

/-- The sub-delimiters `net/url` leaves unescaped in a host:
`! $ & ' ( ) * + , ; = : [ ] < > "`. -/
def hostDelims : GoString :=
  [ch '!', ch '$', ch '&', 0x27, ch '(', ch ')', ch '*', ch '+', ch ',', ch ';', ch '=',
   ch ':', ch '[', ch ']', ch '<', ch '>', 0x22]

/-- Go's `url.shouldEscape(c, mode)`. -/
def shouldEscape (c : Byte) (mode : Encoding) : Bool :=
  if isAlnum c then false
  else if (mode = .encodeHost ∨ mode = .encodeZone) ∧ c ∈ hostDelims then false
  else if c ∈ str "-_.~" then false
  else if c ∈ str "$&+,/:;=?@" then
    match mode with
    | .encodePath => decide (c = ch '?')
    | .encodeUserPassword => decide (c = ch '@' ∨ c = ch '/' ∨ c = ch '?' ∨ c = ch ':')
    | .encodeQueryComponent => true
    | .encodeFragment => false
    | .encodeHost => true
    | .encodeZone => true
  else if mode = .encodeFragment ∧ c ∈ str "!()*" then false
  else true

/-- Go's `upperhex[n]` for `upperhex = "0123456789ABCDEF"`. -/
def upperhex (n : Nat) : Byte := (str "0123456789ABCDEF").getD n 0

/-- Go's `url.escape(s, mode)`. -/
def escape : GoString → Encoding → GoString
  | [], _ => []
  | c :: s, mode =>
    if c = ch ' ' ∧ mode = .encodeQueryComponent then ch '+' :: escape s mode
    else if shouldEscape c mode then
      ch '%' :: upperhex (c.val / 16) :: upperhex (c.val % 16) :: escape s mode
    else c :: escape s mode

/-- Go's `url.QueryEscape`. -/
def QueryEscape (s : GoString) : GoString := escape s .encodeQueryComponent

/-- Go's `url.ishex`. -/
def ishex (c : Byte) : Bool :=
  (decide (ch '0' ≤ c) && decide (c ≤ ch '9')) || (decide (ch 'a' ≤ c) && decide (c ≤ ch 'f'))
    || (decide (ch 'A' ≤ c) && decide (c ≤ ch 'F'))

/-- Go's `url.unhex`. -/
def unhex (c : Byte) : Byte :=
  if ch '0' ≤ c ∧ c ≤ ch '9' then c - ch '0'
  else if ch 'a' ≤ c ∧ c ≤ ch 'f' then c - ch 'a' + 10
  else if ch 'A' ≤ c ∧ c ≤ ch 'F' then c - ch 'A' + 10
  else 0

/-- The byte `unhex(a)<<4 | unhex(b)`. -/
def hexByte (a b : Byte) : Byte := Fin.ofNat (((unhex a).val * 16) % 256 ||| (unhex b).val)

/-- First loop of Go's `url.unescape`: every `%` is followed by two hex digits, and a host
or a zone holds no byte that must be escaped. -/
def unescapeCheck : GoString → Encoding → Except Error Unit
  | [], _ => .ok ()
  | c :: s, mode =>
    if c = ch '%' then
      match s with
      | a :: b :: rest =>
        if !ishex a || !ishex b then .error (.escapeError [c, a, b])
        else if mode = .encodeHost ∧ unhex a < 8 ∧ [c, a, b] ≠ str "%25" then
          .error (.escapeError [c, a, b])
        else if mode = .encodeZone ∧ [c, a, b] ≠ str "%25" ∧ hexByte a b ≠ ch ' '
            ∧ shouldEscape (hexByte a b) .encodeHost then
          .error (.escapeError [c, a, b])
        else unescapeCheck rest mode
      | _ => .error (.escapeError (c :: s))
    else if (mode = .encodeHost ∨ mode = .encodeZone) ∧ c < 0x80
        ∧ shouldEscape c .encodeHost then
      .error (.invalidHostError [c])
    else unescapeCheck s mode

/-- Second loop of Go's `url.unescape`: the decoded bytes. -/
def unescapeDecode : GoString → Encoding → GoString
  | [], _ => []
  | c :: s, mode =>
    if c = ch '%' then
      match s with
      | a :: b :: rest => hexByte a b :: unescapeDecode rest mode
      | _ => []
    else if c = ch '+' then
      (if mode = .encodeQueryComponent then ch ' ' else ch '+') :: unescapeDecode s mode
    else c :: unescapeDecode s mode

/-- Go's `url.unescape(s, mode)`. -/
def unescape (s : GoString) (mode : Encoding) : Except Error GoString :=
  match unescapeCheck s mode with
  | .error e => .error e
  | .ok _ => .ok (unescapeDecode s mode)

/-- Go's `url.QueryUnescape`. -/
def QueryUnescape (s : GoString) : Except Error GoString := unescape s .encodeQueryComponent

/-! ## net/url: Values -/

/-- Go's `url.Values`, a `map[string][]string`. -/
abbrev Values := List (GoString × List GoString)

namespace Values

/-- Go's `v[key]`: the values stored under `key`, the nil slice when the key is absent. -/
def get : Values → GoString → List GoString
  | [], _ => []
  | (k, vs) :: m, key => if k = key then vs else get m key

/-- Go's `_, ok := v[key]`: whether the map has the key. -/
def has : Values → GoString → Bool
  | [], _ => false
  | (k, _) :: m, key => decide (k = key) || has m key

/-- The map assignment `v[key] = vs`. -/
def put : Values → GoString → List GoString → Values
  | [], key, vs => [(key, vs)]
  | (k, old) :: m, key, vs => if k = key then (k, vs) :: m else (k, old) :: put m key vs

/-- Go's `v.Set(key, value)`: `v[key] = []string{value}`. -/
def Set (v : Values) (key value : GoString) : Values := put v key [value]

/-- Go's `v.Add(key, value)`: `v[key] = append(v[key], value)`. -/
def Add (v : Values) (key value : GoString) : Values := put v key (get v key ++ [value])

/-- The keys of the map, in the iteration order the association list stands for. -/
def keys (v : Values) : List GoString := v.map Prod.fst

/-- Go's `v.Encode()` when ranging over the map yields its keys in the order `ks`: the
keys are sorted; every value of every key is written as `key=value`, both query-escaped,
separated by `&`. -/
def EncodeRange (v : Values) (ks : List GoString) : GoString :=
  if v.length = 0 then []
  else
    (List.insertionSort StrLE ks).foldl
      (fun buf k =>
        let keyEscaped := QueryEscape k
        (get v k).foldl
          (fun buf val =>
            (if buf.length > 0 then buf ++ [ch '&'] else buf)
              ++ keyEscaped ++ [ch '='] ++ QueryEscape val)
          buf)
      []

/-- Go's `v.Encode()`, the range yielding the keys in the order of the association list. -/
def Encode (v : Values) : GoString := EncodeRange v (keys v)

end Values

/-- Go's `strings.Split(s, "&")`, the pieces the loop of `url.parseQuery` visits with
`strings.Cut(query, "&")`; `cur` holds the piece being read, reversed. -/
def splitAmp : GoString → GoString → List GoString
  | [], cur => [cur.reverse]
  | b :: s, cur => if b = ch '&' then cur.reverse :: splitAmp s [] else splitAmp s (b :: cur)

/-- One iteration of the loop of Go's `url.parseQuery` on the piece `key`; the state is the
map and the first error met. -/
def parseQueryStep (st : Values × Option Error) (key : GoString) : Values × Option Error :=
  if ch ';' ∈ key then (st.1, some .invalidSemicolon)
  else if key = [] then st
  else
    let r := cut (ch '=') key
    match QueryUnescape r.1 with
    | .error e => (st.1, if st.2 = none then some e else st.2)
    | .ok k =>
      match QueryUnescape r.2.1 with
      | .error e => (st.1, if st.2 = none then some e else st.2)
      | .ok value => (st.1.Add k value, st.2)

/-- Go's `url.ParseQuery(query)`: the map and the first error, if any. -/
def ParseQuery (query : GoString) : Values × Option Error :=
  if query = [] then ([], none) else (splitAmp query []).foldl parseQueryStep ([], none)

/-! ## net/url: URL, Parse and String -/

/-- Go's `url.Userinfo`: the name and the password, which may be unset. -/
structure Userinfo where
  username : GoString := []
  password : GoString := []
  passwordSet : Bool := false
  deriving DecidableEq, Repr

/-- Go's `url.URL`; `User` is a pointer, `none` the nil pointer. -/
structure URL where
  Scheme : GoString := []
  Opaque : GoString := []
  User : Option Userinfo := none
  Host : GoString := []
  Path : GoString := []
  RawPath : GoString := []
  ForceQuery : Bool := false
  RawQuery : GoString := []
  Fragment : GoString := []
  deriving DecidableEq, Repr

/-- Go's `url.stringContainsCTLByte`: a byte below 0x20 or equal to 0x7f occurs. -/
def stringContainsCTLByte (s : GoString) : Bool := s.any (fun b => decide (b < 0x20) || decide (b = 0x7f))

/-- ASCII letters. -/
def isLetter (c : Byte) : Bool :=
  (decide (ch 'a' ≤ c) && decide (c ≤ ch 'z')) || (decide (ch 'A' ≤ c) && decide (c ≤ ch 'Z'))

/-- ASCII digits. -/
def isDigit (c : Byte) : Bool := decide (ch '0' ≤ c) && decide (c ≤ ch '9')

/-- The loop of Go's `url.getScheme`: `s` is `rawURL[i:]`. -/
def getSchemeAux (rawURL : GoString) : GoString → Nat → Except Error (GoString × GoString)
  | [], _ => .ok ([], rawURL)
  | c :: s, i =>
    if isLetter c then getSchemeAux rawURL s (i + 1)
    else if isDigit c ∨ c = ch '+' ∨ c = ch '-' ∨ c = ch '.' then
      if i = 0 then .ok ([], rawURL) else getSchemeAux rawURL s (i + 1)
    else if c = ch ':' then
      if i = 0 then .error .missingProtocolScheme else .ok (rawURL.take i, s)
    else .ok ([], rawURL)

/-- Go's `url.getScheme(rawURL)`: the scheme and the rest after the colon. -/
def getScheme (rawURL : GoString) : Except Error (GoString × GoString) :=
  getSchemeAux rawURL rawURL 0

/-- Go's `strings.ToLower` on ASCII text. -/
def toLower (s : GoString) : GoString :=
  s.map (fun c => if ch 'A' ≤ c ∧ c ≤ ch 'Z' then c + 32 else c)

/-- The suffix of `s` that starts at the last occurrence of `c`, as in
`s[strings.LastIndex(s, c):]`. -/
def suffixFromLast (c : Byte) : GoString → Option GoString
  | [] => none
  | b :: s =>
    match suffixFromLast c s with
    | some r => some r
    | none => if b = c then some (b :: s) else none

/-- Go's `url.validOptionalPort`. -/
def validOptionalPort (port : GoString) : Bool :=
  match port with
  | [] => true
  | c :: rest => decide (c = ch ':') && rest.all isDigit

/-- The length of the text before the first occurrence of `sub`, as `strings.Index(s, sub)`
gives it, if `sub` occurs. -/
def indexOf (sub : GoString) : GoString → Option Nat
  | [] => if sub = [] then some 0 else none
  | b :: s =>
    if hasPrefix (b :: s) sub then some 0
    else (indexOf sub s).map (fun i => i + 1)

/-- The text before the last occurrence of `c` and the text after it, as
`s[:strings.LastIndex(s, c)]` and `s[strings.LastIndex(s, c)+1:]`, if `c` occurs. -/
def splitLast (c : Byte) (s : GoString) : Option (GoString × GoString) :=
  match suffixFromLast c s with
  | some suf => some (s.take (s.length - suf.length), suf.drop 1)
  | none => none

/-- The three parts of an IPv6 literal with a zone unescaped and put together, or the first
error, as `url.parseHost` does. -/
def unescapeZone (host1 host2 host3 : GoString) : Except Error GoString :=
  match unescape host1 .encodeHost with
  | .error e => .error e
  | .ok h1 =>
    match unescape host2 .encodeZone with
    | .error e => .error e
    | .ok h2 =>
      match unescape host3 .encodeHost with
      | .error e => .error e
      | .ok h3 => .ok (h1 ++ h2 ++ h3)

/-- Go's `url.parseHost`: `host[:port]`, the host a name or an IP literal in brackets, with
a zone after `%25`. -/
def parseHost (host : GoString) : Except Error GoString :=
  if hasPrefix host (str "[") then
    match splitLast (ch ']') host with
    | none => .error .missingBracket
    | some (lit, colonPort) =>
      if !validOptionalPort colonPort then .error (.invalidPort colonPort)
      else
        match indexOf (str "%25") lit with
        | some zone => unescapeZone (host.take zone) (lit.drop zone) (host.drop lit.length)
        | none => unescape host .encodeHost
  else
    match suffixFromLast (ch ':') host with
    | some colonPort =>
      if !validOptionalPort colonPort then .error (.invalidPort colonPort)
      else unescape host .encodeHost
    | none => unescape host .encodeHost

/-- Go's `url.validUserinfo`: letters, digits and `- . _ : ~ ! $ & ' ( ) * + , ; = % @`. -/
def validUserinfo (s : GoString) : Bool :=
  s.all (fun c => isAlnum c || decide (c ∈ [ch '-', ch '.', ch '_', ch ':', ch '~', ch '!',
    ch '$', ch '&', 0x27, ch '(', ch ')', ch '*', ch '+', ch ',', ch ';', ch '=', ch '%',
    ch '@']))

/-- The userinfo of an authority, as `url.parseAuthority` reads the text before the last
`@`: a name, or a name and a password split at the first colon, both unescaped. -/
def parseUserinfo (userinfo : GoString) : Except Error Userinfo :=
  if !validUserinfo userinfo then .error .invalidUserinfo
  else if ch ':' ∉ userinfo then
    match unescape userinfo .encodeUserPassword with
    | .error e => .error e
    | .ok name => .ok { username := name }
  else
    match unescape (cut (ch ':') userinfo).1 .encodeUserPassword with
    | .error e => .error e
    | .ok name =>
      match unescape (cut (ch ':') userinfo).2.1 .encodeUserPassword with
      | .error e => .error e
      | .ok password => .ok { username := name, password := password, passwordSet := true }

/-- Go's `url.parseAuthority`: the userinfo, if there is an `@`, and the host; the host is
parsed first. -/
def parseAuthority (authority : GoString) : Except Error (Option Userinfo × GoString) :=
  match splitLast (ch '@') authority with
  | none =>
    match parseHost authority with
    | .error e => .error e
    | .ok host => .ok (none, host)
  | some (userinfo, hostport) =>
    match parseHost hostport with
    | .error e => .error e
    | .ok host =>
      match parseUserinfo userinfo with
      | .error e => .error e
      | .ok user => .ok (some user, host)

/-- Go's `(*URL).setPath`: the decoded path and the raw path, kept only when it differs
from the default encoding. -/
def setPath (p : GoString) : Except Error (GoString × GoString) :=
  match unescape p .encodePath with
  | .error e => .error e
  | .ok path => .ok (path, if p = escape path .encodePath then [] else p)

/-- The part of Go's `url.parse` after the query is split off: opaque URLs, the authority
and the path. -/
def parseHier (scheme rest : GoString) (forceQuery : Bool) (rawQuery : GoString) :
    Except Error URL :=
  if !hasPrefix rest (str "/") ∧ scheme ≠ [] then
    .ok { Scheme := scheme, Opaque := rest, ForceQuery := forceQuery, RawQuery := rawQuery }
  else if !hasPrefix rest (str "/") ∧ ch ':' ∈ (cut (ch '/') rest).1 then
    .error .colonInFirstPathSegment
  else
    let hasAuthority : Bool :=
      (decide (scheme ≠ []) || !hasPrefix rest (str "///")) && hasPrefix rest (str "//")
    let authority := (rest.drop 2).takeWhile (fun b => b ≠ ch '/')
    let rest1 := if hasAuthority then (rest.drop 2).dropWhile (fun b => b ≠ ch '/') else rest
    match (if hasAuthority then parseAuthority authority else .ok (none, [])) with
    | .error e => .error e
    | .ok (user, host) =>
      match setPath rest1 with
      | .error e => .error e
      | .ok (path, rawPath) =>
        .ok { Scheme := scheme, User := user, Host := host, Path := path, RawPath := rawPath,
              ForceQuery := forceQuery, RawQuery := rawQuery }

/-- Go's `url.parse(rawURL, false)`. -/
def parse (rawURL : GoString) : Except Error URL :=
  if stringContainsCTLByte rawURL then .error .invalidControlCharacter
  else if rawURL = str "*" then .ok { Path := str "*" }
  else
    match getScheme rawURL with
    | .error e => .error e
    | .ok (scheme, rest) =>
      if hasSuffix rest (str "?") ∧ countByte rest (ch '?') = 1 then
        parseHier (toLower scheme) rest.dropLast true []
      else
        parseHier (toLower scheme) (cut (ch '?') rest).1 false (cut (ch '?') rest).2.1

/-- Go's `url.Parse(rawURL)`: the fragment is cut off and decoded, the rest is parsed. -/
def Parse (rawURL : GoString) : Except Error URL :=
  match parse (cut (ch '#') rawURL).1 with
  | .error e => .error e
  | .ok u =>
    if (cut (ch '#') rawURL).2.1 = [] then .ok u
    else
      match unescape (cut (ch '#') rawURL).2.1 .encodeFragment with
      | .error e => .error e
      | .ok frag => .ok { u with Fragment := frag }

/-- Go's `url.validEncoded(s, mode)`. -/
def validEncoded (s : GoString) (mode : Encoding) : Bool :=
  s.all (fun c =>
    if c ∈ [ch '!', ch '$', ch '&', 0x27, ch '(', ch ')', ch '*', ch '+', ch ',', ch ';',
            ch '=', ch ':', ch '@', ch '[', ch ']', ch '%'] then true
    else !shouldEscape c mode)

/-- Go's `(*Userinfo).String()`: the name and, if it is set, the password, escaped. -/
def Userinfo.String (u : Userinfo) : GoString :=
  if u.passwordSet then
    escape u.username .encodeUserPassword ++ [ch ':'] ++ escape u.password .encodeUserPassword
  else escape u.username .encodeUserPassword

namespace URL

/-- Go's `(*URL).EscapedPath()`. -/
def EscapedPath (u : URL) : GoString :=
  let rawOk : Bool :=
    match unescape u.RawPath .encodePath with
    | .ok p => decide (p = u.Path)
    | .error _ => false
  if u.RawPath ≠ [] ∧ validEncoded u.RawPath .encodePath = true ∧ rawOk = true then u.RawPath
  else if u.Path = str "*" then str "*"
  else escape u.Path .encodePath

/-- Go's `(*URL).Query()`: the parsed `RawQuery`, errors dropped. -/
def Query (u : URL) : Values := (ParseQuery u.RawQuery).1

/-- Go's `(*URL).String()`. -/
def String (u : URL) : GoString :=
  let buf : GoString := if u.Scheme ≠ [] then u.Scheme ++ [ch ':'] else []
  let buf : GoString :=
    if u.Opaque ≠ [] then buf ++ u.Opaque
    else
      let buf : GoString :=
        if u.Scheme ≠ [] ∨ u.Host ≠ [] ∨ u.User ≠ none then
          (if u.Host ≠ [] ∨ u.Path ≠ [] ∨ u.User ≠ none then buf ++ str "//" else buf)
            ++ (match u.User with
                | some ui => ui.String ++ [ch '@']
                | none => [])
            ++ (if u.Host ≠ [] then escape u.Host .encodeHost else [])
        else buf
      let path := u.EscapedPath
      let buf : GoString :=
        if path ≠ [] ∧ path.head? ≠ some (ch '/') ∧ u.Host ≠ [] then buf ++ [ch '/'] else buf
      let buf : GoString :=
        if buf.length = 0 ∧ ch ':' ∈ (cut (ch '/') path).1 then buf ++ str "./" else buf
      buf ++ path
  let buf : GoString :=
    if u.ForceQuery = true ∨ u.RawQuery ≠ [] then buf ++ [ch '?'] ++ u.RawQuery else buf
  if u.Fragment ≠ [] then buf ++ [ch '#'] ++ escape u.Fragment .encodeFragment else buf

end URL

/-! ## connpass.go -/

/-- The constant `baseURL`. -/
def baseURL : GoString := str "https://connpass.com/api/v1/event/"

/-- The type `Order`, an `int`. -/
abbrev Order := Int

/-- The constant `QueryOrderUpdate`: by updated time. -/
def QueryOrderUpdate : Order := 1

/-- The constant `QueryOrderStart`: by start time. -/
def QueryOrderStart : Order := 2

/-- The constant `QueryOrderCreate`: new arrival order. -/
def QueryOrderCreate : Order := 3

/-- The type `Format`, a `string`. -/
abbrev Format := GoString

/-- The constant `QueryFormatJSON`. -/
def QueryFormatJSON : Format := str "json"

/-- The struct `Time`. -/
structure Time where
  Year : Int := 0
  Month : Int := 0
  Day : Int := 0
  deriving DecidableEq, Repr

/-- The struct `QueryParams`; its zero value has nil slices, zero numbers and an empty
format. -/
structure QueryParams where
  EventIds : Option (List Int) := none
  KeywordsAnd : Option (List GoString) := none
  KeywordsOr : Option (List GoString) := none
  Times : Option (List Time) := none
  ParticipantNicknames : Option (List GoString) := none
  OwnerNicknames : Option (List GoString) := none
  SeriesIds : Option (List Int) := none
  Start : Int := 0
  Order : Order := 0
  Count : Int := 0
  Format : Format := []
  deriving DecidableEq, Repr

/-- The function `setIntValues`. -/
def setIntValues (uv : Values) (k : GoString) (v : Option (List Int)) : Values :=
  match v with
  | none => uv
  | some l =>
    let ss := l.foldl (fun ss iv => ss ++ [Itoa iv]) []
    Values.Set uv k (join ss (str ","))

/-- The function `setStringValues`. -/
def setStringValues (uv : Values) (k : GoString) (v : Option (List GoString)) : Values :=
  match v with
  | none => uv
  | some l => Values.Set uv k (join l (str ","))

/-- The body of the loop of `setTimeValues`: the state is the pair of slices `ymd`, `ym`. -/
def timeStep (acc : List GoString × List GoString) (tv : Time) :
    List GoString × List GoString :=
  if tv.Year > 0 ∧ tv.Month > 0 ∧ tv.Month < 12 then
    if tv.Day > 0 then
      (acc.1 ++ [fmtZeroPad 4 tv.Year ++ fmtZeroPad 2 tv.Month ++ fmtZeroPad 2 tv.Day], acc.2)
    else (acc.1, acc.2 ++ [fmtZeroPad 4 tv.Year ++ fmtZeroPad 2 tv.Month])
  else acc

/-- The function `setTimeValues`. -/
def setTimeValues (uv : Values) (v : Option (List Time)) : Values :=
  match v with
  | none => uv
  | some l =>
    if l.length > 0 then
      let r := l.foldl timeStep ([], [])
      let uv1 := if r.1.length > 0 then Values.Set uv (str "ymd") (join r.1 (str ",")) else uv
      if r.2.length > 0 then Values.Set uv1 (str "ym") (join r.2 (str ",")) else uv1
    else uv

/-- The map `v` that `buildURL` fills (lines 118 to 137). -/
def queryValues (q : QueryParams) : Values :=
  let v : Values := []
  let v := setIntValues v (str "event_id") q.EventIds
  let v := setStringValues v (str "keyword") q.KeywordsAnd
  let v := setStringValues v (str "keyword_or") q.KeywordsOr
  let v := setTimeValues v q.Times
  let v := setStringValues v (str "nickname") q.ParticipantNicknames
  let v := setStringValues v (str "owner_nickname") q.OwnerNicknames
  let v := setIntValues v (str "series_id") q.SeriesIds
  let v := if q.Start > 0 then Values.Set v (str "start") (Itoa q.Start) else v
  let v := if q.Order > 0 then Values.Set v (str "order") (Itoa q.Order) else v
  let v := if q.Count > 0 then Values.Set v (str "count") (Itoa q.Count) else v
  let v := if q.Format ≠ [] then Values.Set v (str "format") q.Format else v
  v

/-- The function `buildURL`. -/
def buildURL (q : QueryParams) : Except Error GoString :=
  match Parse baseURL with
  | .error err => .error err
  | .ok u => .ok (URL.String { u with RawQuery := Values.Encode (queryValues q) })

/-- The function `buildURL` when the range over the map inside `v.Encode()` yields the
keys in the order `ks`. -/
def buildURLRange (q : QueryParams) (ks : List GoString) : Except Error GoString :=
  match Parse baseURL with
  | .error err => .error err
  | .ok u => .ok (URL.String { u with RawQuery := Values.EncodeRange (queryValues q) ks })

/-- What `TestBuildURL_withQuery` reads: the URL built by `buildURL`, parsed again with
`url.Parse`, and its query decoded by `Query()`. -/
def builtQuery (q : QueryParams) : Except Error Values :=
  match buildURL q with
  | .error e => .error e
  | .ok s =>
    match Parse s with
    | .error e => .error e
    | .ok u => .ok u.Query

/-- The key that the loop of `url.parseQuery` stores a piece of the query under, if it
stores the piece. -/
def pieceKey (piece : GoString) : Option GoString :=
  if ch ';' ∈ piece then none
  else if piece = [] then none
  else
    match QueryUnescape (cut (ch '=') piece).1, QueryUnescape (cut (ch '=') piece).2.1 with
    | .ok k, .ok _ => some k
    | _, _ => none

/-- The keys of a raw query in the order they occur in it. -/
def queryKeys (query : GoString) : List GoString :=
  if query = [] then [] else (splitAmp query []).filterMap pieceKey

/-- The keys of the query of the URL built by `buildURL`, in the order they occur in the
URL. -/
def builtKeys (q : QueryParams) : Except Error (List GoString) :=
  match buildURL q with
  | .error e => .error e
  | .ok s =>
    match Parse s with
    | .error e => .error e
    | .ok u => .ok (queryKeys u.RawQuery)

/-- The `QueryParams` of `TestBuildURL_withQuery`. -/
def testParams : QueryParams :=
  { EventIds := some [10, 20]
    KeywordsAnd := some [str "a", str "b"]
    KeywordsOr := some [str "c", str "d"]
    Times := some [{ Year := 2018, Month := 2, Day := 10 }, { Year := 2019, Month := 3, Day := 11 },
                   { Year := 2020, Month := 4 }]
    ParticipantNicknames := some [str "foo", str "bar"]
    OwnerNicknames := some [str "foo", str "bar", str "baz"]
    SeriesIds := some [1000, 2000, 5000]
    Start := 5
    Order := QueryOrderUpdate
    Count := 100
    Format := QueryFormatJSON }

/-! ## Definitions used in the statements and proofs -/

/-- Bytes that `QueryEscape` can produce. -/
def querySafe (b : Byte) : Bool :=
  isAlnum b || decide (b ∈ str "-_.~%+")

/-- The pieces after the first one, each preceded by `&`. -/
def tailJoin : List GoString → GoString
  | [] => []
  | p :: ps => ch '&' :: (p ++ tailJoin ps)

/-- The text `Encode` writes for one key and one of its values. -/
def encodePair (p : GoString × GoString) : GoString :=
  QueryEscape p.1 ++ ch '=' :: QueryEscape p.2

/-- The key-value pairs of `v` for the keys `ks`, in the order `Encode` writes them. -/
def pairsOf (v : Values) : List GoString → List (GoString × GoString)
  | [] => []
  | k :: ks => (Values.get v k).map (fun val => (k, val)) ++ pairsOf v ks

/-- One write of `Encode` to its buffer. -/
def writePair (buf : GoString) (p : GoString × GoString) : GoString :=
  (if buf.length > 0 then buf ++ [ch '&'] else buf) ++ QueryEscape p.1 ++ [ch '='] ++ QueryEscape p.2

/-- The key-value pairs `Encode` writes, in order. -/
def sortedPairs (v : Values) : List (GoString × GoString) :=
  pairsOf v (List.insertionSort StrLE (Values.keys v))

/-- The invariant of a map built by `Set` and `Add`: no key twice, no key without value. -/
def Values.WF (m : Values) : Prop := (Values.keys m).Nodup ∧ ∀ p ∈ m, p.2 ≠ []

/-- The URL that `url.Parse(baseURL)` returns. -/
def baseParsed : URL :=
  { Scheme := str "https", Host := str "connpass.com", Path := str "/api/v1/event/" }

/-- Bytes that `Values.Encode` can produce. -/
def encodeSafe (b : Byte) : Bool := querySafe b || decide (b = ch '=') || decide (b = ch '&')

/-- The text `URL.String` gives to the base URL with the query `enc`. -/
def withQuery (enc : GoString) : GoString :=
  match enc with
  | [] => baseURL
  | b :: t => baseURL ++ ch '?' :: b :: t

/-- A step of `buildURL`: `v.Set(k, x)` when the value is present, nothing otherwise. -/
def optSet (v : Values) (k : GoString) (o : Option GoString) : Values :=
  match o with
  | none => v
  | some x => Values.Set v k x

/-- The value a nil or non-nil list of strings is stored as. -/
def joined (v : Option (List GoString)) : Option GoString := v.map (fun l => join l (str ","))

/-- Whether `setTimeValues` keeps a date: `Year > 0`, `Month > 0` and `Month < 12`. -/
def timeKept (tv : Time) : Bool := decide (tv.Year > 0 ∧ tv.Month > 0 ∧ tv.Month < 12)

/-- The slice `ymd` after the loop of `setTimeValues`. -/
def ymdOf (l : List Time) : List GoString :=
  (l.filter (fun tv => timeKept tv && decide (tv.Day > 0))).map
    (fun tv => fmtZeroPad 4 tv.Year ++ fmtZeroPad 2 tv.Month ++ fmtZeroPad 2 tv.Day)

/-- The slice `ym` after the loop of `setTimeValues`. -/
def ymOf (l : List Time) : List GoString :=
  (l.filter (fun tv => timeKept tv && !decide (tv.Day > 0))).map
    (fun tv => fmtZeroPad 4 tv.Year ++ fmtZeroPad 2 tv.Month)

/-- The value stored for a bucket of dates: nothing for an empty bucket. -/
def bucket (b : List GoString) : Option GoString := if b = [] then none else some (join b (str ","))

/-- The twelve steps of `buildURL` in source order: the key and the value set, if any. -/
def stepsOf (q : QueryParams) : List (GoString × Option GoString) :=
  [ (str "event_id", joined (q.EventIds.map (fun l => l.map Itoa))),
    (str "keyword", joined q.KeywordsAnd),
    (str "keyword_or", joined q.KeywordsOr),
    (str "ymd", bucket (ymdOf (q.Times.getD []))),
    (str "ym", bucket (ymOf (q.Times.getD []))),
    (str "nickname", joined q.ParticipantNicknames),
    (str "owner_nickname", joined q.OwnerNicknames),
    (str "series_id", joined (q.SeriesIds.map (fun l => l.map Itoa))),
    (str "start", if q.Start > 0 then some (Itoa q.Start) else none),
    (str "order", if q.Order > 0 then some (Itoa q.Order) else none),
    (str "count", if q.Count > 0 then some (Itoa q.Count) else none),
    (str "format", if q.Format ≠ [] then some q.Format else none) ]

/-- The map holding the values set by a list of steps, in the order of the steps. -/
def entriesOf (steps : List (GoString × Option GoString)) : Values :=
  steps.filterMap (fun s => s.2.map (fun x => (s.1, [x])))

/-- The value a list of steps sets under `key`. -/
def stepValue (steps : List (GoString × Option GoString)) (key : GoString) : Option GoString :=
  match steps.find? (fun s => decide (s.1 = key)) with
  | some s => s.2
  | none => none

/-- The keys of `buildURL` in the order of its steps. -/
def stepKeys : List GoString :=
  [str "event_id", str "keyword", str "keyword_or", str "ymd", str "ym", str "nickname",
   str "owner_nickname", str "series_id", str "start", str "order", str "count", str "format"]

/-- The decimal numeral of a natural number, by its digits in base ten. -/
def decimal (n : Nat) : GoString :=
  if n = 0 then [ch '0'] else (Nat.digits 10 n).reverse.map (fun d => Fin.ofNat (48 + d))

/-- The decimal numeral of `n`, padded on the left with zeros to at least `w` characters. -/
def zeroPadded (w n : Nat) : GoString :=
  List.replicate (w - (decimal n).length) (ch '0') ++ decimal n

/-- The keys of `buildURL` in ascending byte order, the order `Values.Encode` writes. -/
def sortedStepKeys : List GoString :=
  [str "count", str "event_id", str "format", str "keyword", str "keyword_or", str "nickname",
   str "order", str "owner_nickname", str "series_id", str "start", str "ym", str "ymd"]

/-- Whether a date is valid in the words of the specification: `Year > 0` and
`1 <= Month <= 11`. -/
def specValid (t : Time) : Bool := decide (t.Year > 0 ∧ 1 ≤ t.Month ∧ t.Month ≤ 11)

/-- The zero-padded `YYYYMMDD` form of a date. -/
def specYMD (t : Time) : GoString :=
  zeroPadded 4 t.Year.toNat ++ zeroPadded 2 t.Month.toNat ++ zeroPadded 2 t.Day.toNat

/-- The zero-padded `YYYYMM` form of a date. -/
def specYM (t : Time) : GoString := zeroPadded 4 t.Year.toNat ++ zeroPadded 2 t.Month.toNat

/-- What the specification says `setTimeValues` does: the valid entries are split into those
with a day and the others, each bucket is formatted and comma-joined in input order, and a
key is set exactly when its bucket is not empty. -/
def specTimeValues (uv : Values) (v : Option (List Time)) : Values :=
  let l := v.getD []
  let ymd := (l.filter (fun t => specValid t && decide (t.Day > 0))).map specYMD
  let ym := (l.filter (fun t => specValid t && !decide (t.Day > 0))).map specYM
  let uv1 := if ymd ≠ [] then Values.Set uv (str "ymd") (join ymd (str ",")) else uv
  if ym ≠ [] then Values.Set uv1 (str "ym") (join ym (str ",")) else uv1

/-- The URL `buildURL` returns for the `QueryParams` of `TestBuildURL_withQuery`. -/
def testURL : GoString :=
  str ("https://connpass.com/api/v1/event/?count=100&event_id=10%2C20&format=json"
    ++ "&keyword=a%2Cb&keyword_or=c%2Cd&nickname=foo%2Cbar&order=1"
    ++ "&owner_nickname=foo%2Cbar%2Cbaz&series_id=1000%2C2000%2C5000&start=5"
    ++ "&ym=202004&ymd=20180210%2C20190311")

/-- The decoded query of `testURL`. -/
def testQuery : Values :=
  [ (str "count", [str "100"]), (str "event_id", [str "10,20"]), (str "format", [str "json"]),
    (str "keyword", [str "a,b"]), (str "keyword_or", [str "c,d"]),
    (str "nickname", [str "foo,bar"]), (str "order", [str "1"]),
    (str "owner_nickname", [str "foo,bar,baz"]), (str "series_id", [str "1000,2000,5000"]),
    (str "start", [str "5"]), (str "ym", [str "202004"]), (str "ymd", [str "20180210,20190311"]) ]

/-! ### The order of sort.Strings is a total order -/

instance instIsTotalStrLE : IsTotal GoString StrLE :=
  ⟨fun a b => by
    induction a generalizing b with
    | nil => exact Or.inl (by simp [StrLE, strLe])
    | cons x a ih =>
      cases b with
      | nil => exact Or.inr (by simp [StrLE, strLe])
      | cons y b =>
        simp only [StrLE, strLe, Bool.or_eq_true, Bool.and_eq_true, decide_eq_true_eq]
        rcases lt_trichotomy x y with h | h | h
        · exact Or.inl (Or.inl h)
        · rcases ih b with h1 | h1
          · exact Or.inl (Or.inr ⟨h, h1⟩)
          · exact Or.inr (Or.inr ⟨h.symm, h1⟩)
        · exact Or.inr (Or.inl h)⟩

instance instIsTransStrLE : IsTrans GoString StrLE :=
  ⟨fun a b c h1 h2 => by
    induction a generalizing b c with
    | nil => simp [StrLE, strLe]
    | cons x a ih =>
      cases b with
      | nil => simp [StrLE, strLe] at h1
      | cons y b =>
        cases c with
        | nil => simp [StrLE, strLe] at h2
        | cons z c =>
          simp only [StrLE, strLe, Bool.or_eq_true, Bool.and_eq_true, decide_eq_true_eq]
            at h1 h2 ⊢
          rcases h1 with h1 | ⟨h1, h1r⟩ <;> rcases h2 with h2 | ⟨h2, h2r⟩
          · exact Or.inl (lt_trans h1 h2)
          · exact Or.inl (h2 ▸ h1)
          · exact Or.inl (h1 ▸ h2)
          · exact Or.inr ⟨h1.trans h2, ih b c h1r h2r⟩⟩

instance instIsAntisymmStrLE : IsAntisymm GoString StrLE :=
  ⟨fun a b h1 h2 => by
    induction a generalizing b with
    | nil =>
      cases b with
      | nil => rfl
      | cons y b => simp [StrLE, strLe] at h2
    | cons x a ih =>
      cases b with
      | nil => simp [StrLE, strLe] at h1
      | cons y b =>
        simp only [StrLE, strLe, Bool.or_eq_true, Bool.and_eq_true, decide_eq_true_eq] at h1 h2
        rcases h1 with h1 | ⟨h1, h1r⟩ <;> rcases h2 with h2 | ⟨h2, h2r⟩
        · exact absurd h1 (lt_asymm h2)
        · exact absurd h1 (h2 ▸ lt_irrefl _)
        · exact absurd h2 (h1 ▸ lt_irrefl _)
        · rw [h1, ih b h1r h2r]⟩

/-! ## net/url: ResolveReference -/

/-- Go's `strings.Split(s, sep)` for a one-byte separator; `cur` holds the piece being
read, reversed. -/
def splitByte (sep : Byte) : GoString → GoString → List GoString
  | [], cur => [cur.reverse]
  | b :: s, cur => if b = sep then cur.reverse :: splitByte sep s [] else splitByte sep s (b :: cur)

/-- The text `s[:strings.LastIndex(s, c)+1]`: `s` up to and including its last `c`, empty
when `c` does not occur. -/
def throughLast (c : Byte) (s : GoString) : GoString :=
  (s.reverse.dropWhile (fun b => b ≠ c)).reverse

/-- Go's `strings.TrimPrefix(s, "/")`. -/
def trimSlash : GoString → GoString
  | [] => []
  | b :: s => if b = ch '/' then s else b :: s

/-- Go's `url.resolvePath(base, ref)`: the reference path resolved against the base path,
with the `.` and `..` elements removed. -/
def resolvePath (base ref : GoString) : GoString :=
  let full : GoString :=
    if ref = [] then base
    else if ref.head? ≠ some (ch '/') then throughLast (ch '/') base ++ ref
    else ref
  if full = [] then []
  else
    let src := splitByte (ch '/') full []
    let dst : List GoString :=
      src.foldl
        (fun dst elem =>
          if elem = str "." then dst
          else if elem = str ".." then dst.dropLast
          else dst ++ [elem])
        []
    let dst : List GoString :=
      if src.getLast? = some (str ".") ∨ src.getLast? = some (str "..") then dst ++ [[]]
      else dst
    ch '/' :: trimSlash (join dst (str "/"))

/-- The assignment `url.setPath(p)` whose error `ResolveReference` ignores: on an error the
path is left as it was. -/
def URL.withPath (u : URL) (p : GoString) : URL :=
  match setPath p with
  | .error _ => u
  | .ok (path, rawPath) => { u with Path := path, RawPath := rawPath }

/-- Go's `(*URL).ResolveReference(ref)`. The receiver is a pointer: `none` is the nil
pointer, which the function dereferences only for a reference without a scheme, and then
panics. -/
def ResolveReference (u : Option URL) (ref : URL) : Option URL :=
  if ref.Scheme ≠ [] then some (URL.withPath ref (resolvePath ref.EscapedPath []))
  else
    match u with
    | none => none
    | some u =>
      let url : URL := { ref with Scheme := u.Scheme }
      if ref.Host ≠ [] ∨ ref.User ≠ none then
        some (URL.withPath url (resolvePath ref.EscapedPath []))
      else if ref.Opaque ≠ [] then some { url with User := none, Host := [], Path := [] }
      else
        let url : URL :=
          if ref.Path = [] ∧ ref.RawQuery = [] then
            { url with RawQuery := u.RawQuery,
                       Fragment := if ref.Fragment = [] then u.Fragment else url.Fragment }
          else url
        some (URL.withPath { url with Host := u.Host, User := u.User }
          (resolvePath u.EscapedPath ref.EscapedPath))

/-! ## net/http: requests and responses -/

/-- The values of Go's `error` that the client can return. -/
inductive GoError
  | url (e : Error)
  | invalidMethod (method : GoString)
  | nilPointer
  | jsonSyntax
  | jsonEOF
  | unmarshalType (value : GoString)
  | time (msg : GoString)
  | transport (msg : GoString)
  | closedBody
  deriving DecidableEq, Repr

/-- Go's `httpguts.IsTokenRune` on a byte, also `textproto.validHeaderFieldByte`: letters,
digits and the marks of an HTTP token. -/
def isTokenByte (c : Byte) : Bool :=
  isAlnum c || decide (c ∈ [ch '!', ch '#', ch '$', ch '%', ch '&', 0x27, ch '*', ch '+', ch '-',
    ch '.', ch '^', ch '_', 0x60, ch '|', ch '~'])

/-- Go's `http.validMethod`. -/
def validMethod (method : GoString) : Bool := decide (method.length > 0) && method.all isTokenByte

/-- The loop of Go's `textproto.canonicalMIMEHeaderKey`: upper case at the start and after
each dash, lower case elsewhere. -/
def canonLoop : Bool → GoString → GoString
  | _, [] => []
  | upper, c :: s =>
    let c1 : Byte :=
      if upper = true ∧ ch 'a' ≤ c ∧ c ≤ ch 'z' then c - 32
      else if upper = false ∧ ch 'A' ≤ c ∧ c ≤ ch 'Z' then c + 32
      else c
    c1 :: canonLoop (decide (c1 = ch '-')) s

/-- Go's `textproto.CanonicalMIMEHeaderKey`: a key with a byte that is not allowed in a
header field name is left as it is. -/
def CanonicalMIMEHeaderKey (s : GoString) : GoString :=
  if s.all isTokenByte then canonLoop true s else s

/-- Go's `http.Header`, a `map[string][]string`. -/
abbrev Header := Values

/-- Go's `Header.Set(key, value)`. -/
def Header.Set (h : Header) (key value : GoString) : Header :=
  Values.Set h (CanonicalMIMEHeaderKey key) value

/-- Go's `http.removeEmptyPort`: a host that ends in `:` loses the colon. -/
def removeEmptyPort (host : GoString) : GoString :=
  match suffixFromLast (ch ':') host with
  | some suf =>
    if (suffixFromLast (ch ']') suf).isNone ∧ host.getLast? = some (ch ':') then host.dropLast
    else host
  | none => host

/-- Go's `http.Request`, the fields the client sets: the body is the content of the
buffer the request was made with. -/
structure Request where
  Method : GoString
  URL : URL
  Header : Header := []
  Body : GoString := []
  Host : GoString := []
  deriving DecidableEq, Repr

/-- Go's `http.NewRequest(method, url, body)` with a `*bytes.Buffer` body. -/
def NewRequest (method url body : GoString) : Except GoError Request :=
  let method : GoString := if method = [] then str "GET" else method
  if !validMethod method then .error (.invalidMethod method)
  else
    match Parse url with
    | .error e => .error (.url e)
    | .ok u =>
      .ok { Method := method, URL := { u with Host := removeEmptyPort u.Host }, Header := [],
            Body := body, Host := removeEmptyPort u.Host }

/-- The body of a response: a stream with its content and whether it has been closed. -/
structure Body where
  data : GoString
  closed : Bool := false
  deriving DecidableEq, Repr

/-- Go's `Body.Close()`. -/
def Body.Close (b : Body) : Body := { b with closed := true }

/-- Reading the whole stream: an error once the body is closed. -/
def Body.read (b : Body) : Except GoError GoString :=
  if b.closed then .error .closedBody else .ok b.data

/-- Go's `http.Response`: the status code and the body. -/
structure Response where
  StatusCode : Int
  Body : Body
  deriving DecidableEq, Repr

/-- The transport, `(*http.Client).Do`: a request gives an error or a response. -/
abbrev Transport := Request → Except GoError Response

/-! ## connpass.go: the client -/

/-- The constant `libraryVersion`. -/
def libraryVersion : GoString := str "1.0.0"

/-- The constant `userAgent`. -/
def userAgent : GoString := str "connpass-go/" ++ libraryVersion

/-- The constant `mediaType`. -/
def mediaType : GoString := str "application/json"

/-- The constant `http.MethodGet`. -/
def MethodGet : GoString := str "GET"

/-- The struct `Client`. `BaseURL` is a pointer, `none` the nil pointer. -/
structure Client where
  HTTPClient : Transport
  BaseURL : Option URL
  UserAgent : GoString

/-- The function `NewClient`; `defaultClient` is `http.DefaultClient` and `none` the nil
argument. The error of `url.Parse` is dropped, the pointer is then nil. -/
def NewClient (defaultClient : Transport) (httpClient : Option Transport) : Client :=
  let httpClient : Transport :=
    match httpClient with
    | none => defaultClient
    | some t => t
  let baseURL : Option URL :=
    match Parse baseURL with
    | .ok u => some u
    | .error _ => none
  { HTTPClient := httpClient, BaseURL := baseURL, UserAgent := userAgent }

/-- The buffer `newRequest` fills: empty for a nil body (`none`), else what
`json.NewEncoder(buf).Encode(body)` writes, the JSON text of the body and a newline;
`marshal` is `json.Marshal` at the type of the body. -/
def encodeBody {β : Type} (marshal : β → Except GoError GoString) (body : Option β) :
    Except GoError GoString :=
  match body with
  | none => .ok []
  | some b =>
    match marshal b with
    | .error err => .error err
    | .ok js => .ok (js ++ str "\n")

/-- The method `newRequest`. `body` is the interface value, `none` for nil; `marshal` is
`json.Marshal` at the type of the body; `version` is `runtime.Version()`. The context is
not used. -/
def Client.newRequest {β : Type} (c : Client) (version : GoString)
    (marshal : β → Except GoError GoString) (method urlStr : GoString) (body : Option β) :
    Except GoError Request :=
  match Parse urlStr with
  | .error err => .error (.url err)
  | .ok rel =>
    match ResolveReference c.BaseURL rel with
    | none => .error .nilPointer
    | some u =>
      match encodeBody marshal body with
      | .error err => .error err
      | .ok buf =>
        match NewRequest method u.String buf with
        | .error err => .error err
        | .ok req =>
          let header := Header.Set req.Header (str "Content-Type") mediaType
          let header := Header.Set header (str "Accept") mediaType
          let header := Header.Set header (str "User-Agent") (c.UserAgent ++ str " " ++ version)
          .ok { req with Header := header }

/-! ## encoding/json: values and the decoder -/

/-- A JSON value as the decoder of `encoding/json` reads it: a number keeps its literal, a
string holds its unquoted bytes, an object its members in the order of the text. -/
inductive Json
  | null
  | bool (b : Bool)
  | number (lit : GoString)
  | string (s : GoString)
  | array (elems : List Json)
  | object (members : List (GoString × Json))

/-- Go's `utf8.EncodeRune`: a surrogate or a value above U+10FFFF is written as U+FFFD. -/
def encodeRune (r : Nat) : GoString :=
  if r < 0x80 then [Fin.ofNat r]
  else if r < 0x800 then [Fin.ofNat (0xC0 + r / 64), Fin.ofNat (0x80 + r % 64)]
  else if (0xD800 ≤ r ∧ r < 0xE000) ∨ 0x10FFFF < r then [0xEF, 0xBF, 0xBD]
  else if r < 0x10000 then
    [Fin.ofNat (0xE0 + r / 4096), Fin.ofNat (0x80 + r / 64 % 64), Fin.ofNat (0x80 + r % 64)]
  else
    [Fin.ofNat (0xF0 + r / 262144), Fin.ofNat (0x80 + r / 4096 % 64),
     Fin.ofNat (0x80 + r / 64 % 64), Fin.ofNat (0x80 + r % 64)]

/-- A continuation byte of UTF-8 in the range `lo` to `hi`. -/
def inRange (lo hi : Nat) (b : Byte) : Bool := decide (lo ≤ b.val) && decide (b.val ≤ hi)

/-- Go's `utf8.DecodeRune` on a text that starts with a byte of 0x80 or more: the rune and
its size, `(0xFFFD, 1)` for an invalid encoding. -/
def decodeRune (s : GoString) : Nat × Nat :=
  match s with
  | b0 :: b1 :: rest =>
    if inRange 0xC2 0xDF b0 ∧ inRange 0x80 0xBF b1 then ((b0.val % 32) * 64 + b1.val % 64, 2)
    else
      let lo : Nat := if b0.val = 0xE0 then 0xA0 else if b0.val = 0xF0 then 0x90 else 0x80
      let hi : Nat := if b0.val = 0xED then 0x9F else if b0.val = 0xF4 then 0x8F else 0xBF
      match rest with
      | b2 :: rest2 =>
        if inRange 0xE0 0xEF b0 ∧ inRange lo hi b1 ∧ inRange 0x80 0xBF b2 then
          ((b0.val % 16) * 4096 + (b1.val % 64) * 64 + b2.val % 64, 3)
        else
          match rest2 with
          | b3 :: _ =>
            if inRange 0xF0 0xF4 b0 ∧ inRange lo hi b1 ∧ inRange 0x80 0xBF b2
                ∧ inRange 0x80 0xBF b3 then
              ((b0.val % 8) * 262144 + (b1.val % 64) * 4096 + (b2.val % 64) * 64 + b3.val % 64, 4)
            else (0xFFFD, 1)
          | [] => (0xFFFD, 1)
      | [] => (0xFFFD, 1)
  | _ => (0xFFFD, 1)

/-- Go's `json.getu4` on the four bytes after a backslash and `u`: the rune, if they are
hexadecimal digits. -/
def getu4 (a b c d : Byte) : Option Nat :=
  if ishex a ∧ ishex b ∧ ishex c ∧ ishex d then
    some ((unhex a).val * 4096 + (unhex b).val * 256 + (unhex c).val * 16 + (unhex d).val)
  else none

/-- The bytes a backslash followed by `c` stands for, when `c` is not `u`. -/
def simpleEscape (c : Byte) : Option Byte :=
  if c = 0x22 ∨ c = ch '\\' ∨ c = ch '/' then some c
  else if c = ch 'b' then some 8
  else if c = ch 'f' then some 12
  else if c = ch 'n' then some 10
  else if c = ch 'r' then some 13
  else if c = ch 't' then some 9
  else none

/-- A JSON string literal after its opening quote, read as the scanner and `json.unquote`
do: the unquoted bytes (in `acc`, reversed) and the rest of the text after the closing
quote. Invalid UTF-8 and unpaired surrogates become U+FFFD. -/
def parseStringBody : Nat → GoString → GoString → Except GoError (GoString × GoString)
  | 0, _, _ => .error .jsonEOF
  | _ + 1, [], _ => .error .jsonEOF
  | fuel + 1, c :: s, acc =>
    if c = 0x22 then .ok (acc.reverse, s)
    else if c = ch '\\' then
      match s with
      | [] => .error .jsonEOF
      | e :: s1 =>
        if e = ch 'u' then
          match s1 with
          | a :: b :: c1 :: d :: s2 =>
            match getu4 a b c1 d with
            | none => .error .jsonSyntax
            | some rr =>
              if 0xD800 ≤ rr ∧ rr < 0xE000 then
                match s2 with
                | b0 :: u0 :: a2 :: b2 :: c2 :: d2 :: s3 =>
                  match getu4 a2 b2 c2 d2 with
                  | some rr1 =>
                    if b0 = ch '\\' ∧ u0 = ch 'u' ∧ rr < 0xDC00 ∧ 0xDC00 ≤ rr1 ∧ rr1 < 0xE000 then
                      parseStringBody fuel s3
                        ((encodeRune ((rr - 0xD800) * 1024 + (rr1 - 0xDC00) + 0x10000)).reverse
                          ++ acc)
                    else parseStringBody fuel s2 ((encodeRune 0xFFFD).reverse ++ acc)
                  | none => parseStringBody fuel s2 ((encodeRune 0xFFFD).reverse ++ acc)
                | _ => parseStringBody fuel s2 ((encodeRune 0xFFFD).reverse ++ acc)
              else parseStringBody fuel s2 ((encodeRune rr).reverse ++ acc)
          | _ => .error .jsonSyntax
        else
          match simpleEscape e with
          | some b => parseStringBody fuel s1 (b :: acc)
          | none => .error .jsonSyntax
    else if c < 0x20 then .error .jsonSyntax
    else if c < 0x80 then parseStringBody fuel s (c :: acc)
    else
      let r := decodeRune (c :: s)
      parseStringBody fuel ((c :: s).drop r.2) ((encodeRune r.1).reverse ++ acc)

/-- The digits at the start of a text and the rest. -/
def spanDigits (s : GoString) : GoString × GoString := (s.takeWhile isDigit, s.dropWhile isDigit)

/-- A JSON number literal at the start of a text, by the grammar of the scanner:
`-? (0 | [1-9][0-9]*) (. [0-9]+)? ([eE] [+-]? [0-9]+)?`; the literal and the rest. -/
def parseNumber (s : GoString) : Except GoError (GoString × GoString) :=
  let sign : GoString := if s.head? = some (ch '-') then [ch '-'] else []
  let s1 := s.drop sign.length
  let int : Except GoError (GoString × GoString) :=
    match s1 with
    | [] => .error .jsonEOF
    | d :: rest =>
      if d = ch '0' then .ok ([d], rest)
      else if isDigit d then .ok (d :: (spanDigits rest).1, (spanDigits rest).2)
      else .error .jsonSyntax
  match int with
  | .error e => .error e
  | .ok (ip, s2) =>
    let frac : Except GoError (GoString × GoString) :=
      match s2 with
      | p :: rest =>
        if p = ch '.' then
          if (spanDigits rest).1 = [] then .error .jsonSyntax
          else .ok (p :: (spanDigits rest).1, (spanDigits rest).2)
        else .ok ([], s2)
      | [] => .ok ([], s2)
    match frac with
    | .error e => .error e
    | .ok (fp, s3) =>
      match s3 with
      | e :: rest =>
        if e = ch 'e' ∨ e = ch 'E' then
          let sg : GoString :=
            if rest.head? = some (ch '+') ∨ rest.head? = some (ch '-') then rest.take 1 else []
          let rest1 := rest.drop sg.length
          if (spanDigits rest1).1 = [] then .error .jsonSyntax
          else .ok (sign ++ ip ++ fp ++ e :: sg ++ (spanDigits rest1).1, (spanDigits rest1).2)
        else .ok (sign ++ ip ++ fp, s3)
      | [] => .ok (sign ++ ip ++ fp, s3)

/-- The white space of JSON: space, tab, carriage return, line feed. -/
def isSpace (c : Byte) : Bool := decide (c = 0x20 ∨ c = 0x09 ∨ c = 0x0D ∨ c = 0x0A)

/-- The text after its leading white space. -/
def skipSpace (s : GoString) : GoString := s.dropWhile isSpace

mutual

/-- The JSON value at the start of a text and the rest of the text; `fuel` bounds the
number of nested calls, the length of the text is enough. -/
def parseValue : Nat → GoString → Except GoError (Json × GoString)
  | 0, _ => .error .jsonSyntax
  | fuel + 1, s =>
    match skipSpace s with
    | [] => .error .jsonEOF
    | c :: rest =>
      if c = ch '{' then
        match skipSpace rest with
        | [] => .error .jsonEOF
        | c1 :: rest1 =>
          if c1 = ch '}' then .ok (.object [], rest1)
          else
            match parseMembers fuel (c1 :: rest1) with
            | .error e => .error e
            | .ok (ms, rest2) => .ok (.object ms, rest2)
      else if c = ch '[' then
        match skipSpace rest with
        | [] => .error .jsonEOF
        | c1 :: rest1 =>
          if c1 = ch ']' then .ok (.array [], rest1)
          else
            match parseElems fuel (c1 :: rest1) with
            | .error e => .error e
            | .ok (es, rest2) => .ok (.array es, rest2)
      else if c = 0x22 then
        match parseStringBody rest.length rest [] with
        | .error e => .error e
        | .ok (str1, rest1) => .ok (.string str1, rest1)
      else if hasPrefix (c :: rest) (str "true") then .ok (.bool true, rest.drop 3)
      else if hasPrefix (c :: rest) (str "false") then .ok (.bool false, rest.drop 4)
      else if hasPrefix (c :: rest) (str "null") then .ok (.null, rest.drop 3)
      else if c = ch '-' ∨ isDigit c then
        match parseNumber (c :: rest) with
        | .error e => .error e
        | .ok (lit, rest1) => .ok (.number lit, rest1)
      else .error .jsonSyntax

/-- The elements of an array after its opening bracket, up to the closing one. -/
def parseElems : Nat → GoString → Except GoError (List Json × GoString)
  | 0, _ => .error .jsonSyntax
  | fuel + 1, s =>
    match parseValue fuel s with
    | .error e => .error e
    | .ok (v, rest) =>
      match skipSpace rest with
      | [] => .error .jsonEOF
      | c :: rest1 =>
        if c = ch ']' then .ok ([v], rest1)
        else if c = ch ',' then
          match parseElems fuel rest1 with
          | .error e => .error e
          | .ok (vs, rest2) => .ok (v :: vs, rest2)
        else .error .jsonSyntax

/-- The members of an object, from the quote of a key up to the closing brace. -/
def parseMembers : Nat → GoString → Except GoError (List (GoString × Json) × GoString)
  | 0, _ => .error .jsonSyntax
  | fuel + 1, s =>
    match skipSpace s with
    | [] => .error .jsonEOF
    | q :: rest =>
      if q ≠ 0x22 then .error .jsonSyntax
      else
        match parseStringBody rest.length rest [] with
        | .error e => .error e
        | .ok (key, rest1) =>
          match skipSpace rest1 with
          | [] => .error .jsonEOF
          | c :: rest2 =>
            if c ≠ ch ':' then .error .jsonSyntax
            else
              match parseValue fuel rest2 with
              | .error e => .error e
              | .ok (v, rest3) =>
                match skipSpace rest3 with
                | [] => .error .jsonEOF
                | c1 :: rest4 =>
                  if c1 = ch '}' then .ok ([(key, v)], rest4)
                  else if c1 = ch ',' then
                    match parseMembers fuel rest4 with
                    | .error e => .error e
                    | .ok (ms, rest5) => .ok ((key, v) :: ms, rest5)
                  else .error .jsonSyntax

end

/-- The first JSON value of a stream, as `(*json.Decoder).Decode` reads it; what follows
the value is left in the stream. -/
def parseJSON (data : GoString) : Except GoError Json :=
  match parseValue (data.length + 1) data with
  | .error e => .error e
  | .ok (v, _) => .ok v

/-- The least value of a Go `int` on a 64-bit platform. -/
def minInt : Int := -9223372036854775808

/-- The greatest value of a Go `int` on a 64-bit platform. -/
def maxInt : Int := 9223372036854775807

/-- Go's `strconv.ParseInt(s, 10, 64)`: an optional sign and decimal digits, within the
range of `int64`. -/
def ParseInt (s : GoString) : Option Int :=
  let body : GoString :=
    if s.head? = some (ch '-') ∨ s.head? = some (ch '+') then s.drop 1 else s
  if body = [] ∨ body.all isDigit = false then none
  else
    let n : Nat := body.foldl (fun acc d => acc * 10 + (d.val - 48)) 0
    let v : Int := if s.head? = some (ch '-') then -(n : Int) else (n : Int)
    if minInt ≤ v ∧ v ≤ maxInt then some v else none

/-- The state of `json.Unmarshal` while it fills a value: the value, the first error saved
by `d.saveError` (decoding goes on after it), and whether an error was returned at once,
which ends the decoding; `saved` is then that error. -/
structure DecodeState (S : Type) where
  value : S
  saved : Option GoError := none
  aborted : Bool := false

/-- How a JSON value is stored into a Go value of type `S`. -/
abbrev Store (S : Type) := Json → DecodeState S → DecodeState S

/-- Go's `d.saveError(err)`: the first error is kept. -/
def saveError {S : Type} (st : DecodeState S) (e : GoError) : DecodeState S :=
  { st with saved := match st.saved with
                     | some e0 => some e0
                     | none => some e }

/-- The name `UnmarshalTypeError` gives to a JSON value that does not fit the kind of the
destination. -/
def Json.kind : Json → GoString
  | .null => str "null"
  | .bool _ => str "bool"
  | .number _ => str "number"
  | .string _ => str "string"
  | .array _ => str "array"
  | .object _ => str "object"

/-- Storing into an `int`: `null` has no effect, a number must be an integer literal in
range, else the `UnmarshalTypeError` names the number with its literal; any other value is
an `UnmarshalTypeError` too. -/
def storeInt : Store Int := fun j st =>
  match j with
  | .null => st
  | .number lit =>
    match ParseInt lit with
    | some n => { st with value := n }
    | none => saveError st (.unmarshalType (str "number " ++ lit))
  | _ => saveError st (.unmarshalType j.kind)

/-- Storing into a `string`: `null` has no effect, anything but a string is an
`UnmarshalTypeError`. -/
def storeString : Store GoString := fun j st =>
  match j with
  | .null => st
  | .string s => { st with value := s }
  | _ => saveError st (.unmarshalType j.kind)

/-- Storing into a field: the field is read, filled and written back. -/
def storeField {S F : Type} (inner : Store F) (get : S → F) (set : S → F → S) : Store S :=
  fun j st =>
    let r := inner j { value := get st.value, saved := st.saved, aborted := st.aborted }
    { value := set st.value r.value, saved := r.saved, aborted := r.aborted }

/-- Go's `json.equalFoldRight(name, key)` for an ASCII field name: the key matches up to
the case of ASCII letters, U+017F for `s` and U+212A for `k`. -/
def equalFold : GoString → GoString → Bool
  | [], t => t.isEmpty
  | sb :: s, t =>
    match t with
    | [] => false
    | tb :: t1 =>
      if tb < 0x80 then
        if sb = tb then equalFold s t1
        else if isLetter sb ∧ sb.val % 32 = tb.val % 32 ∧ sb.val / 64 = tb.val / 64 then
          equalFold s t1
        else false
      else if (sb = ch 's' ∨ sb = ch 'S') ∧ hasPrefix t [0xC5, 0xBF] then
        equalFold s (t.drop 2)
      else if (sb = ch 'k' ∨ sb = ch 'K') ∧ hasPrefix t [0xE2, 0x84, 0xAA] then
        equalFold s (t.drop 3)
      else false

/-- The field a key of an object is stored into: the first field with exactly that name,
else the first whose name matches by `equalFold`. -/
def findField {S : Type} (fields : List (GoString × Store S)) (key : GoString) :
    Option (Store S) :=
  match fields.find? (fun f => decide (f.1 = key)) with
  | some f => some f.2
  | none =>
    match fields.find? (fun f => equalFold f.1 key) with
    | some f => some f.2
    | none => none

/-- The members of an object stored into a struct one after the other; a key without a
field is skipped. -/
def storeMembers {S : Type} (fields : List (GoString × Store S)) :
    List (GoString × Json) → DecodeState S → DecodeState S
  | [], st => st
  | (key, v) :: rest, st =>
    match findField fields key with
    | none => storeMembers fields rest st
    | some store =>
      let r := store v st
      if r.aborted then r else storeMembers fields rest r

/-- Storing into a struct with the given fields: `null` has no effect, anything but an
object is an `UnmarshalTypeError`. -/
def storeStruct {S : Type} (fields : List (GoString × Store S)) : Store S := fun j st =>
  match j with
  | .null => st
  | .object ms => storeMembers fields ms st
  | _ => saveError st (.unmarshalType j.kind)

/-- The elements of an array stored into a slice: element `i` is stored into the old
element `i` when there is one, into a zero value otherwise. -/
def storeElems {E : Type} (zero : E) (inner : Store E) :
    List Json → List E → Option GoError → DecodeState (List E)
  | [], _, saved => { value := [], saved := saved }
  | j :: js, old, saved =>
    let r := inner j { value := old.headD zero, saved := saved }
    if r.aborted then { value := r.value :: old.tail, saved := r.saved, aborted := true }
    else
      let rest := storeElems zero inner js old.tail r.saved
      { value := r.value :: rest.value, saved := rest.saved, aborted := rest.aborted }

/-- Storing into a slice: `null` makes it nil, an array gives a non-nil slice of its
elements, anything else is an `UnmarshalTypeError`. -/
def storeSlice {E : Type} (zero : E) (inner : Store E) : Store (Option (List E)) := fun j st =>
  match j with
  | .null => { st with value := none }
  | .array es =>
    let r := storeElems zero inner es (st.value.getD []) st.saved
    { value := some r.value, saved := r.saved, aborted := r.aborted }
  | _ => saveError st (.unmarshalType j.kind)

/-- Go's `time.Time` as far as the client uses it: the zero value and the two directions of
its JSON form, the RFC 3339 text between the quotes. The package `time` is a parameter of
the embedding. -/
structure TimeCodec (T : Type) where
  zero : T
  format : T → Except GoError GoString
  parse : GoString → Except GoError T

/-- Storing into a `time.Time` through its `UnmarshalJSON`: `null` has no effect; a string
is parsed, and an error of the parse, or a value that is not a string, ends the decoding. -/
def storeTime {T : Type} (codec : TimeCodec T) : Store T := fun j st =>
  match j with
  | .null => st
  | .string s =>
    match codec.parse s with
    | .ok t => { st with value := t }
    | .error e => { st with saved := some e, aborted := true }
  | _ => { st with saved := some (.time (str "input is not a JSON string")), aborted := true }

/-- Go's `json.NewDecoder(r).Decode(&v)` on the content of the stream: the value after the
call and the error. A text that is not JSON leaves the value as it was. -/
def decodeJSON {S : Type} (store : Store S) (data : GoString) (v : S) : S × Option GoError :=
  match parseJSON data with
  | .error e => (v, some e)
  | .ok j =>
    let r := store j { value := v }
    (r.value, r.saved)

/-! ## encoding/json: the encoder -/

/-- Go's `hex[n]` for `hex = "0123456789abcdef"`. -/
def lowerhex (n : Nat) : Byte := (str "0123456789abcdef").getD n 0

/-- Go's `htmlSafeSet`: the ASCII bytes written as they are. -/
def htmlSafe (b : Byte) : Bool :=
  decide (0x20 ≤ b.val) && decide (b.val < 0x80)
    && !decide (b ∈ [0x22, ch '&', ch '<', ch '>', ch '\\'])

/-- The loop of Go's `(*encodeState).string` with HTML escaping. -/
def quoteBody : Nat → GoString → GoString
  | 0, _ => []
  | _ + 1, [] => []
  | fuel + 1, b :: s =>
    if b < 0x80 then
      if htmlSafe b then b :: quoteBody fuel s
      else if b = ch '\\' ∨ b = 0x22 then ch '\\' :: b :: quoteBody fuel s
      else if b = 0x0A then ch '\\' :: ch 'n' :: quoteBody fuel s
      else if b = 0x0D then ch '\\' :: ch 'r' :: quoteBody fuel s
      else if b = 0x09 then ch '\\' :: ch 't' :: quoteBody fuel s
      else str "\\u00" ++ lowerhex (b.val / 16) :: lowerhex (b.val % 16) :: quoteBody fuel s
    else
      let r := decodeRune (b :: s)
      if r = (0xFFFD, 1) then str "\\ufffd" ++ quoteBody fuel s
      else if r.1 = 0x2028 ∨ r.1 = 0x2029 then
        str "\\u202" ++ lowerhex (r.1 % 16) :: quoteBody fuel ((b :: s).drop r.2)
      else (b :: s).take r.2 ++ quoteBody fuel ((b :: s).drop r.2)

/-- The JSON text of a Go string. -/
def quote (s : GoString) : GoString := 0x22 :: (quoteBody s.length s ++ [0x22])

/-! ## connpass.go: the results -/

/-- The struct `Series`. -/
structure Series where
  ID : Int := 0
  Title : GoString := []
  URL : GoString := []
  deriving DecidableEq, Repr

/-- The struct `Event`; `T` is `time.Time`. -/
structure Event (T : Type) where
  EventID : Int
  Title : GoString
  Catch : GoString
  Description : GoString
  EventURL : GoString
  HashTag : GoString
  StartedAt : T
  EndedAt : T
  Limit : Int
  EventType : GoString
  Series : Series
  Address : GoString
  Place : GoString
  Lat : GoString
  Lon : GoString
  OwnerID : Int
  OwnerNickname : GoString
  OwnerDisplayName : GoString
  Accepted : Int
  Waiting : Int
  UpdatedAt : T
  deriving DecidableEq, Repr

/-- The struct `Results`. -/
structure Results (T : Type) where
  ResultsReturned : Int := 0
  ResultsAvailable : Int := 0
  ResultsStart : Int := 0
  Events : Option (List (Event T)) := none
  deriving DecidableEq, Repr

/-- The zero value of `Event`. -/
def Event.zero {T : Type} (codec : TimeCodec T) : Event T :=
  { EventID := 0, Title := [], Catch := [], Description := [], EventURL := [], HashTag := [],
    StartedAt := codec.zero, EndedAt := codec.zero, Limit := 0, EventType := [], Series := {},
    Address := [], Place := [], Lat := [], Lon := [], OwnerID := 0, OwnerNickname := [],
    OwnerDisplayName := [], Accepted := 0, Waiting := 0, UpdatedAt := codec.zero }

/-- The fields of `Series` with their `json` tags. -/
def seriesFields : List (GoString × Store Series) :=
  [ (str "id", storeField storeInt (fun s => s.ID) (fun s v => { s with ID := v })),
    (str "title", storeField storeString (fun s => s.Title) (fun s v => { s with Title := v })),
    (str "url", storeField storeString (fun s => s.URL) (fun s v => { s with URL := v })) ]

/-- The fields of `Event` with their `json` tags. -/
def eventFields {T : Type} (codec : TimeCodec T) : List (GoString × Store (Event T)) :=
  [ (str "event_id",
      storeField storeInt (fun e => e.EventID) (fun e v => { e with EventID := v })),
    (str "title", storeField storeString (fun e => e.Title) (fun e v => { e with Title := v })),
    (str "catch", storeField storeString (fun e => e.Catch) (fun e v => { e with Catch := v })),
    (str "description",
      storeField storeString (fun e => e.Description) (fun e v => { e with Description := v })),
    (str "event_url",
      storeField storeString (fun e => e.EventURL) (fun e v => { e with EventURL := v })),
    (str "hash_tag",
      storeField storeString (fun e => e.HashTag) (fun e v => { e with HashTag := v })),
    (str "started_at",
      storeField (storeTime codec) (fun e => e.StartedAt) (fun e v => { e with StartedAt := v })),
    (str "ended_at",
      storeField (storeTime codec) (fun e => e.EndedAt) (fun e v => { e with EndedAt := v })),
    (str "limit", storeField storeInt (fun e => e.Limit) (fun e v => { e with Limit := v })),
    (str "event_type",
      storeField storeString (fun e => e.EventType) (fun e v => { e with EventType := v })),
    (str "series",
      storeField (storeStruct seriesFields) (fun e => e.Series)
        (fun e v => { e with Series := v })),
    (str "address",
      storeField storeString (fun e => e.Address) (fun e v => { e with Address := v })),
    (str "place", storeField storeString (fun e => e.Place) (fun e v => { e with Place := v })),
    (str "lat", storeField storeString (fun e => e.Lat) (fun e v => { e with Lat := v })),
    (str "lon", storeField storeString (fun e => e.Lon) (fun e v => { e with Lon := v })),
    (str "owner_id",
      storeField storeInt (fun e => e.OwnerID) (fun e v => { e with OwnerID := v })),
    (str "owner_nickname",
      storeField storeString (fun e => e.OwnerNickname)
        (fun e v => { e with OwnerNickname := v })),
    (str "owner_display_name",
      storeField storeString (fun e => e.OwnerDisplayName)
        (fun e v => { e with OwnerDisplayName := v })),
    (str "accepted",
      storeField storeInt (fun e => e.Accepted) (fun e v => { e with Accepted := v })),
    (str "waiting",
      storeField storeInt (fun e => e.Waiting) (fun e v => { e with Waiting := v })),
    (str "updated_at",
      storeField (storeTime codec) (fun e => e.UpdatedAt) (fun e v => { e with UpdatedAt := v })) ]

/-- The fields of `Results` with their `json` tags. -/
def resultsFields {T : Type} (codec : TimeCodec T) : List (GoString × Store (Results T)) :=
  [ (str "results_returned",
      storeField storeInt (fun r => r.ResultsReturned)
        (fun r v => { r with ResultsReturned := v })),
    (str "results_available",
      storeField storeInt (fun r => r.ResultsAvailable)
        (fun r v => { r with ResultsAvailable := v })),
    (str "results_start",
      storeField storeInt (fun r => r.ResultsStart) (fun r v => { r with ResultsStart := v })),
    (str "events",
      storeField (storeSlice (Event.zero codec) (storeStruct (eventFields codec)))
        (fun r => r.Events) (fun r v => { r with Events := v })) ]

/-- Storing a JSON value into a `Results`, as `json.Unmarshal` does by the `json` tags. -/
def storeResults {T : Type} (codec : TimeCodec T) : Store (Results T) :=
  storeStruct (resultsFields codec)

/-- The JSON text `json.Marshal` writes for a `Series`. -/
def marshalSeries (s : Series) : GoString :=
  str "\x7b\"id\":" ++ Itoa s.ID ++ str ",\"title\":" ++ quote s.Title ++ str ",\"url\":"
    ++ quote s.URL ++ str "\x7d"

/-- The JSON text of a `time.Time`: its `MarshalJSON`, the RFC 3339 text in quotes. -/
def marshalTime {T : Type} (codec : TimeCodec T) (t : T) : Except GoError GoString :=
  match codec.format t with
  | .error e => .error e
  | .ok s => .ok (0x22 :: (s ++ [0x22]))

/-- The JSON text `json.Marshal` writes for an `Event`. -/
def marshalEvent {T : Type} (codec : TimeCodec T) (e : Event T) : Except GoError GoString :=
  match marshalTime codec e.StartedAt, marshalTime codec e.EndedAt,
      marshalTime codec e.UpdatedAt with
  | .ok started, .ok ended, .ok updated =>
    .ok (str "\x7b\"event_id\":" ++ Itoa e.EventID
      ++ str ",\"title\":" ++ quote e.Title
      ++ str ",\"catch\":" ++ quote e.Catch
      ++ str ",\"description\":" ++ quote e.Description
      ++ str ",\"event_url\":" ++ quote e.EventURL
      ++ str ",\"hash_tag\":" ++ quote e.HashTag
      ++ str ",\"started_at\":" ++ started
      ++ str ",\"ended_at\":" ++ ended
      ++ str ",\"limit\":" ++ Itoa e.Limit
      ++ str ",\"event_type\":" ++ quote e.EventType
      ++ str ",\"series\":" ++ marshalSeries e.Series
      ++ str ",\"address\":" ++ quote e.Address
      ++ str ",\"place\":" ++ quote e.Place
      ++ str ",\"lat\":" ++ quote e.Lat
      ++ str ",\"lon\":" ++ quote e.Lon
      ++ str ",\"owner_id\":" ++ Itoa e.OwnerID
      ++ str ",\"owner_nickname\":" ++ quote e.OwnerNickname
      ++ str ",\"owner_display_name\":" ++ quote e.OwnerDisplayName
      ++ str ",\"accepted\":" ++ Itoa e.Accepted
      ++ str ",\"waiting\":" ++ Itoa e.Waiting
      ++ str ",\"updated_at\":" ++ updated ++ str "\x7d")
  | .error err, _, _ => .error err
  | _, .error err, _ => .error err
  | _, _, .error err => .error err

/-- The JSON texts of the events of a slice, or the first error. -/
def marshalEvents {T : Type} (codec : TimeCodec T) : List (Event T) → Except GoError (List GoString)
  | [] => .ok []
  | e :: es =>
    match marshalEvent codec e with
    | .error err => .error err
    | .ok js =>
      match marshalEvents codec es with
      | .error err => .error err
      | .ok rest => .ok (js :: rest)

/-- The JSON text `json.Marshal` writes for a `Results`: a nil slice is `null`. -/
def marshalResults {T : Type} (codec : TimeCodec T) (r : Results T) : Except GoError GoString :=
  let events : Except GoError GoString :=
    match r.Events with
    | none => .ok (str "null")
    | some es =>
      match marshalEvents codec es with
      | .error err => .error err
      | .ok l => .ok (str "[" ++ join l (str ",") ++ str "]")
  match events with
  | .error err => .error err
  | .ok ev =>
    .ok (str "\x7b\"results_returned\":" ++ Itoa r.ResultsReturned
      ++ str ",\"results_available\":" ++ Itoa r.ResultsAvailable
      ++ str ",\"results_start\":" ++ Itoa r.ResultsStart
      ++ str ",\"events\":" ++ ev ++ str "\x7d")

/-! ## connpass.go: do and SearchEvents -/

/-- What a call of `do` leaves: the two results, the value `v` points to, and the body of
the response the transport returned, if it returned one. -/
structure DoResult (δ : Type) where
  resp : Option Response
  err : Option GoError
  v : δ
  body : Option Body

/-- The method `do`; `decode` is `json.NewDecoder(resp.Body).Decode(v)` on the content of
the body, `v` the value the destination points to. The deferred `resp.Body.Close()` runs
when the function returns, by either `return` after it. The context is not used. -/
def Client.do {δ : Type} (c : Client) (req : Request)
    (decode : GoString → δ → δ × Option GoError) (v : δ) : DoResult δ :=
  match c.HTTPClient req with
  | .error err => { resp := none, err := some err, v := v, body := none }
  | .ok resp =>
    let decoded : δ × Option GoError :=
      match resp.Body.read with
      | .error err => (v, some err)
      | .ok data => decode data v
    match decoded.2 with
    | some err => { resp := none, err := some err, v := decoded.1, body := some resp.Body.Close }
    | none =>
      { resp := some { resp with Body := resp.Body.Close }, err := none, v := decoded.1,
        body := some resp.Body.Close }

/-- The encoder of a body that is never there: `SearchEvents` passes the untyped nil. -/
def noBody : Empty → Except GoError GoString := fun e => nomatch e

/-- The method `SearchEvents`: the pointer to the results, `none` for nil, and the error;
`version` is `runtime.Version()`. -/
def Client.SearchEvents {T : Type} (c : Client) (version : GoString) (codec : TimeCodec T)
    (q : QueryParams) : Option (Results T) × Option GoError :=
  match buildURL q with
  | .error err => (none, some (.url err))
  | .ok urlStr =>
    match c.newRequest version noBody MethodGet urlStr none with
    | .error err => (none, some err)
    | .ok req =>
      let results : Results T := {}
      let r := c.do req (decodeJSON (storeResults codec)) results
      match r.err with
      | some err => (none, some err)
      | none => (some r.v, none)

/-- The struct `test` of `TestDo`, with the one field `FOO`. -/
structure TestFOO where
  FOO : GoString := []
  deriving DecidableEq, Repr

/-- The field of `test`: without a tag, the key is the name of the field. -/
def testFields : List (GoString × Store TestFOO) :=
  [ (str "FOO", storeField storeString (fun t => t.FOO) (fun t v => { t with FOO := v })) ]

/-! ## Definitions used in the statements about the client -/

/-- The number two ASCII digits stand for. -/
def twoDigits (a b : Byte) : Nat := (a.val - 48) * 10 + (b.val - 48)

/-- The days of a month of a year. -/
def daysIn (year month : Nat) : Nat :=
  if month = 2 then (if year % 4 = 0 ∧ (year % 100 ≠ 0 ∨ year % 400 = 0) then 29 else 28)
  else if month = 4 ∨ month = 6 ∨ month = 9 ∨ month = 11 then 30
  else 31

/-- A zone of RFC 3339: `Z` or a sign, hours and minutes. -/
def isZone (s : GoString) : Bool :=
  match s with
  | [z] => decide (z = ch 'Z')
  | [sg, h1, h2, c, m1, m2] =>
    (decide (sg = ch '+') || decide (sg = ch '-')) && isDigit h1 && isDigit h2
      && decide (c = ch ':') && isDigit m1 && isDigit m2
      && decide (twoDigits h1 h2 < 24) && decide (twoDigits m1 m2 < 60)
  | _ => false

/-- Whether a text is a date and time of RFC 3339, `2006-01-02T15:04:05Z07:00` with an
optional fraction of the second. -/
def isRFC3339 (s : GoString) : Bool :=
  match s with
  | y1 :: y2 :: y3 :: y4 :: d1 :: m1 :: m2 :: d2 :: a1 :: a2 :: t :: h1 :: h2 :: c1 :: i1 :: i2
      :: c2 :: s1 :: s2 :: rest =>
    [y1, y2, y3, y4, m1, m2, a1, a2, h1, h2, i1, i2, s1, s2].all isDigit
      && decide (d1 = ch '-') && decide (d2 = ch '-') && decide (t = ch 'T')
      && decide (c1 = ch ':') && decide (c2 = ch ':')
      && decide (1 ≤ twoDigits m1 m2) && decide (twoDigits m1 m2 ≤ 12)
      && decide (1 ≤ twoDigits a1 a2)
      && decide (twoDigits a1 a2 ≤ daysIn (twoDigits y1 y2 * 100 + twoDigits y3 y4) (twoDigits m1 m2))
      && decide (twoDigits h1 h2 < 24) && decide (twoDigits i1 i2 < 60)
      && decide (twoDigits s1 s2 < 60)
      && (match rest with
          | p :: frac =>
            if p = ch '.' then
              decide ((spanDigits frac).1 ≠ []) && isZone (spanDigits frac).2
            else isZone rest
          | [] => false)
  | _ => false

/-- A stand-in for the parameter `time.Time` in the examples, not the package `time` of Go:
a time is kept as its text, and only a text of RFC 3339 in the strict sense of `isRFC3339`
is read. Go reads these texts too, and some more (with a comma before the fraction in later
versions, for one); no example below uses such a text, and no theorem depends on this
stand-in but the examples. -/
def textTime : TimeCodec GoString :=
  { zero := str "0001-01-01T00:00:00Z"
    format := .ok
    parse := fun s => if isRFC3339 s then .ok s else .error (.time s) }

/-- The JSON object that carries the fields of a `Series` under the wire names. -/
def jsonOfSeries (s : Series) : Json :=
  .object [ (str "id", .number (Itoa s.ID)), (str "title", .string s.Title),
            (str "url", .string s.URL) ]

/-- The JSON object that carries the fields of an `Event` under the wire names; `text`
gives the RFC 3339 text of a time. -/
def jsonOfEvent {T : Type} (text : T → GoString) (e : Event T) : Json :=
  .object
    [ (str "event_id", .number (Itoa e.EventID)),
      (str "title", .string e.Title),
      (str "catch", .string e.Catch),
      (str "description", .string e.Description),
      (str "event_url", .string e.EventURL),
      (str "hash_tag", .string e.HashTag),
      (str "started_at", .string (text e.StartedAt)),
      (str "ended_at", .string (text e.EndedAt)),
      (str "limit", .number (Itoa e.Limit)),
      (str "event_type", .string e.EventType),
      (str "series", jsonOfSeries e.Series),
      (str "address", .string e.Address),
      (str "place", .string e.Place),
      (str "lat", .string e.Lat),
      (str "lon", .string e.Lon),
      (str "owner_id", .number (Itoa e.OwnerID)),
      (str "owner_nickname", .string e.OwnerNickname),
      (str "owner_display_name", .string e.OwnerDisplayName),
      (str "accepted", .number (Itoa e.Accepted)),
      (str "waiting", .number (Itoa e.Waiting)),
      (str "updated_at", .string (text e.UpdatedAt)) ]

/-- The JSON envelope that carries the fields of a `Results` under the wire names: a nil
slice of events is `null`. -/
def jsonOfResults {T : Type} (text : T → GoString) (r : Results T) : Json :=
  .object
    [ (str "results_returned", .number (Itoa r.ResultsReturned)),
      (str "results_available", .number (Itoa r.ResultsAvailable)),
      (str "results_start", .number (Itoa r.ResultsStart)),
      (str "events",
        match r.Events with
        | none => .null
        | some es => .array (es.map (jsonOfEvent text))) ]

/-- Whether an integer is a value of a Go `int`. -/
def isInt (n : Int) : Prop := minInt ≤ n ∧ n ≤ maxInt

instance (n : Int) : Decidable (isInt n) := inferInstanceAs (Decidable (minInt ≤ n ∧ n ≤ maxInt))

/-- An `Event` that Go can hold and JSON can carry: its integers are values of `int`, and
the text of each of its times parses back to the time. -/
def Event.Carried {T : Type} (codec : TimeCodec T) (text : T → GoString) (e : Event T) : Prop :=
  isInt e.EventID ∧ isInt e.Limit ∧ isInt e.Series.ID ∧ isInt e.OwnerID ∧ isInt e.Accepted
    ∧ isInt e.Waiting
    ∧ codec.parse (text e.StartedAt) = .ok e.StartedAt
    ∧ codec.parse (text e.EndedAt) = .ok e.EndedAt
    ∧ codec.parse (text e.UpdatedAt) = .ok e.UpdatedAt

/-- A `Results` that Go can hold and JSON can carry. -/
def Results.Carried {T : Type} (codec : TimeCodec T) (text : T → GoString) (r : Results T) :
    Prop :=
  isInt r.ResultsReturned ∧ isInt r.ResultsAvailable ∧ isInt r.ResultsStart
    ∧ ∀ e ∈ r.Events.getD [], Event.Carried codec text e

/-- An event like the one of `TestSearchEvents`, with times. -/
def sampleEvent : Event GoString :=
  { EventID := 110673, Title := str "Go <meetup> & \"talks\"", Catch := [0xE3, 0x81, 0x82],
    Description := str "line 1\nline 2", EventURL := str "https://connpass.com/event/110673/",
    HashTag := str "golang", StartedAt := str "2018-12-17T19:30:00+09:00",
    EndedAt := str "2018-12-17T21:30:00+09:00", Limit := 62, EventType := str "participation",
    Series := { ID := 6528, Title := str "test", URL := str "https://www.sheepu.tech" },
    Address := [], Place := [], Lat := str "35.0", Lon := str "139.0", OwnerID := 10837,
    OwnerNickname := str "sheepu", OwnerDisplayName := str "sheepu", Accepted := 48,
    Waiting := 0, UpdatedAt := str "2018-12-01T00:00:00.5Z" }

/-- An envelope like the one of `TestSearchEvents`. -/
def sampleResults : Results GoString :=
  { ResultsReturned := 1, ResultsAvailable := 440, ResultsStart := 1,
    Events := some [sampleEvent] }

/-- The response of the handler of `TestDo`. -/
def fooResponse : Response := { StatusCode := 200, Body := { data := str "\x7b\"FOO\":\"bar\"\x7d" } }

/-- A transport that fails. -/
def failingTransport : Transport := fun _ => .error (.transport (str "connection refused"))

/-- The client of `NewClient(nil)` when the default transport fails. -/
def defaultClient : Client := NewClient failingTransport none

/-- A client whose transport answers every request with `resp`, at the default base URL. -/
def clientAnswering (resp : Response) : Client := NewClient failingTransport (some (fun _ => .ok resp))

/-- The headers `newRequest` sets. -/
def requestHeader (userAgent version : GoString) : Header :=
  [ (str "Content-Type", [str "application/json"]), (str "Accept", [str "application/json"]),
    (str "User-Agent", [userAgent ++ str " " ++ version]) ]

/-- The URL of the request of `TestNewRequest`. -/
def exampleURL : URL :=
  { Scheme := str "https", Host := str "connpass.com", Path := str "/api/v1/event/",
    RawQuery := str "keyword=go&count=1" }

/-- The body of the request of `TestNewRequest`, `&Results{ResultsReturned: 100}`. -/
def exampleBody : Results GoString := { ResultsReturned := 100 }

/-- The payload of the request of `TestNewRequest`. -/
def examplePayload : GoString :=
  str ("\x7b\"results_returned\":100,\"results_available\":0,\"results_start\":0,"
    ++ "\"events\":null\x7d\n")

/-- The request of `TestNewRequest`, with the payload `buf`. -/
def exampleRequest (version buf : GoString) : Request :=
  { Method := MethodGet, URL := exampleURL,
    Header := requestHeader (str "connpass-go/1.0.0") version, Body := buf,
    Host := str "connpass.com" }

/-- The client of `TestDo`: the base URL is that of the test server, which answers every
request with `resp`. -/
def testClient (resp : Response) : Client :=
  { clientAnswering resp with
    BaseURL := some { Scheme := str "http", Host := str "127.0.0.1:8080" } }

/-- The request of `TestDo`: `GET /` on the test server. -/
def testRequest : Request :=
  { Method := MethodGet,
    URL := { Scheme := str "http", Host := str "127.0.0.1:8080", Path := str "/" },
    Header := requestHeader (str "connpass-go/1.0.0") (str "go1.14"), Body := [],
    Host := str "127.0.0.1:8080" }

/-- The fields of a struct filled in their order from a list of values, as `storeMembers`
does when member `i` of the object has the name of field `i`. -/
def runFields {S : Type} :
    List (GoString × Store S) → List Json → DecodeState S → DecodeState S
  | f :: fs, v :: vs, st =>
    let r := f.2 v st
    if r.aborted then r else runFields fs vs r
  | _, _, st => st

/-- The wire names of the fields of `Event`, in the order of the struct. -/
def eventKeys : List GoString :=
  [str "event_id", str "title", str "catch", str "description", str "event_url",
   str "hash_tag", str "started_at", str "ended_at", str "limit", str "event_type",
   str "series", str "address", str "place", str "lat", str "lon", str "owner_id",
   str "owner_nickname", str "owner_display_name", str "accepted", str "waiting",
   str "updated_at"]

/-- The envelope of `sampleResults` as `json.Marshal` writes it. -/
def sampleText : GoString :=
  str ("\x7b\"results_returned\":1,\"results_available\":440,\"results_start\":1"
    ++ ",\"events\":[\x7b\"event_id\":110673"
    ++ ",\"title\":\"Go \\u003cmeetup\\u003e \\u0026 \\\"talks\\\"\",\"catch\":\"あ\""
    ++ ",\"description\":\"line 1\\nline 2\""
    ++ ",\"event_url\":\"https://connpass.com/event/110673/\",\"hash_tag\":\"golang\""
    ++ ",\"started_at\":\"2018-12-17T19:30:00+09:00\""
    ++ ",\"ended_at\":\"2018-12-17T21:30:00+09:00\",\"limit\":62"
    ++ ",\"event_type\":\"participation\",\"series\":\x7b\"id\":6528,\"title\":\"test\""
    ++ ",\"url\":\"https://www.sheepu.tech\"\x7d,\"address\":\"\",\"place\":\"\""
    ++ ",\"lat\":\"35.0\",\"lon\":\"139.0\",\"owner_id\":10837,\"owner_nickname\":\"sheepu\""
    ++ ",\"owner_display_name\":\"sheepu\",\"accepted\":48,\"waiting\":0"
    ++ ",\"updated_at\":\"2018-12-01T00:00:00.5Z\"\x7d]\x7d")

/-- The same envelope with the members in the order of the handler of `TestSearchEvents`,
with white space and a member the structs do not have. -/
def shuffledText : GoString :=
  str ("\x7b\"results_returned\":1"
    ++ ",\"events\":[\x7b\"event_url\":\"https://connpass.com/event/110673/\""
    ++ ",\"event_type\":\"participation\",\"owner_nickname\":\"sheepu\""
    ++ ",\"series\":\x7b\"url\":\"https://www.sheepu.tech\",\"id\":6528"
    ++ ",\"title\":\"test\"\x7d,\"updated_at\":\"2018-12-01T00:00:00.5Z\",\"lat\":\"35.0\""
    ++ ",\"started_at\":\"2018-12-17T19:30:00+09:00\",\"hash_tag\":\"golang\""
    ++ ",\"title\":\"Go <meetup> & \\\"talks\\\"\",\"event_id\":110673,\"lon\":\"139.0\""
    ++ ",\"waiting\":0,\"limit\":62,\"owner_id\":10837,\"owner_display_name\":\"sheepu\""
    ++ ",\"description\":\"line 1\\nline 2\",\"catch\":\"\\u3042\",\"accepted\":48"
    ++ ",\"ended_at\":\"2018-12-17T21:30:00+09:00\",\"place\":\"\",\"address\":\"\""
    ++ ",\"extra\":[1,2.5e3,true,null]\x7d], \"results_start\": 1,\n \"results_available\":440\x7d\n")

/-- A response with status 200 and the given body. -/
def answer (data : GoString) : Response := { StatusCode := 200, Body := { data := data } }

/-- The query of `TestSearchEvents`. -/
def sampleQuery : QueryParams := { SeriesIds := some [6796], Count := 1 }

/-- Go's `utf8.ValidString` with the length of the text as fuel: every byte of 0x80 or more
starts a rune that `utf8.DecodeRune` reads. -/
def validUTF8 : Nat → GoString → Bool
  | 0, s => s.isEmpty
  | _ + 1, [] => true
  | fuel + 1, b :: s =>
    if b < 0x80 then validUTF8 fuel s
    else decide (decodeRune (b :: s) ≠ (0xFFFD, 1))
      && validUTF8 fuel ((b :: s).drop (decodeRune (b :: s)).2)

/-- Go's `utf8.ValidString`. -/
def ValidString (s : GoString) : Bool := validUTF8 s.length s

/-- What may follow a value in a JSON text: nothing, a comma or a closing bracket. -/
def delimited (rest : GoString) : Prop :=
  ∀ c, rest.head? = some c → c = ch ',' ∨ c = ch '}' ∨ c = ch ']'

/-- The text `t` is read as the JSON value `v`, whatever follows it. -/
def Parses (t : GoString) (v : Json) : Prop :=
  ∀ (fuel : Nat) (rest : GoString), t.length < fuel → delimited rest →
    parseValue fuel (t ++ rest) = .ok (v, rest)

/-- The text of the members of an object after its opening brace, each given by its key,
the text of its value and the value. -/
def membersText : List (GoString × GoString × Json) → GoString
  | [] => [ch '}']
  | [m] => 0x22 :: (m.1 ++ 0x22 :: ch ':' :: (m.2.1 ++ [ch '}']))
  | m :: m1 :: ms =>
    0x22 :: (m.1 ++ 0x22 :: ch ':' :: (m.2.1 ++ ch ',' :: membersText (m1 :: ms)))

/-- The text of the elements of an array after its opening bracket, each given by its text
and its value. -/
def elemsText : List (GoString × Json) → GoString
  | [] => [ch ']']
  | [x] => x.1 ++ [ch ']']
  | x :: y :: xs => x.1 ++ ch ',' :: elemsText (y :: xs)

/-- The strings of an `Event`, those of its `Series` included. -/
def Event.strings {T : Type} (e : Event T) : List GoString :=
  [e.Title, e.Catch, e.Description, e.EventURL, e.HashTag, e.EventType, e.Series.Title,
   e.Series.URL, e.Address, e.Place, e.Lat, e.Lon, e.OwnerNickname, e.OwnerDisplayName]

/-- The times of an `Event`. -/
def Event.times {T : Type} (e : Event T) : List T := [e.StartedAt, e.EndedAt, e.UpdatedAt]

/-- An `Event` that `json.Marshal` writes without loss: its strings are valid UTF-8, and
each of its times has a JSON text, `text` of it in quotes, written as it is. -/
def Event.Written {T : Type} (codec : TimeCodec T) (text : T → GoString) (e : Event T) : Prop :=
  (∀ s ∈ e.strings, ValidString s = true)
    ∧ ∀ t ∈ e.times, codec.format t = .ok (text t) ∧ (text t).all htmlSafe = true

/-- A `Results` that `json.Marshal` writes without loss. -/
def Results.Written {T : Type} (codec : TimeCodec T) (text : T → GoString) (r : Results T) :
    Prop :=
  ∀ e ∈ r.Events.getD [], Event.Written codec text e

/-- The members of the JSON text of a `Series`: key, text of the value, value. -/
def seriesMembers (s : Series) : List (GoString × GoString × Json) :=
  [ (str "id", Itoa s.ID, .number (Itoa s.ID)),
    (str "title", quote s.Title, .string s.Title),
    (str "url", quote s.URL, .string s.URL) ]

/-- The members of the JSON text of an `Event`: key, text of the value, value. -/
def eventMembers {T : Type} (text : T → GoString) (e : Event T) :
    List (GoString × GoString × Json) :=
  [ (str "event_id", Itoa e.EventID, .number (Itoa e.EventID)),
    (str "title", quote e.Title, .string e.Title),
    (str "catch", quote e.Catch, .string e.Catch),
    (str "description", quote e.Description, .string e.Description),
    (str "event_url", quote e.EventURL, .string e.EventURL),
    (str "hash_tag", quote e.HashTag, .string e.HashTag),
    (str "started_at", 0x22 :: (text e.StartedAt ++ [0x22]), .string (text e.StartedAt)),
    (str "ended_at", 0x22 :: (text e.EndedAt ++ [0x22]), .string (text e.EndedAt)),
    (str "limit", Itoa e.Limit, .number (Itoa e.Limit)),
    (str "event_type", quote e.EventType, .string e.EventType),
    (str "series", ch '{' :: membersText (seriesMembers e.Series), jsonOfSeries e.Series),
    (str "address", quote e.Address, .string e.Address),
    (str "place", quote e.Place, .string e.Place),
    (str "lat", quote e.Lat, .string e.Lat),
    (str "lon", quote e.Lon, .string e.Lon),
    (str "owner_id", Itoa e.OwnerID, .number (Itoa e.OwnerID)),
    (str "owner_nickname", quote e.OwnerNickname, .string e.OwnerNickname),
    (str "owner_display_name", quote e.OwnerDisplayName, .string e.OwnerDisplayName),
    (str "accepted", Itoa e.Accepted, .number (Itoa e.Accepted)),
    (str "waiting", Itoa e.Waiting, .number (Itoa e.Waiting)),
    (str "updated_at", 0x22 :: (text e.UpdatedAt ++ [0x22]), .string (text e.UpdatedAt)) ]

/-- The text and the value of each event of a list. -/
def eventElems {T : Type} (text : T → GoString) (es : List (Event T)) :
    List (GoString × Json) :=
  es.map (fun e => (ch '{' :: membersText (eventMembers text e), jsonOfEvent text e))

/-- The members of the JSON text of a `Results`: key, text of the value, value. -/
def resultsMembers {T : Type} (text : T → GoString) (r : Results T) :
    List (GoString × GoString × Json) :=
  [ (str "results_returned", Itoa r.ResultsReturned, .number (Itoa r.ResultsReturned)),
    (str "results_available", Itoa r.ResultsAvailable, .number (Itoa r.ResultsAvailable)),
    (str "results_start", Itoa r.ResultsStart, .number (Itoa r.ResultsStart)),
    (str "events",
      match r.Events with
      | none => str "null"
      | some es => ch '[' :: elemsText (eventElems text es),
      match r.Events with
      | none => .null
      | some es => .array (es.map (jsonOfEvent text))) ]

/-- A `Results` with one event whose title is the byte 0xFF, not valid UTF-8; its other
fields are zero. -/
def invalidTitle : Results GoString :=
  { Events := some [{ Event.zero textTime with Title := [0xFF] }] }

/-- The same `Results` with the title U+FFFD, the replacement character. -/
def replacedTitle : Results GoString :=
  { Events := some [{ Event.zero textTime with Title := [0xEF, 0xBF, 0xBD] }] }

/-- The text `json.Marshal` writes for `invalidTitle`: the title is `\ufffd`. -/
def invalidTitleText : GoString :=
  str ("\x7b\"results_returned\":0,\"results_available\":0,\"results_start\":0"
    ++ ",\"events\":[\x7b\"event_id\":0,\"title\":\"\\ufffd\",\"catch\":\"\""
    ++ ",\"description\":\"\",\"event_url\":\"\",\"hash_tag\":\"\""
    ++ ",\"started_at\":\"0001-01-01T00:00:00Z\",\"ended_at\":\"0001-01-01T00:00:00Z\""
    ++ ",\"limit\":0,\"event_type\":\"\",\"series\":\x7b\"id\":0,\"title\":\"\",\"url\":\"\"\x7d"
    ++ ",\"address\":\"\",\"place\":\"\",\"lat\":\"\",\"lon\":\"\",\"owner_id\":0"
    ++ ",\"owner_nickname\":\"\",\"owner_display_name\":\"\",\"accepted\":0,\"waiting\":0"
    ++ ",\"updated_at\":\"0001-01-01T00:00:00Z\"\x7d]\x7d")

/-- A URL with userinfo and an IPv6 host. -/
def userinfoURL : URL :=
  { Scheme := str "http",
    User := some { username := str "user", password := str "pw", passwordSet := true },
    Host := str "[::1]:8080", Path := str "/p" }

/-- The request `newRequest` makes for `http://user:pw@[::1]:8080/p` without a body. -/
def userinfoRequest (version : GoString) : Request :=
  { Method := MethodGet, URL := userinfoURL,
    Header := requestHeader (str "connpass-go/1.0.0") version, Body := [],
    Host := str "[::1]:8080" }

/-- The URL of the request for the reference `//u@connpass.com/api/v1/event/`, resolved
against the default base URL. -/
def netPathURL : URL :=
  { Scheme := str "https", User := some { username := str "u" }, Host := str "connpass.com",
    Path := str "/api/v1/event/" }

/-- The request `newRequest` makes for `//u@connpass.com/api/v1/event/` without a body. -/
def netPathRequest (version : GoString) : Request :=
  { Method := MethodGet, URL := netPathURL,
    Header := requestHeader (str "connpass-go/1.0.0") version, Body := [],
    Host := str "connpass.com" }

/-! ## Theorems -/

theorem ishex_upperhex (c : Byte) :
    ishex (upperhex (c.val / 16)) = true ∧ ishex (upperhex (c.val % 16)) = true := by
  revert c; decide

theorem hexByte_upperhex (c : Byte) :
    hexByte (upperhex (c.val / 16)) (upperhex (c.val % 16)) = c := by
  revert c; decide

theorem querySafe_of_not_shouldEscape (c : Byte)
    (h : shouldEscape c .encodeQueryComponent = false) :
    querySafe c = true ∧ c ≠ ch '%' ∧ c ≠ ch '+' := by
  revert c; decide

theorem querySafe_upperhex (c : Byte) :
    querySafe (upperhex (c.val / 16)) = true ∧ querySafe (upperhex (c.val % 16)) = true := by
  revert c; decide

theorem querySafe_ne (b : Byte) (h : querySafe b = true) :
    b ≠ ch '&' ∧ b ≠ ch '=' ∧ b ≠ ch ';' ∧ b ≠ ch '#' ∧ b ≠ ch '?' ∧
      (decide (b < 0x20) || decide (b = 0x7f)) = false := by
  revert b; decide

theorem unescapeCheck_query_plain (c : Byte) (s : GoString) (h : c ≠ ch '%') :
    unescapeCheck (c :: s) .encodeQueryComponent = unescapeCheck s .encodeQueryComponent := by
  rw [unescapeCheck.eq_def]
  simp [h]

theorem unescapeCheck_query_pct (a b : Byte) (s : GoString) (ha : ishex a = true)
    (hb : ishex b = true) :
    unescapeCheck (ch '%' :: a :: b :: s) .encodeQueryComponent
      = unescapeCheck s .encodeQueryComponent := by
  rw [unescapeCheck.eq_def]
  simp [ha, hb]

theorem unescapeDecode_query_plain (c : Byte) (s : GoString) (h : c ≠ ch '%')
    (h2 : c ≠ ch '+') :
    unescapeDecode (c :: s) .encodeQueryComponent = c :: unescapeDecode s .encodeQueryComponent := by
  rw [unescapeDecode.eq_def]
  simp [h, h2]

theorem unescapeDecode_query_plus (s : GoString) :
    unescapeDecode (ch '+' :: s) .encodeQueryComponent
      = ch ' ' :: unescapeDecode s .encodeQueryComponent := by
  rw [unescapeDecode.eq_def]
  have : ch '+' ≠ ch '%' := by decide
  simp [this]

theorem unescapeDecode_query_pct (a b : Byte) (s : GoString) :
    unescapeDecode (ch '%' :: a :: b :: s) .encodeQueryComponent
      = hexByte a b :: unescapeDecode s .encodeQueryComponent := by
  rw [unescapeDecode.eq_def]
  simp

theorem QueryEscape_cons (c : Byte) (s : GoString) :
    QueryEscape (c :: s) =
      if c = ch ' ' then ch '+' :: QueryEscape s
      else if shouldEscape c .encodeQueryComponent = true then
        ch '%' :: upperhex (c.val / 16) :: upperhex (c.val % 16) :: QueryEscape s
      else c :: QueryEscape s := by
  simp [QueryEscape, escape]

theorem unescapeCheck_QueryEscape (s : GoString) :
    unescapeCheck (QueryEscape s) .encodeQueryComponent = .ok () := by
  induction s with
  | nil => rfl
  | cons c s ih =>
    rw [QueryEscape_cons]
    split_ifs with h1 h2
    · rw [unescapeCheck_query_plain _ _ (by decide), ih]
    · rw [unescapeCheck_query_pct _ _ _ (ishex_upperhex c).1 (ishex_upperhex c).2, ih]
    · have hq := querySafe_of_not_shouldEscape c (by simpa using h2)
      rw [unescapeCheck_query_plain _ _ hq.2.1, ih]

theorem unescapeDecode_QueryEscape (s : GoString) :
    unescapeDecode (QueryEscape s) .encodeQueryComponent = s := by
  induction s with
  | nil => rfl
  | cons c s ih =>
    rw [QueryEscape_cons]
    split_ifs with h1 h2
    · rw [unescapeDecode_query_plus, ih, h1]
    · rw [unescapeDecode_query_pct, ih, hexByte_upperhex]
    · have hq := querySafe_of_not_shouldEscape c (by simpa using h2)
      rw [unescapeDecode_query_plain _ _ hq.2.1 hq.2.2, ih]

theorem QueryUnescape_QueryEscape (s : GoString) : QueryUnescape (QueryEscape s) = .ok s := by
  simp [QueryUnescape, unescape, unescapeCheck_QueryEscape, unescapeDecode_QueryEscape]

theorem querySafe_QueryEscape (s : GoString) : ∀ b ∈ QueryEscape s, querySafe b = true := by
  induction s with
  | nil => intro b hb; simp [QueryEscape, escape] at hb
  | cons c s ih =>
    rw [QueryEscape_cons]
    intro b hb
    split_ifs at hb with h1 h2
    · rcases List.mem_cons.1 hb with h | h
      · rw [h]; decide
      · exact ih b h
    · have hx := querySafe_upperhex c
      simp only [List.mem_cons] at hb
      rcases hb with h | h | h | h
      · rw [h]; decide
      · rw [h]; exact hx.1
      · rw [h]; exact hx.2
      · exact ih b h
    · have hq := querySafe_of_not_shouldEscape c (by simpa using h2)
      rcases List.mem_cons.1 hb with h | h
      · rw [h]; exact hq.1
      · exact ih b h

/-! ### cut and split -/

theorem cut_of_not_mem (sep : Byte) (a : GoString) (h : sep ∉ a) : cut sep a = (a, [], false) := by
  induction a with
  | nil => rfl
  | cons b a ih =>
    have hb : b ≠ sep := fun e => h (by simp [e])
    have ha : sep ∉ a := fun e => h (List.mem_cons_of_mem _ e)
    simp [cut, hb, ih ha]

theorem cut_append (sep : Byte) (a r : GoString) (h : sep ∉ a) :
    cut sep (a ++ sep :: r) = (a, r, true) := by
  induction a with
  | nil => simp [cut]
  | cons b a ih =>
    have hb : b ≠ sep := fun e => h (by simp [e])
    have ha : sep ∉ a := fun e => h (List.mem_cons_of_mem _ e)
    simp [cut, hb, ih ha]

theorem splitAmp_append (a rest cur : GoString) (h : ch '&' ∉ a) :
    splitAmp (a ++ rest) cur = splitAmp rest (a.reverse ++ cur) := by
  induction a generalizing cur with
  | nil => rfl
  | cons b a ih =>
    have hb : b ≠ ch '&' := fun e => h (by simp [e])
    have ha : ch '&' ∉ a := fun e => h (List.mem_cons_of_mem _ e)
    simp [splitAmp, hb, ih _ ha]

theorem join_amp (p : GoString) (ps : List GoString) :
    join (p :: ps) (str "&") = p ++ tailJoin ps := by
  induction ps generalizing p with
  | nil => simp [join, tailJoin]
  | cons b rest ih =>
    rw [join, ih b]
    simp [tailJoin]
    rfl

theorem splitAmp_tailJoin (ps : List GoString) (cur : GoString)
    (h : ∀ p ∈ ps, ch '&' ∉ p) : splitAmp (tailJoin ps) cur = cur.reverse :: ps := by
  induction ps generalizing cur with
  | nil => simp [tailJoin, splitAmp]
  | cons p ps ih =>
    have hp : ch '&' ∉ p := h p (by simp)
    have hps : ∀ x ∈ ps, ch '&' ∉ x := fun x hx => h x (List.mem_cons_of_mem _ hx)
    rw [tailJoin, splitAmp]
    simp only [if_true]
    rw [splitAmp_append _ _ _ hp, ih _ hps]
    simp

theorem splitAmp_join (p : GoString) (ps : List GoString) (h : ∀ x ∈ p :: ps, ch '&' ∉ x) :
    splitAmp (join (p :: ps) (str "&")) [] = p :: ps := by
  rw [join_amp, splitAmp_append _ _ _ (h p (by simp)),
    splitAmp_tailJoin _ _ (fun x hx => h x (List.mem_cons_of_mem _ hx))]
  simp

/-! ### Encode as a join -/

theorem encodePair_ne_nil (p : GoString × GoString) : encodePair p ≠ [] := by
  simp [encodePair]

theorem foldl_keys_eq (v : Values) (ks : List GoString) (b : GoString) :
    ks.foldl (fun buf k =>
        let keyEscaped := QueryEscape k
        (Values.get v k).foldl
          (fun buf val =>
            (if buf.length > 0 then buf ++ [ch '&'] else buf)
              ++ keyEscaped ++ [ch '='] ++ QueryEscape val)
          buf) b
      = (pairsOf v ks).foldl writePair b := by
  induction ks generalizing b with
  | nil => rfl
  | cons k ks ih =>
    rw [List.foldl_cons, ih, pairsOf, List.foldl_append, List.foldl_map]
    rfl

theorem foldl_writePair (ps : List (GoString × GoString)) (b : GoString) (hb : b ≠ []) :
    ps.foldl writePair b = b ++ tailJoin (ps.map encodePair) := by
  induction ps generalizing b with
  | nil => simp [tailJoin]
  | cons p ps ih =>
    have hlen : b.length > 0 := List.length_pos.2 hb
    have h1 : writePair b p = b ++ ch '&' :: encodePair p := by
      simp [writePair, hlen, encodePair]
    rw [List.foldl_cons, h1, ih _ (by simp [hb])]
    simp [tailJoin]

theorem foldl_writePair_nil (ps : List (GoString × GoString)) :
    ps.foldl writePair [] = join (ps.map encodePair) (str "&") := by
  cases ps with
  | nil => rfl
  | cons p ps =>
    have h1 : writePair [] p = encodePair p := by simp [writePair, encodePair]
    rw [List.foldl_cons, h1, foldl_writePair _ _ (encodePair_ne_nil p), List.map_cons, join_amp]

theorem pairsOf_nil (ks : List GoString) : pairsOf [] ks = [] := by
  induction ks with
  | nil => rfl
  | cons k ks ih => simp [pairsOf, Values.get, ih]

theorem EncodeRange_eq_join (v : Values) (ks : List GoString) :
    Values.EncodeRange v ks
      = join ((pairsOf v (List.insertionSort StrLE ks)).map encodePair) (str "&") := by
  unfold Values.EncodeRange
  split_ifs with h
  · have : v = [] := List.length_eq_zero.1 h
    subst this
    rw [pairsOf_nil]
    rfl
  · rw [foldl_keys_eq, foldl_writePair_nil]

theorem Encode_eq_join (v : Values) :
    Values.Encode v = join ((sortedPairs v).map encodePair) (str "&") :=
  EncodeRange_eq_join v (Values.keys v)

/-! ### ParseQuery of an encoded map -/

theorem querySafe_mem_encodePair (p : GoString × GoString) :
    ∀ b ∈ encodePair p, b = ch '=' ∨ querySafe b = true := by
  intro b hb
  simp only [encodePair, List.mem_append, List.mem_cons] at hb
  rcases hb with h | h | h
  · exact Or.inr (querySafe_QueryEscape _ b h)
  · exact Or.inl h
  · exact Or.inr (querySafe_QueryEscape _ b h)

theorem not_mem_QueryEscape (s : GoString) (c : Byte) (hc : querySafe c = false) :
    c ∉ QueryEscape s := by
  intro h
  have := querySafe_QueryEscape s c h
  rw [hc] at this
  exact Bool.noConfusion this

theorem not_mem_encodePair (p : GoString × GoString) (c : Byte) (hc : querySafe c = false)
    (hne : c ≠ ch '=') : c ∉ encodePair p := by
  intro h
  rcases querySafe_mem_encodePair p c h with h1 | h1
  · exact hne h1
  · rw [hc] at h1; exact Bool.noConfusion h1

theorem parseQueryStep_encodePair (st : Values × Option Error) (p : GoString × GoString) :
    parseQueryStep st (encodePair p) = (Values.Add st.1 p.1 p.2, st.2) := by
  have h1 : ch ';' ∉ encodePair p := not_mem_encodePair p _ (by decide) (by decide)
  have h2 : encodePair p ≠ [] := encodePair_ne_nil p
  have h3 : cut (ch '=') (encodePair p) = (QueryEscape p.1, QueryEscape p.2, true) :=
    cut_append _ _ _ (not_mem_QueryEscape _ _ (by decide))
  unfold parseQueryStep
  simp only [h1, h2, if_false, h3, QueryUnescape_QueryEscape]

theorem foldl_parseQueryStep (ps : List (GoString × GoString)) (st : Values × Option Error) :
    (ps.map encodePair).foldl parseQueryStep st
      = (ps.foldl (fun m p => Values.Add m p.1 p.2) st.1, st.2) := by
  induction ps generalizing st with
  | nil => rfl
  | cons p ps ih =>
    rw [List.map_cons, List.foldl_cons, parseQueryStep_encodePair, ih]
    rfl

theorem ParseQuery_join (ps : List (GoString × GoString)) :
    ParseQuery (join (ps.map encodePair) (str "&"))
      = (ps.foldl (fun m p => Values.Add m p.1 p.2) [], none) := by
  cases ps with
  | nil => rfl
  | cons p ps =>
    have hne : join ((p :: ps).map encodePair) (str "&") ≠ [] := by
      rw [List.map_cons, join_amp]
      simp [encodePair]
    unfold ParseQuery
    rw [if_neg hne, List.map_cons, splitAmp_join, ← List.map_cons, foldl_parseQueryStep]
    intro x hx
    rw [← List.map_cons] at hx
    obtain ⟨y, _, rfl⟩ := List.mem_map.1 hx
    exact not_mem_encodePair y _ (by decide) (by decide)

theorem ParseQuery_Encode (v : Values) :
    ParseQuery (Values.Encode v)
      = ((sortedPairs v).foldl (fun m p => Values.Add m p.1 p.2) [], none) := by
  rw [Encode_eq_join, ParseQuery_join]

/-! ### The map operations -/

theorem get_put (m : Values) (key key1 : GoString) (vs : List GoString) :
    Values.get (Values.put m key vs) key1 = if key = key1 then vs else Values.get m key1 := by
  induction m with
  | nil => simp [Values.put, Values.get]
  | cons p m ih =>
    obtain ⟨k, old⟩ := p
    by_cases h : k = key
    · subst h
      by_cases h1 : k = key1 <;> simp [Values.put, Values.get, h1]
    · by_cases h1 : k = key1
      · subst h1
        have h2 : key ≠ k := fun e => h e.symm
        simp [Values.put, Values.get, h, h2]
      · simp [Values.put, Values.get, h, h1, ih]

theorem has_put (m : Values) (key key1 : GoString) (vs : List GoString) :
    Values.has (Values.put m key vs) key1 = (decide (key = key1) || Values.has m key1) := by
  induction m with
  | nil => simp [Values.put, Values.has]
  | cons p m ih =>
    obtain ⟨k, old⟩ := p
    by_cases h : k = key
    · subst h
      by_cases h1 : k = key1 <;> simp [Values.put, Values.has, h1]
    · by_cases h1 : k = key1
      · subst h1
        simp [Values.put, Values.has, h]
      · simp [Values.put, Values.has, h, h1, ih]

theorem keys_put (m : Values) (key : GoString) (vs : List GoString) :
    Values.keys (Values.put m key vs)
      = if Values.has m key = true then Values.keys m else Values.keys m ++ [key] := by
  induction m with
  | nil => simp [Values.put, Values.has, Values.keys]
  | cons p m ih =>
    obtain ⟨k, old⟩ := p
    by_cases h : k = key
    · simp [Values.put, Values.has, Values.keys, h]
    · simp only [Values.keys] at ih
      simp only [Values.put, Values.has, Values.keys, h, if_false, List.map_cons, decide_False,
        Bool.false_or, ih]
      split_ifs <;> simp

theorem has_eq_mem_keys (m : Values) (key : GoString) :
    Values.has m key = true ↔ key ∈ Values.keys m := by
  induction m with
  | nil => simp [Values.has, Values.keys]
  | cons p m ih =>
    obtain ⟨k, old⟩ := p
    simp only [Values.keys] at ih
    simp only [Values.has, Values.keys, List.map_cons, List.mem_cons, Bool.or_eq_true,
      decide_eq_true_eq, ih]
    constructor
    · rintro (h | h)
      · exact Or.inl h.symm
      · exact Or.inr h
    · rintro (h | h)
      · exact Or.inl h.symm
      · exact Or.inr h

theorem get_of_not_has (m : Values) (key : GoString) (h : Values.has m key = false) :
    Values.get m key = [] := by
  induction m with
  | nil => rfl
  | cons p m ih =>
    obtain ⟨k, old⟩ := p
    simp only [Values.has, Bool.or_eq_false_iff, decide_eq_false_iff_not] at h
    simp [Values.get, h.1, ih h.2]

theorem WF_nil : Values.WF [] := by simp [Values.WF, Values.keys]

theorem mem_put (m : Values) (key : GoString) (vs : List GoString) (p : GoString × List GoString)
    (hp : p ∈ Values.put m key vs) : p ∈ m ∨ p = (key, vs) := by
  induction m with
  | nil => simp [Values.put] at hp; exact Or.inr hp
  | cons x m ih =>
    obtain ⟨k, old⟩ := x
    by_cases h : k = key
    · simp only [Values.put, h, if_true, List.mem_cons] at hp
      rcases hp with hp | hp
      · exact Or.inr hp
      · exact Or.inl (List.mem_cons_of_mem _ hp)
    · simp only [Values.put, h, if_false, List.mem_cons] at hp
      rcases hp with hp | hp
      · exact Or.inl (by simp [hp])
      · rcases ih hp with h1 | h1
        · exact Or.inl (List.mem_cons_of_mem _ h1)
        · exact Or.inr h1

theorem WF_put (m : Values) (key : GoString) (vs : List GoString) (h : Values.WF m)
    (hvs : vs ≠ []) : Values.WF (Values.put m key vs) := by
  refine ⟨?_, ?_⟩
  · rw [keys_put]
    split_ifs with h1
    · exact h.1
    · have : key ∉ Values.keys m := fun hm => h1 ((has_eq_mem_keys m key).2 hm)
      exact List.Nodup.append h.1 (List.nodup_singleton _) (by simpa using this)
  · intro p hp
    rcases mem_put m key vs p hp with h1 | h1
    · exact h.2 p h1
    · rw [h1]; exact hvs

theorem WF_Set (m : Values) (key value : GoString) (h : Values.WF m) :
    Values.WF (Values.Set m key value) := WF_put m key _ h (by simp)

theorem has_iff_get_ne_nil (m : Values) (h : Values.WF m) (key : GoString) :
    Values.has m key = true ↔ Values.get m key ≠ [] := by
  induction m with
  | nil => simp [Values.has, Values.get]
  | cons p m ih =>
    obtain ⟨k, old⟩ := p
    have hm : Values.WF m := by
      refine ⟨?_, fun p hp => h.2 p (List.mem_cons_of_mem _ hp)⟩
      have := h.1
      simp only [Values.keys, List.map_cons, List.nodup_cons] at this
      exact this.2
    have hold : old ≠ [] := h.2 (k, old) (by simp)
    by_cases h1 : k = key
    · simp [Values.has, Values.get, h1, hold]
    · simp [Values.has, Values.get, h1, ih hm]

/-! ### Reading back what `ParseQuery` stored -/

theorem get_foldl_Add (ps : List (GoString × GoString)) (m : Values) (key : GoString) :
    Values.get (ps.foldl (fun m p => Values.Add m p.1 p.2) m) key
      = Values.get m key ++ (ps.filter (fun p => decide (p.1 = key))).map Prod.snd := by
  induction ps generalizing m with
  | nil => simp
  | cons p ps ih =>
    rw [List.foldl_cons, ih, Values.Add, get_put]
    by_cases h : p.1 = key
    · simp [h, List.filter_cons]
    · simp [h, List.filter_cons]

theorem filter_pairsOf (v : Values) (ks : List GoString) (key : GoString) (hnd : ks.Nodup) :
    ((pairsOf v ks).filter (fun p => decide (p.1 = key))).map Prod.snd
      = if key ∈ ks then Values.get v key else [] := by
  induction ks with
  | nil => simp [pairsOf]
  | cons k ks ih =>
    have hk : k ∉ ks := (List.nodup_cons.1 hnd).1
    have hks : ks.Nodup := (List.nodup_cons.1 hnd).2
    rw [pairsOf, List.filter_append, List.map_append, ih hks]
    by_cases h : k = key
    · subst h
      have h1 : (List.map (fun val => (k, val)) (Values.get v k)).filter
          (fun p => decide (p.1 = k)) = List.map (fun val => (k, val)) (Values.get v k) := by
        apply List.filter_eq_self.2
        intro a ha
        obtain ⟨y, _, rfl⟩ := List.mem_map.1 ha
        simp
      rw [h1]
      simp [hk, Function.comp_def]
    · have h1 : (List.map (fun val => (k, val)) (Values.get v k)).filter
          (fun p => decide (p.1 = key)) = [] := by
        apply List.filter_eq_nil_iff.2
        intro a ha
        obtain ⟨y, _, rfl⟩ := List.mem_map.1 ha
        simp [h]
      have h2 : key ≠ k := fun e => h e.symm
      rw [h1]
      simp [h2]

theorem get_sortedPairs (v : Values) (hnd : (Values.keys v).Nodup) (key : GoString) :
    ((sortedPairs v).filter (fun p => decide (p.1 = key))).map Prod.snd = Values.get v key := by
  unfold sortedPairs
  rw [filter_pairsOf _ _ _ ((List.perm_insertionSort StrLE _).nodup_iff.2 hnd)]
  split_ifs with h
  · rfl
  · have h1 : key ∉ Values.keys v := fun hm => h ((List.perm_insertionSort StrLE _).mem_iff.2 hm)
    have h2 : Values.has v key = false := by
      cases hh : Values.has v key
      · rfl
      · exact absurd ((has_eq_mem_keys v key).1 hh) h1
    rw [get_of_not_has v key h2]

theorem get_ParseQuery_Encode (v : Values) (hnd : (Values.keys v).Nodup) (key : GoString) :
    Values.get (ParseQuery (Values.Encode v)).1 key = Values.get v key := by
  rw [ParseQuery_Encode, get_foldl_Add, get_sortedPairs v hnd]
  rfl

theorem WF_foldl_Add (ps : List (GoString × GoString)) (m : Values) (h : Values.WF m) :
    Values.WF (ps.foldl (fun m p => Values.Add m p.1 p.2) m) := by
  induction ps generalizing m with
  | nil => exact h
  | cons p ps ih =>
    rw [List.foldl_cons]
    exact ih _ (WF_put _ _ _ h (by simp))

theorem WF_ParseQuery_Encode (v : Values) : Values.WF (ParseQuery (Values.Encode v)).1 := by
  rw [ParseQuery_Encode]
  exact WF_foldl_Add _ _ WF_nil

theorem has_ParseQuery_Encode (v : Values) (h : Values.WF v) (key : GoString) :
    Values.has (ParseQuery (Values.Encode v)).1 key = Values.has v key := by
  have h1 := has_iff_get_ne_nil _ (WF_ParseQuery_Encode v) key
  have h2 := has_iff_get_ne_nil v h key
  rw [get_ParseQuery_Encode v h.1 key] at h1
  have h3 : Values.has (ParseQuery (Values.Encode v)).1 key = true ↔ Values.has v key = true :=
    h1.trans h2.symm
  cases ha : Values.has (ParseQuery (Values.Encode v)).1 key <;>
    cases hb : Values.has v key <;> simp_all

theorem Parse_baseURL : Parse baseURL = .ok baseParsed := by decide

theorem encodeSafe_ne (b : Byte) (h : encodeSafe b = true) :
    b ≠ ch '#' ∧ b ≠ ch '?' ∧ (decide (b < 0x20) || decide (b = 0x7f)) = false := by
  revert b; decide

theorem String_base_nil : URL.String { baseParsed with RawQuery := [] } = baseURL := by decide

theorem String_base_cons (b : Byte) (t : GoString) :
    URL.String { baseParsed with RawQuery := b :: t } = baseURL ++ ch '?' :: b :: t := rfl

theorem getScheme_https (rest : GoString) :
    getScheme (str "https:" ++ rest) = .ok (str "https", rest) := rfl

theorem parseHier_base (enc : GoString) :
    parseHier (toLower (str "https")) (str "//connpass.com/api/v1/event/") false enc
      = .ok { baseParsed with RawQuery := enc } := rfl

theorem hasSuffix_question (pre enc : GoString) (hne : enc ≠ []) (h : ch '?' ∉ enc) :
    hasSuffix (pre ++ enc) (str "?") = false := by
  rcases List.eq_nil_or_concat enc with h0 | ⟨l, x, hlx⟩
  · exact absurd h0 hne
  · subst hlx
    have hx : x ≠ ch '?' := fun e => h (by simp [e])
    have hx2 : ch '?' ≠ x := fun e => hx e.symm
    have h1 : str "?" = [ch '?'] := rfl
    simp [hasSuffix, h1, List.isPrefixOf, hx2]

theorem parse_base_query (enc : GoString) (hne : enc ≠ [])
    (hsafe : ∀ b ∈ enc, encodeSafe b = true) :
    parse (baseURL ++ ch '?' :: enc) = .ok { baseParsed with RawQuery := enc } := by
  have hq : ch '?' ∉ enc := fun hm => (encodeSafe_ne _ (hsafe _ hm)).2.1 rfl
  have hctl : stringContainsCTLByte (baseURL ++ ch '?' :: enc) = false := by
    have h1 : stringContainsCTLByte (baseURL ++ [ch '?']) = false := by decide
    have h2 : stringContainsCTLByte enc = false := by
      unfold stringContainsCTLByte
      rw [List.any_eq_false]
      intro b hb
      simpa using (encodeSafe_ne _ (hsafe _ hb)).2.2
    unfold stringContainsCTLByte at h1 h2 ⊢
    have h3 : baseURL ++ ch '?' :: enc = (baseURL ++ [ch '?']) ++ enc := by simp
    rw [h3, List.any_append, h1, h2]
    rfl
  have hstar : baseURL ++ ch '?' :: enc ≠ str "*" := by
    intro e
    have := congrArg List.length e
    simp [baseURL] at this
    have h4 : (str "https://connpass.com/api/v1/event/").length = 34 := by decide
    have h5 : (str "*").length = 1 := by decide
    omega
  have hsch : getScheme (baseURL ++ ch '?' :: enc)
      = .ok (str "https", str "//connpass.com/api/v1/event/" ++ ch '?' :: enc) :=
    getScheme_https (str "//connpass.com/api/v1/event/" ++ ch '?' :: enc)
  have hsuf : hasSuffix (str "//connpass.com/api/v1/event/" ++ ch '?' :: enc) (str "?") = false := by
    have h3 : str "//connpass.com/api/v1/event/" ++ ch '?' :: enc
        = (str "//connpass.com/api/v1/event/" ++ [ch '?']) ++ enc := by simp
    rw [h3]
    exact hasSuffix_question _ _ hne hq
  have hcut : cut (ch '?') (str "//connpass.com/api/v1/event/" ++ ch '?' :: enc)
      = (str "//connpass.com/api/v1/event/", enc, true) :=
    cut_append _ _ _ (by decide)
  unfold parse
  rw [hctl]
  simp only [Bool.false_eq_true, if_false, if_neg hstar, hsch, hsuf, false_and, hcut]
  exact parseHier_base enc

theorem Parse_base_query (enc : GoString) (hne : enc ≠ [])
    (hsafe : ∀ b ∈ enc, encodeSafe b = true) :
    Parse (baseURL ++ ch '?' :: enc) = .ok { baseParsed with RawQuery := enc } := by
  have hcut : cut (ch '#') (baseURL ++ ch '?' :: enc) = (baseURL ++ ch '?' :: enc, [], false) := by
    apply cut_of_not_mem
    intro hm
    rcases List.mem_append.1 hm with h | h
    · revert h; decide
    · rcases List.mem_cons.1 h with h | h
      · revert h; decide
      · exact (encodeSafe_ne _ (hsafe _ h)).1 rfl
  unfold Parse
  rw [hcut]
  simp only [parse_base_query enc hne hsafe, if_true]

theorem String_base (enc : GoString) :
    URL.String { baseParsed with RawQuery := enc } = withQuery enc := by
  cases enc with
  | nil => exact String_base_nil
  | cons b t => exact String_base_cons b t

theorem Parse_withQuery (enc : GoString) (hsafe : ∀ b ∈ enc, encodeSafe b = true) :
    Parse (withQuery enc) = .ok { baseParsed with RawQuery := enc } := by
  cases enc with
  | nil => exact Parse_baseURL
  | cons b t => exact Parse_base_query (b :: t) (by simp) hsafe

theorem buildURL_eq (q : QueryParams) :
    buildURL q = .ok (withQuery (Values.Encode (queryValues q))) := by
  unfold buildURL
  rw [Parse_baseURL]
  simp only [String_base]

theorem encodeSafe_tailJoin (ps : List (GoString × GoString)) :
    ∀ b ∈ tailJoin (ps.map encodePair), encodeSafe b = true := by
  induction ps with
  | nil => intro b hb; simp [tailJoin] at hb
  | cons p ps ih =>
    intro b hb
    simp only [List.map_cons, tailJoin, List.mem_cons, List.mem_append] at hb
    rcases hb with h | h | h
    · rw [h]; decide
    · rcases querySafe_mem_encodePair p b h with h1 | h1
      · rw [h1]; decide
      · simp [encodeSafe, h1]
    · exact ih b h

theorem encodeSafe_Encode (v : Values) : ∀ b ∈ Values.Encode v, encodeSafe b = true := by
  rw [Encode_eq_join]
  cases hps : sortedPairs v with
  | nil => intro b hb; simp [join] at hb
  | cons p ps =>
    intro b hb
    rw [List.map_cons, join_amp, List.mem_append] at hb
    rcases hb with h | h
    · rcases querySafe_mem_encodePair p b h with h1 | h1
      · rw [h1]; decide
      · simp [encodeSafe, h1]
    · exact encodeSafe_tailJoin ps b h

theorem builtQuery_eq (q : QueryParams) :
    builtQuery q = .ok (ParseQuery (Values.Encode (queryValues q))).1 := by
  unfold builtQuery
  rw [buildURL_eq]
  simp only [Parse_withQuery _ (encodeSafe_Encode _)]
  rfl

/-! ### The steps of buildURL -/

theorem foldl_append_singleton {α β : Type} (f : α → β) (l : List α) (acc : List β) :
    l.foldl (fun ss iv => ss ++ [f iv]) acc = acc ++ l.map f := by
  induction l generalizing acc with
  | nil => simp
  | cons a l ih => simp [ih]

theorem setIntValues_eq (uv : Values) (k : GoString) (v : Option (List Int)) :
    setIntValues uv k v = optSet uv k (joined (v.map (fun l => l.map Itoa))) := by
  cases v with
  | none => rfl
  | some l => simp [setIntValues, optSet, joined, foldl_append_singleton]

theorem setStringValues_eq (uv : Values) (k : GoString) (v : Option (List GoString)) :
    setStringValues uv k v = optSet uv k (joined v) := by
  cases v <;> rfl

theorem foldl_timeStep (l : List Time) (acc : List GoString × List GoString) :
    l.foldl timeStep acc = (acc.1 ++ ymdOf l, acc.2 ++ ymOf l) := by
  induction l generalizing acc with
  | nil => simp [ymdOf, ymOf]
  | cons tv l ih =>
    rw [List.foldl_cons, ih]
    unfold timeStep
    by_cases h1 : tv.Year > 0 ∧ tv.Month > 0 ∧ tv.Month < 12
    · by_cases h2 : tv.Day > 0
      · simp [ymdOf, ymOf, timeKept, h1, h2, List.filter_cons]
      · simp [ymdOf, ymOf, timeKept, h1, h2, List.filter_cons]
    · simp [ymdOf, ymOf, timeKept, h1, List.filter_cons]

theorem setTimeValues_eq (uv : Values) (v : Option (List Time)) :
    setTimeValues uv v
      = optSet (optSet uv (str "ymd") (bucket (ymdOf (v.getD [])))) (str "ym")
          (bucket (ymOf (v.getD []))) := by
  cases v with
  | none => rfl
  | some l =>
    cases l with
    | nil => rfl
    | cons tv l =>
      simp only [setTimeValues, foldl_timeStep, List.length_cons, Option.getD_some,
        List.nil_append, gt_iff_lt, Nat.zero_lt_succ, if_true, bucket, optSet]
      by_cases h1 : ymdOf (tv :: l) = [] <;> by_cases h2 : ymOf (tv :: l) = [] <;>
        simp [h1, h2, List.length_pos]

theorem ite_Set (v : Values) (c : Prop) [Decidable c] (k x : GoString) :
    (if c then Values.Set v k x else v) = optSet v k (if c then some x else none) := by
  split_ifs <;> rfl

theorem queryValues_foldl (q : QueryParams) :
    queryValues q = (stepsOf q).foldl (fun v s => optSet v s.1 s.2) [] := by
  simp only [queryValues, setIntValues_eq, setStringValues_eq, setTimeValues_eq, stepsOf,
    List.foldl_cons, List.foldl_nil, ite_Set]

theorem put_of_not_has (m : Values) (key : GoString) (vs : List GoString)
    (h : Values.has m key = false) : Values.put m key vs = m ++ [(key, vs)] := by
  induction m with
  | nil => rfl
  | cons p m ih =>
    obtain ⟨k, old⟩ := p
    simp only [Values.has, Bool.or_eq_false_iff, decide_eq_false_iff_not] at h
    simp [Values.put, h.1, ih h.2]

theorem keys_entriesOf_subset (steps : List (GoString × Option GoString)) :
    ∀ k ∈ Values.keys (entriesOf steps), k ∈ steps.map Prod.fst := by
  intro k hk
  simp only [Values.keys, entriesOf, List.mem_map, List.mem_filterMap] at hk
  obtain ⟨p, ⟨s, hs, hsp⟩, rfl⟩ := hk
  cases ho : s.2 with
  | none => simp [ho] at hsp
  | some x =>
    simp [ho] at hsp
    subst hsp
    exact List.mem_map.2 ⟨s, hs, rfl⟩

theorem entriesOf_append (a b : List (GoString × Option GoString)) :
    entriesOf (a ++ b) = entriesOf a ++ entriesOf b := by
  simp [entriesOf, List.filterMap_append]

theorem optSet_entriesOf (pre : List (GoString × Option GoString)) (k : GoString)
    (o : Option GoString) (hk : k ∉ pre.map Prod.fst) :
    optSet (entriesOf pre) k o = entriesOf (pre ++ [(k, o)]) := by
  rw [entriesOf_append]
  cases o with
  | none => simp [optSet, entriesOf]
  | some x =>
    have h1 : Values.has (entriesOf pre) k = false := by
      cases hh : Values.has (entriesOf pre) k
      · rfl
      · exact absurd (keys_entriesOf_subset pre k ((has_eq_mem_keys _ _).1 hh)) hk
    have h2 : entriesOf [(k, some x)] = [(k, [x])] := rfl
    rw [h2]
    exact put_of_not_has _ _ _ h1

theorem foldl_optSet (steps pre : List (GoString × Option GoString))
    (hnd : ((pre ++ steps).map Prod.fst).Nodup) :
    steps.foldl (fun v s => optSet v s.1 s.2) (entriesOf pre) = entriesOf (pre ++ steps) := by
  induction steps generalizing pre with
  | nil => simp
  | cons s steps ih =>
    have hk : s.1 ∉ pre.map Prod.fst := by
      rw [List.map_append, List.map_cons] at hnd
      have := List.disjoint_of_nodup_append hnd
      intro hm
      exact this hm (by simp)
    rw [List.foldl_cons, optSet_entriesOf pre s.1 s.2 hk]
    have h2 : pre ++ s :: steps = (pre ++ [(s.1, s.2)]) ++ steps := by simp
    rw [h2] at hnd ⊢
    exact ih _ hnd

theorem stepsOf_keys (q : QueryParams) : (stepsOf q).map Prod.fst = stepKeys := rfl

theorem stepKeys_nodup : stepKeys.Nodup := by decide

theorem queryValues_eq (q : QueryParams) : queryValues q = entriesOf (stepsOf q) := by
  rw [queryValues_foldl]
  have h := foldl_optSet (stepsOf q) [] (by rw [List.nil_append, stepsOf_keys]; exact stepKeys_nodup)
  simpa [entriesOf] using h

theorem get_entriesOf (steps : List (GoString × Option GoString))
    (hnd : (steps.map Prod.fst).Nodup) (key : GoString) :
    Values.get (entriesOf steps) key = (stepValue steps key).toList := by
  induction steps with
  | nil => rfl
  | cons s steps ih =>
    obtain ⟨k, o⟩ := s
    rw [List.map_cons, List.nodup_cons] at hnd
    have ih1 := ih hnd.2
    by_cases h : k = key
    · subst h
      cases o with
      | some x => simp [entriesOf, stepValue, Values.get, List.find?]
      | none =>
        have h1 : Values.has (entriesOf steps) k = false := by
          cases hh : Values.has (entriesOf steps) k
          · rfl
          · exact absurd (keys_entriesOf_subset steps k ((has_eq_mem_keys _ _).1 hh)) hnd.1
        have h2 := get_of_not_has _ _ h1
        simp only [entriesOf] at h2
        simp [entriesOf, stepValue, List.find?, h2]
    · have e1 : stepValue ((k, o) :: steps) key = stepValue steps key := by
        simp [stepValue, List.find?, h]
      rw [e1, ← ih1]
      cases o with
      | some x => simp [entriesOf, Values.get, h]
      | none => simp [entriesOf]

theorem WF_entriesOf (steps : List (GoString × Option GoString))
    (hnd : (steps.map Prod.fst).Nodup) : Values.WF (entriesOf steps) := by
  have h := foldl_optSet steps [] (by simpa using hnd)
  rw [List.nil_append] at h
  rw [← h]
  clear h hnd
  have : ∀ (l : List (GoString × Option GoString)) (m : Values), Values.WF m →
      Values.WF (l.foldl (fun v s => optSet v s.1 s.2) m) := by
    intro l
    induction l with
    | nil => intro m hm; exact hm
    | cons s l ih =>
      intro m hm
      rw [List.foldl_cons]
      apply ih
      cases ho : s.2 with
      | none => simpa [optSet, ho] using hm
      | some x => simpa [optSet, ho] using WF_Set m s.1 x hm
  exact this steps _ WF_nil

theorem WF_queryValues (q : QueryParams) : Values.WF (queryValues q) := by
  rw [queryValues_eq]
  exact WF_entriesOf _ (by rw [stepsOf_keys]; exact stepKeys_nodup)

theorem get_queryValues (q : QueryParams) (key : GoString) :
    Values.get (queryValues q) key = (stepValue (stepsOf q) key).toList := by
  rw [queryValues_eq]
  exact get_entriesOf _ (by rw [stepsOf_keys]; exact stepKeys_nodup) key

theorem has_queryValues (q : QueryParams) (key : GoString) :
    Values.has (queryValues q) key = (stepValue (stepsOf q) key).isSome := by
  have h1 := has_iff_get_ne_nil _ (WF_queryValues q) key
  rw [get_queryValues] at h1
  cases hs : stepValue (stepsOf q) key with
  | none =>
    rw [hs] at h1
    cases hh : Values.has (queryValues q) key
    · rfl
    · exact absurd rfl (h1.1 hh)
  | some x =>
    rw [hs] at h1
    exact h1.2 (by simp)

/-- The decoded query of the built URL holds, under every key, what the steps of
`buildURL` set under it. -/
theorem builtQuery_spec (q : QueryParams) :
    ∃ m, builtQuery q = .ok m ∧
      (∀ key, Values.get m key = (stepValue (stepsOf q) key).toList) ∧
      (∀ key, Values.has m key = (stepValue (stepsOf q) key).isSome) := by
  refine ⟨_, builtQuery_eq q, ?_, ?_⟩
  · intro key
    rw [get_ParseQuery_Encode _ (WF_queryValues q).1, get_queryValues]
  · intro key
    rw [has_ParseQuery_Encode _ (WF_queryValues q), has_queryValues]

theorem insertionSort_perm_eq (ks ks1 : List GoString) (h : ks.Perm ks1) :
    List.insertionSort StrLE ks = List.insertionSort StrLE ks1 :=
  List.eq_of_perm_of_sorted
    (((List.perm_insertionSort StrLE ks).trans h).trans (List.perm_insertionSort StrLE ks1).symm)
    (List.sorted_insertionSort StrLE ks) (List.sorted_insertionSort StrLE ks1)

theorem insertionSort_sublist (ks ks1 : List GoString) (h : ks.Sublist ks1) :
    (List.insertionSort StrLE ks).Sublist (List.insertionSort StrLE ks1) := by
  apply List.sublist_of_subperm_of_sorted _ (List.sorted_insertionSort StrLE ks)
    (List.sorted_insertionSort StrLE ks1)
  exact ((List.perm_insertionSort StrLE ks).subperm_right).2
    (((List.perm_insertionSort StrLE ks1).subperm_left).2 h.subperm)

/-! ### Decimal digits -/

theorem digitsAux_eq (fuel n : Nat) (acc : GoString) (h : n < fuel) :
    digitsAux fuel n acc = decimal n ++ acc := by
  induction fuel generalizing n acc with
  | zero => omega
  | succ fuel ih =>
    unfold digitsAux
    by_cases h10 : n < 10
    · simp only [h10, if_true]
      by_cases h0 : n = 0
      · subst h0; rfl
      · simp [decimal, h0, Nat.digits_of_lt 10 n h0 h10, Nat.mod_eq_of_lt h10]
    · simp only [h10, if_false]
      have hpos : 0 < n := by omega
      have hdiv : n / 10 ≠ 0 := by omega
      have hn0 : n ≠ 0 := by omega
      rw [ih (n / 10) _ (by omega)]
      simp [decimal, hdiv, hn0, Nat.digits_def' (by norm_num : 1 < 10) hpos]

theorem natDigits_eq (n : Nat) : natDigits n = decimal n := by
  rw [natDigits, digitsAux_eq _ _ _ (Nat.lt_succ_self n), List.append_nil]

theorem fmtZeroPad_eq (w : Nat) (i : Int) (h : 0 ≤ i) : fmtZeroPad w i = zeroPadded w i.toNat := by
  have h1 : ¬ i < 0 := not_lt.2 h
  have h2 : i.natAbs = i.toNat := by omega
  simp [fmtZeroPad, zeroPadded, h1, h2, natDigits_eq]

/-! ### Substrings -/

theorem contains_iff (s sub : GoString) : contains s sub = true ↔ sub <:+: s := by
  induction s with
  | nil => cases sub <;> simp [contains]
  | cons b s ih =>
    rw [contains, Bool.or_eq_true, ih, List.infix_cons_iff, List.isPrefixOf_iff_prefix]

/-! ### The keys of the built query in order -/

theorem pieceKey_encodePair (p : GoString × GoString) : pieceKey (encodePair p) = some p.1 := by
  have h1 : ch ';' ∉ encodePair p := not_mem_encodePair p _ (by decide) (by decide)
  have h2 : encodePair p ≠ [] := encodePair_ne_nil p
  have h3 : cut (ch '=') (encodePair p) = (QueryEscape p.1, QueryEscape p.2, true) :=
    cut_append _ _ _ (not_mem_QueryEscape _ _ (by decide))
  unfold pieceKey
  simp only [h1, h2, if_false, h3, QueryUnescape_QueryEscape]

theorem queryKeys_join (ps : List (GoString × GoString)) :
    queryKeys (join (ps.map encodePair) (str "&")) = ps.map Prod.fst := by
  cases ps with
  | nil => rfl
  | cons p ps =>
    have hne : join ((p :: ps).map encodePair) (str "&") ≠ [] := by
      rw [List.map_cons, join_amp]
      simp [encodePair]
    unfold queryKeys
    rw [if_neg hne, List.map_cons, splitAmp_join, ← List.map_cons, List.filterMap_map]
    · have : (pieceKey ∘ encodePair) = (some ∘ Prod.fst) := by
        funext x; exact pieceKey_encodePair x
      rw [this, List.filterMap_eq_map]
    · intro x hx
      rw [← List.map_cons] at hx
      obtain ⟨y, _, rfl⟩ := List.mem_map.1 hx
      exact not_mem_encodePair y _ (by decide) (by decide)

theorem pairsOf_map_fst (v : Values) (ks : List GoString)
    (h : ∀ k ∈ ks, (Values.get v k).length = 1) : (pairsOf v ks).map Prod.fst = ks := by
  induction ks with
  | nil => rfl
  | cons k ks ih =>
    have h1 := h k (by simp)
    obtain ⟨x, hx⟩ := List.length_eq_one.1 h1
    rw [pairsOf, List.map_append, ih (fun k1 hk1 => h k1 (List.mem_cons_of_mem _ hk1)), hx]
    rfl

theorem keys_entriesOf_sublist (steps : List (GoString × Option GoString)) :
    (Values.keys (entriesOf steps)).Sublist (steps.map Prod.fst) := by
  induction steps with
  | nil => exact List.Sublist.slnil
  | cons s steps ih =>
    obtain ⟨k, o⟩ := s
    cases o with
    | none =>
      have : entriesOf ((k, none) :: steps) = entriesOf steps := by simp [entriesOf]
      rw [this]
      exact List.Sublist.cons _ ih
    | some x =>
      have : entriesOf ((k, some x) :: steps) = (k, [x]) :: entriesOf steps := by
        simp [entriesOf]
      rw [this]
      exact List.Sublist.cons₂ _ ih

theorem keys_queryValues_sublist (q : QueryParams) :
    (Values.keys (queryValues q)).Sublist stepKeys := by
  rw [queryValues_eq, ← stepsOf_keys q]
  exact keys_entriesOf_sublist _

theorem get_length_queryValues (q : QueryParams) (k : GoString)
    (hk : k ∈ Values.keys (queryValues q)) : (Values.get (queryValues q) k).length = 1 := by
  have h1 := (has_eq_mem_keys _ _).2 hk
  rw [has_queryValues] at h1
  rw [get_queryValues]
  cases hs : stepValue (stepsOf q) k with
  | none => rw [hs] at h1; simp at h1
  | some x => rfl

theorem insertionSort_stepKeys : List.insertionSort StrLE stepKeys = sortedStepKeys := by decide

theorem builtKeys_eq (q : QueryParams) :
    builtKeys q = .ok (List.insertionSort StrLE (Values.keys (queryValues q))) := by
  unfold builtKeys
  rw [buildURL_eq]
  simp only [Parse_withQuery _ (encodeSafe_Encode _)]
  rw [Encode_eq_join, queryKeys_join, sortedPairs, pairsOf_map_fst]
  intro k hk
  exact get_length_queryValues q k ((List.perm_insertionSort StrLE _).mem_iff.1 hk)

theorem buildURLRange_eq (q : QueryParams) (ks : List GoString)
    (h : ks.Perm (Values.keys (queryValues q))) : buildURLRange q ks = buildURL q := by
  unfold buildURLRange buildURL Values.Encode Values.EncodeRange
  rw [insertionSort_perm_eq ks _ h]

theorem timeKept_eq_specValid (t : Time) : timeKept t = specValid t := by
  unfold timeKept specValid
  apply decide_eq_decide.2
  constructor <;> intro h <;> omega

theorem ymdOf_eq (l : List Time) :
    ymdOf l = (l.filter (fun t => specValid t && decide (t.Day > 0))).map specYMD := by
  unfold ymdOf
  have hf : (fun tv : Time => timeKept tv && decide (tv.Day > 0))
      = (fun t => specValid t && decide (t.Day > 0)) := by
    funext t; rw [timeKept_eq_specValid]
  rw [hf]
  apply List.map_congr_left
  intro t ht
  have h := (List.mem_filter.1 ht).2
  simp only [specValid, Bool.and_eq_true, decide_eq_true_eq] at h
  rw [specYMD, fmtZeroPad_eq _ _ (by omega), fmtZeroPad_eq _ _ (by omega),
    fmtZeroPad_eq _ _ (by omega)]

theorem ymOf_eq (l : List Time) :
    ymOf l = (l.filter (fun t => specValid t && !decide (t.Day > 0))).map specYM := by
  unfold ymOf
  have hf : (fun tv : Time => timeKept tv && !decide (tv.Day > 0))
      = (fun t => specValid t && !decide (t.Day > 0)) := by
    funext t; rw [timeKept_eq_specValid]
  rw [hf]
  apply List.map_congr_left
  intro t ht
  have h := (List.mem_filter.1 ht).2
  simp only [specValid, Bool.and_eq_true, decide_eq_true_eq] at h
  rw [specYM, fmtZeroPad_eq _ _ (by omega), fmtZeroPad_eq _ _ (by omega)]

/-- C5: for every list of Time entries (nil included) and every map, `setTimeValues` does
what the specification says: the valid entries (Year > 0, 1 <= Month <= 11) with Day > 0 are
written as zero-padded YYYYMMDD and comma-joined in input order under `ymd`, the other valid
entries as zero-padded YYYYMM under `ym`, and a key is set exactly when its bucket is not
empty; for the dates of the test and one date in December this gives
`ymd` = `20180210,20190311` and `ym` = `202004`. -/
theorem setTimeValues_spec (uv : Values) (v : Option (List Time)) :
    setTimeValues uv v = specTimeValues uv v ∧
      setTimeValues [] (some [{ Year := 2018, Month := 2, Day := 10 },
          { Year := 2019, Month := 3, Day := 11 }, { Year := 2020, Month := 4 },
          { Year := 2020, Month := 12, Day := 1 }])
        = [(str "ymd", [str "20180210,20190311"]), (str "ym", [str "202004"])] := by
  refine ⟨?_, by decide⟩
  rw [setTimeValues_eq, specTimeValues, ymdOf_eq, ymOf_eq]
  simp only [bucket, optSet]
  split_ifs <;> simp_all

/-- C1: for the empty QueryParams (every list nil, Start, Order and Count zero, Format
empty) `buildURL` returns no error and exactly the base URL
`https://connpass.com/api/v1/event/`, with an empty query and no trailing `?`. -/
theorem buildURL_empty :
    buildURL { EventIds := none, KeywordsAnd := none, KeywordsOr := none, Times := none,
               ParticipantNicknames := none, OwnerNicknames := none, SeriesIds := none,
               Start := 0, Order := 0, Count := 0, Format := [] }
      = .ok (str "https://connpass.com/api/v1/event/") := by
  decide

theorem buildURL_testParams : buildURL testParams = .ok testURL := by decide

theorem builtQuery_testParams : builtQuery testParams = .ok testQuery := by decide

/-- C2: for every QueryParams whose six list fields are non-nil, so in particular when
they are non-empty, parsing the URL returned by `buildURL` and decoding its query yields,
under `event_id`, `keyword`, `keyword_or`, `nickname`, `owner_nickname` and `series_id`,
exactly one value each, the comma-join of the list in input order (integers in decimal); and for the input of `TestBuildURL_withQuery` the
decoded query is `testQuery`: `event_id` = `10,20`, `keyword` = `a,b`, `keyword_or` = `c,d`,
`nickname` = `foo,bar`, `owner_nickname` = `foo,bar,baz`, `series_id` = `1000,2000,5000`,
`ymd` = `20180210,20190311`, `ym` = `202004`, `start` = `5`, `order` = `1`, `count` = `100`,
`format` = `json`. -/
theorem builtQuery_lists (q : QueryParams) (ids series : List Int)
    (kand kor nick owner : List GoString)
    (h1 : q.EventIds = some ids)
    (h2 : q.KeywordsAnd = some kand)
    (h3 : q.KeywordsOr = some kor)
    (h4 : q.ParticipantNicknames = some nick)
    (h5 : q.OwnerNicknames = some owner)
    (h6 : q.SeriesIds = some series) :
    (∃ m, builtQuery q = .ok m ∧
      Values.get m (str "event_id") = [join (ids.map Itoa) (str ",")] ∧
      Values.get m (str "keyword") = [join kand (str ",")] ∧
      Values.get m (str "keyword_or") = [join kor (str ",")] ∧
      Values.get m (str "nickname") = [join nick (str ",")] ∧
      Values.get m (str "owner_nickname") = [join owner (str ",")] ∧
      Values.get m (str "series_id") = [join (series.map Itoa) (str ",")]) ∧
    builtQuery testParams = .ok testQuery := by
  refine ⟨?_, builtQuery_testParams⟩
  obtain ⟨m, hm, hget, _⟩ := builtQuery_spec q
  refine ⟨m, hm, ?_, ?_, ?_, ?_, ?_, ?_⟩
  · rw [hget]
    show (joined (q.EventIds.map (fun l => l.map Itoa))).toList = _
    rw [h1]; rfl
  · rw [hget]
    show (joined q.KeywordsAnd).toList = _
    rw [h2]; rfl
  · rw [hget]
    show (joined q.KeywordsOr).toList = _
    rw [h3]; rfl
  · rw [hget]
    show (joined q.ParticipantNicknames).toList = _
    rw [h4]; rfl
  · rw [hget]
    show (joined q.OwnerNicknames).toList = _
    rw [h5]; rfl
  · rw [hget]
    show (joined (q.SeriesIds.map (fun l => l.map Itoa))).toList = _
    rw [h6]; rfl

/-- Witness of C2 at the input of `TestBuildURL_withQuery`. -/
theorem builtQuery_lists_witness :
    (∃ m, builtQuery testParams = .ok m ∧
      Values.get m (str "event_id") = [join ([10, 20].map Itoa) (str ",")] ∧
      Values.get m (str "keyword") = [join [str "a", str "b"] (str ",")] ∧
      Values.get m (str "keyword_or") = [join [str "c", str "d"] (str ",")] ∧
      Values.get m (str "nickname") = [join [str "foo", str "bar"] (str ",")] ∧
      Values.get m (str "owner_nickname") = [join [str "foo", str "bar", str "baz"] (str ",")] ∧
      Values.get m (str "series_id") = [join ([1000, 2000, 5000].map Itoa) (str ",")]) ∧
    builtQuery testParams = .ok testQuery :=
  builtQuery_lists testParams [10, 20] [1000, 2000, 5000] [str "a", str "b"] [str "c", str "d"]
    [str "foo", str "bar"] [str "foo", str "bar", str "baz"]
    rfl rfl rfl rfl rfl rfl

/-- Counterexample to C3 as stated: the URL built for the fully populated QueryParams holds
none of the substrings with a raw comma; `Values.Encode` writes every comma as `%2C`. -/
theorem testURL_has_no_raw_comma :
    buildURL testParams = .ok testURL ∧
      contains testURL (str "event_id=10,20") = false ∧
      contains testURL (str "keyword=a,b") = false ∧
      contains testURL (str "keyword_or=c,d") = false ∧
      contains testURL (str "ymd=20180210,20190311") = false ∧
      contains testURL (str "nickname=foo,bar") = false ∧
      contains testURL (str "owner_nickname=foo,bar,baz") = false ∧
      contains testURL (str "series_id=1000,2000,5000") = false := by
  decide

/-- C3, amended: for the fully populated QueryParams the string returned by `buildURL`
contains each of the substrings `event_id=10%2C20`, `keyword=a%2Cb`, `keyword_or=c%2Cd`,
`ymd=20180210%2C20190311`, `ym=202004`, `nickname=foo%2Cbar`,
`owner_nickname=foo%2Cbar%2Cbaz`, `series_id=1000%2C2000%2C5000`, `start=5`, `order=1`,
`count=100`, `format=json`: the commas of the values are percent-encoded. -/
theorem testURL_substrings :
    buildURL testParams = .ok testURL ∧
      contains testURL (str "event_id=10%2C20") = true ∧
      contains testURL (str "keyword=a%2Cb") = true ∧
      contains testURL (str "keyword_or=c%2Cd") = true ∧
      contains testURL (str "ymd=20180210%2C20190311") = true ∧
      contains testURL (str "ym=202004") = true ∧
      contains testURL (str "nickname=foo%2Cbar") = true ∧
      contains testURL (str "owner_nickname=foo%2Cbar%2Cbaz") = true ∧
      contains testURL (str "series_id=1000%2C2000%2C5000") = true ∧
      contains testURL (str "start=5") = true ∧
      contains testURL (str "order=1") = true ∧
      contains testURL (str "count=100") = true ∧
      contains testURL (str "format=json") = true := by
  decide

/-- C4, the code at the failing inputs: for each list field an empty non-nil list makes
`buildURL` emit the key of the field with an empty value, where the claim says the key does
not occur. -/
theorem buildURL_empty_nonnil_lists :
    buildURL { EventIds := some [] } = .ok (str "https://connpass.com/api/v1/event/?event_id=") ∧
    buildURL { KeywordsAnd := some [] } = .ok (str "https://connpass.com/api/v1/event/?keyword=") ∧
    buildURL { KeywordsOr := some [] }
      = .ok (str "https://connpass.com/api/v1/event/?keyword_or=") ∧
    buildURL { ParticipantNicknames := some [] }
      = .ok (str "https://connpass.com/api/v1/event/?nickname=") ∧
    buildURL { OwnerNicknames := some [] }
      = .ok (str "https://connpass.com/api/v1/event/?owner_nickname=") ∧
    buildURL { SeriesIds := some [] }
      = .ok (str "https://connpass.com/api/v1/event/?series_id=") := by
  decide

theorem ymdOf_invalid (l : List Time)
    (h : ∀ t ∈ l, t.Month ≥ 12 ∨ t.Month ≤ 0 ∨ t.Year ≤ 0) : ymdOf l = [] ∧ ymOf l = [] := by
  have hk : ∀ t ∈ l, timeKept t = false := by
    intro t ht
    have := h t ht
    unfold timeKept
    apply decide_eq_false
    omega
  constructor
  · unfold ymdOf
    rw [List.map_eq_nil_iff, List.filter_eq_nil_iff]
    intro t ht
    simp [hk t ht]
  · unfold ymOf
    rw [List.map_eq_nil_iff, List.filter_eq_nil_iff]
    intro t ht
    simp [hk t ht]

theorem ymdOf_drop (pre post : List Time) (t : Time)
    (h : t.Month ≥ 12 ∨ t.Month ≤ 0 ∨ t.Year ≤ 0) :
    ymdOf (pre ++ t :: post) = ymdOf (pre ++ post) ∧ ymOf (pre ++ t :: post) = ymOf (pre ++ post) := by
  have hk : timeKept t = false := by
    unfold timeKept
    apply decide_eq_false
    omega
  constructor
  · simp [ymdOf, List.filter_append, List.filter_cons, hk]
  · simp [ymOf, List.filter_append, List.filter_cons, hk]

theorem setTimeValues_drop (uv : Values) (pre post : List Time) (t : Time)
    (h : t.Month ≥ 12 ∨ t.Month ≤ 0 ∨ t.Year ≤ 0) :
    setTimeValues uv (some (pre ++ t :: post)) = setTimeValues uv (some (pre ++ post)) := by
  rw [setTimeValues_eq, setTimeValues_eq]
  simp only [Option.getD_some, (ymdOf_drop pre post t h).1, (ymdOf_drop pre post t h).2]

/-- C6: a Time entry with Month >= 12, Month <= 0 or Year <= 0 contributes to neither the
`ymd` nor the `ym` value: removing it from the list changes neither the result of
`setTimeValues` nor the URL `buildURL` returns; `buildURL` returns no error for any
QueryParams; and for a QueryParams whose Times holds only such entries the query of the
built URL has neither key. -/
theorem invalid_times_dropped (q : QueryParams)
    (h : ∀ t ∈ q.Times.getD [], t.Month ≥ 12 ∨ t.Month ≤ 0 ∨ t.Year ≤ 0) :
    (∀ (q1 : QueryParams) (pre post : List Time) (t : Time),
        (t.Month ≥ 12 ∨ t.Month ≤ 0 ∨ t.Year ≤ 0) →
        (∀ uv, setTimeValues uv (some (pre ++ t :: post))
          = setTimeValues uv (some (pre ++ post))) ∧
        buildURL { q1 with Times := some (pre ++ t :: post) }
          = buildURL { q1 with Times := some (pre ++ post) }) ∧
      (∀ q1 : QueryParams, ∃ s, buildURL q1 = .ok s) ∧
      ∃ m, builtQuery q = .ok m ∧ Values.has m (str "ymd") = false ∧
        Values.has m (str "ym") = false := by
  refine ⟨?_, fun q1 => ⟨_, buildURL_eq q1⟩, ?_⟩
  · intro q1 pre post t ht
    refine ⟨fun uv => setTimeValues_drop uv pre post t ht, ?_⟩
    simp only [buildURL, queryValues, setTimeValues_drop _ pre post t ht]
  · obtain ⟨m, hm, _, hhas⟩ := builtQuery_spec q
    refine ⟨m, hm, ?_, ?_⟩
    · rw [hhas]
      show (bucket (ymdOf (q.Times.getD []))).isSome = false
      rw [(ymdOf_invalid _ h).1]; rfl
    · rw [hhas]
      show (bucket (ymOf (q.Times.getD []))).isSome = false
      rw [(ymdOf_invalid _ h).2]; rfl

/-- Witness of C6: a single date in December. -/
theorem invalid_times_dropped_witness :
    (∀ t ∈ [({ Year := 2020, Month := 12, Day := 25 } : Time)],
        t.Month ≥ 12 ∨ t.Month ≤ 0 ∨ t.Year ≤ 0) ∧
      ∃ m, builtQuery { Times := some [{ Year := 2020, Month := 12, Day := 25 }] } = .ok m ∧
        Values.has m (str "ymd") = false ∧ Values.has m (str "ym") = false :=
  ⟨by decide,
    (invalid_times_dropped { Times := some [{ Year := 2020, Month := 12, Day := 25 }] }
      (by decide)).2.2⟩

/-- C7: in the query of the URL built by `buildURL`, the key `start` (`count`, `order`) is
present only when Start (Count, Order) is non-zero and `format` only when Format is
non-empty; a key that is present occurs once, `start`, `count` and `order` carrying the
decimal string of the integer (1, 2, 3 for QueryOrderUpdate, QueryOrderStart,
QueryOrderCreate) and `format` the string itself. -/
theorem builtQuery_scalars (q : QueryParams) :
    (∃ m, builtQuery q = .ok m ∧
      (Values.has m (str "start") = false
        ∨ (q.Start ≠ 0 ∧ Values.get m (str "start") = [Itoa q.Start])) ∧
      (Values.has m (str "count") = false
        ∨ (q.Count ≠ 0 ∧ Values.get m (str "count") = [Itoa q.Count])) ∧
      (Values.has m (str "order") = false
        ∨ (q.Order ≠ 0 ∧ Values.get m (str "order") = [Itoa q.Order])) ∧
      (Values.has m (str "format") = false
        ∨ (q.Format ≠ [] ∧ Values.get m (str "format") = [q.Format]))) ∧
    (∀ i : Int, 0 ≤ i → Itoa i = decimal i.toNat) ∧
    Itoa QueryOrderUpdate = str "1" ∧ Itoa QueryOrderStart = str "2" ∧
    Itoa QueryOrderCreate = str "3" := by
  refine ⟨?_, ?_, by decide, by decide, by decide⟩
  · obtain ⟨m, hm, hget, hhas⟩ := builtQuery_spec q
    refine ⟨m, hm, ?_, ?_, ?_, ?_⟩
    · rw [hget, hhas]
      show (if q.Start > 0 then some (Itoa q.Start) else none).isSome = false
        ∨ (q.Start ≠ 0 ∧ (if q.Start > 0 then some (Itoa q.Start) else none).toList = _)
      split_ifs with h
      · exact Or.inr ⟨ne_of_gt h, rfl⟩
      · exact Or.inl rfl
    · rw [hget, hhas]
      show (if q.Count > 0 then some (Itoa q.Count) else none).isSome = false
        ∨ (q.Count ≠ 0 ∧ (if q.Count > 0 then some (Itoa q.Count) else none).toList = _)
      split_ifs with h
      · exact Or.inr ⟨ne_of_gt h, rfl⟩
      · exact Or.inl rfl
    · rw [hget, hhas]
      show (if q.Order > 0 then some (Itoa q.Order) else none).isSome = false
        ∨ (q.Order ≠ 0 ∧ (if q.Order > 0 then some (Itoa q.Order) else none).toList = _)
      split_ifs with h
      · exact Or.inr ⟨ne_of_gt h, rfl⟩
      · exact Or.inl rfl
    · rw [hget, hhas]
      show (if q.Format ≠ [] then some q.Format else none).isSome = false
        ∨ (q.Format ≠ [] ∧ (if q.Format ≠ [] then some q.Format else none).toList = _)
      split_ifs with h
      · exact Or.inr ⟨h, rfl⟩
      · exact Or.inl rfl
  · intro i hi
    have h1 : ¬ i < 0 := not_lt.2 hi
    have h2 : i.natAbs = i.toNat := by omega
    simp [Itoa, h1, h2, natDigits_eq]

/-- Counterexample to C8 as stated: with Start = 1 and Count = 1 the query is
`count=1&start=1`; `count` comes before `start`, against the order of the steps of
`buildURL`, in which `start` comes before `count`. -/
theorem builtKeys_not_in_step_order :
    buildURL { Start := 1, Count := 1 }
        = .ok (str "https://connpass.com/api/v1/event/?count=1&start=1") ∧
      builtKeys { Start := 1, Count := 1 } = .ok [str "count", str "start"] ∧
      ¬ List.Sublist [str "count", str "start"] stepKeys := by
  decide

/-- C8, amended: for every QueryParams the keys in the query string returned by `buildURL`
appear in ascending byte order of the keys, the order in which `Values.Encode` writes them:
`count`, `event_id`, `format`, `keyword`, `keyword_or`, `nickname`, `order`,
`owner_nickname`, `series_id`, `start`, `ym`, `ymd`, restricted to the keys that are
present. -/
theorem builtKeys_sorted (q : QueryParams) :
    ∃ ks m, builtKeys q = .ok ks ∧ builtQuery q = .ok m ∧ ks.Sublist sortedStepKeys ∧
      ∀ k, k ∈ ks ↔ Values.has m k = true := by
  refine ⟨_, _, builtKeys_eq q, builtQuery_eq q, ?_, ?_⟩
  · rw [← insertionSort_stepKeys]
    exact insertionSort_sublist _ _ (keys_queryValues_sublist q)
  · intro k
    rw [has_ParseQuery_Encode _ (WF_queryValues q), has_eq_mem_keys]
    exact (List.perm_insertionSort StrLE _).mem_iff

/-- C9: the constant base URL parses, so for every QueryParams, whatever its numbers, dates
and keyword strings, `buildURL` returns no error and a non-empty string that begins with
`https://connpass.com/api/v1/event/`. -/
theorem buildURL_total (q : QueryParams) :
    Parse baseURL = .ok baseParsed ∧
      ∃ s, buildURL q = .ok s ∧ s ≠ [] ∧ str "https://connpass.com/api/v1/event/" <+: s := by
  refine ⟨Parse_baseURL, _, buildURL_eq q, ?_, ?_⟩
  · cases Values.Encode (queryValues q) with
    | nil => decide
    | cons b t => simp [withQuery, baseURL]
  · cases Values.Encode (queryValues q) with
    | nil => exact List.prefix_refl _
    | cons b t => exact List.prefix_append _ _

/-- C10: the string `buildURL` returns does not depend on the order in which the range
over the map inside `Values.Encode` yields the keys: whatever permutation `ks` of the keys
the range yields, the result is that of `buildURL`, so any two calls on the same input
return the same string. -/
theorem buildURLRange_deterministic (q : QueryParams) (ks ks1 : List GoString)
    (h : ks.Perm (Values.keys (queryValues q))) (h1 : ks1.Perm (Values.keys (queryValues q))) :
    buildURLRange q ks = buildURLRange q ks1 ∧ buildURLRange q ks = buildURL q := by
  rw [buildURLRange_eq q ks h, buildURLRange_eq q ks1 h1]
  exact ⟨rfl, rfl⟩

/-- Witness of C10: Start = 1 and Count = 1, the range yielding `count` before `start` in
one call and `start` before `count` in the other. -/
theorem buildURLRange_deterministic_witness :
    [str "count", str "start"].Perm (Values.keys (queryValues { Start := 1, Count := 1 })) ∧
      [str "start", str "count"].Perm (Values.keys (queryValues { Start := 1, Count := 1 })) ∧
      buildURLRange { Start := 1, Count := 1 } [str "count", str "start"]
        = buildURLRange { Start := 1, Count := 1 } [str "start", str "count"] ∧
      buildURLRange { Start := 1, Count := 1 } [str "count", str "start"]
        = buildURL { Start := 1, Count := 1 } :=
  ⟨List.Perm.swap _ _ _, List.Perm.refl _,
    buildURLRange_deterministic { Start := 1, Count := 1 } [str "count", str "start"]
      [str "start", str "count"] (List.Perm.swap _ _ _) (List.Perm.refl _)⟩

theorem ymdOf_negative_day (pre post : List Time) (t : Time) (hneg : t.Day < 0) :
    ymdOf (pre ++ t :: post) = ymdOf (pre ++ { t with Day := 0 } :: post) ∧
      ymOf (pre ++ t :: post) = ymOf (pre ++ { t with Day := 0 } :: post) := by
  have h1 : ¬ t.Day > 0 := by omega
  constructor
  · simp [ymdOf, List.filter_append, List.filter_cons, h1]
  · simp only [ymOf, List.filter_append, List.filter_cons, List.map_append, timeKept]
    congr 1
    simp only [h1, decide_False, Bool.not_false, Bool.and_true, lt_irrefl, gt_iff_lt]
    split_ifs <;> simp

/-- C19: `buildURL` is not injective. The list elements are joined with commas and the
separator inside an element is not escaped, so the distinct inputs KeywordsAnd = ["a,b"] and
KeywordsAnd = ["a", "b"] give the same URL; and a Start of 0 is the unset start: whatever the
other fields, with Start = 0 the query has no `start` key, so `start=0` cannot be sent. -/
theorem buildURL_not_injective :
    ({ KeywordsAnd := some [str "a,b"] } : QueryParams)
        ≠ { KeywordsAnd := some [str "a", str "b"] } ∧
      buildURL { KeywordsAnd := some [str "a,b"] }
        = buildURL { KeywordsAnd := some [str "a", str "b"] } ∧
      buildURL { KeywordsAnd := some [str "a,b"] }
        = .ok (str "https://connpass.com/api/v1/event/?keyword=a%2Cb") ∧
      ¬ Function.Injective buildURL ∧
      (∀ q : QueryParams, ∃ m, builtQuery { q with Start := 0 } = .ok m ∧
        Values.has m (str "start") = false) ∧
      buildURL { Start := 0 } = .ok (str "https://connpass.com/api/v1/event/") := by
  have hne : ({ KeywordsAnd := some [str "a,b"] } : QueryParams)
      ≠ { KeywordsAnd := some [str "a", str "b"] } := by decide
  have heq : buildURL { KeywordsAnd := some [str "a,b"] }
      = buildURL { KeywordsAnd := some [str "a", str "b"] } := by decide
  refine ⟨hne, heq, by decide, fun hinj => hne (hinj heq), ?_, by decide⟩
  intro q
  obtain ⟨m, hm, _, hhas⟩ := builtQuery_spec { q with Start := 0 }
  exact ⟨m, hm, by rw [hhas]; rfl⟩

/-- C20: in the query of the built URL the key `start` (`count`, `order`) is present exactly
when the field is strictly positive, so a negative Start, Count or Order emits nothing; and a
Time entry with Day < 0 is treated by `setTimeValues` and by `buildURL` exactly like the
same entry with Day = 0, so that a valid one goes to the `ym` bucket as YYYYMM. -/
theorem negative_values_absent (q : QueryParams) :
    (∃ m, builtQuery q = .ok m ∧
      (Values.has m (str "start") = true ↔ q.Start > 0) ∧
      (Values.has m (str "count") = true ↔ q.Count > 0) ∧
      (Values.has m (str "order") = true ↔ q.Order > 0)) ∧
    (∀ (pre post : List Time) (t : Time), t.Day < 0 →
      (∀ uv, setTimeValues uv (some (pre ++ t :: post))
        = setTimeValues uv (some (pre ++ { t with Day := 0 } :: post))) ∧
      buildURL { q with Times := some (pre ++ t :: post) }
        = buildURL { q with Times := some (pre ++ { t with Day := 0 } :: post) }) ∧
    buildURL { Start := -1, Order := -1, Count := -1 }
      = .ok (str "https://connpass.com/api/v1/event/") ∧
    buildURL { Times := some [{ Year := 2020, Month := 4, Day := -3 }] }
      = .ok (str "https://connpass.com/api/v1/event/?ym=202004") := by
  refine ⟨?_, ?_, by decide, by decide⟩
  · obtain ⟨m, hm, _, hhas⟩ := builtQuery_spec q
    refine ⟨m, hm, ?_, ?_, ?_⟩
    · rw [hhas]
      show (if q.Start > 0 then some (Itoa q.Start) else none).isSome = true ↔ _
      split_ifs with h <;> simp [h]
    · rw [hhas]
      show (if q.Count > 0 then some (Itoa q.Count) else none).isSome = true ↔ _
      split_ifs with h <;> simp [h]
    · rw [hhas]
      show (if q.Order > 0 then some (Itoa q.Order) else none).isSome = true ↔ _
      split_ifs with h <;> simp [h]
  · intro pre post t hneg
    have hd : ∀ uv, setTimeValues uv (some (pre ++ t :: post))
        = setTimeValues uv (some (pre ++ { t with Day := 0 } :: post)) := by
      intro uv
      rw [setTimeValues_eq, setTimeValues_eq]
      simp only [Option.getD_some, (ymdOf_negative_day pre post t hneg).1,
        (ymdOf_negative_day pre post t hneg).2]
    refine ⟨hd, ?_⟩
    simp only [buildURL, queryValues, hd]

/-! ### The requests of the client -/

theorem ResolveReference_base (b : Option URL) (enc : GoString) :
    ResolveReference b { baseParsed with RawQuery := enc }
      = some { baseParsed with RawQuery := enc } := rfl

theorem ResolveReference_absolute (b1 b2 : Option URL) (ref : URL) (h : ref.Scheme ≠ []) :
    ResolveReference b1 ref = ResolveReference b2 ref := by
  simp [ResolveReference, h]

theorem NewRequest_withQuery (enc body : GoString) (hsafe : ∀ b ∈ enc, encodeSafe b = true) :
    NewRequest MethodGet (withQuery enc) body
      = .ok { Method := MethodGet, URL := { baseParsed with RawQuery := enc }, Header := [],
              Body := body, Host := str "connpass.com" } := by
  have hm : (if MethodGet = [] then str "GET" else MethodGet) = MethodGet := by decide
  have hv : validMethod MethodGet = true := by decide
  simp only [NewRequest, hm, hv, Bool.not_true, Bool.false_eq_true, if_false,
    Parse_withQuery enc hsafe]
  rfl

theorem header_sets (ua version : GoString) :
    Header.Set (Header.Set (Header.Set [] (str "Content-Type") mediaType) (str "Accept") mediaType)
        (str "User-Agent") (ua ++ str " " ++ version)
      = requestHeader ua version := rfl

theorem NewRequest_ok (method url body : GoString) (r0 : Request)
    (h : NewRequest method url body = .ok r0) :
    r0.Header = [] ∧ r0.Body = body ∧
      ∃ u, Parse url = .ok u ∧ r0.URL = { u with Host := removeEmptyPort u.Host } := by
  unfold NewRequest at h
  simp only at h
  cases hp : Parse url with
  | error e =>
    simp only [hp] at h
    split_ifs at h
  | ok u =>
    simp only [hp] at h
    split_ifs at h <;>
      (simp only [Except.ok.injEq] at h
       subst h
       exact ⟨rfl, rfl, u, rfl, rfl⟩)

theorem newRequest_ok {β : Type} (c : Client) (version : GoString)
    (marshal : β → Except GoError GoString) (method urlStr : GoString) (body : Option β)
    (req : Request) (h : c.newRequest version marshal method urlStr body = .ok req) :
    ∃ rel u buf r0, Parse urlStr = .ok rel ∧ ResolveReference c.BaseURL rel = some u ∧
      encodeBody marshal body = .ok buf ∧
      NewRequest method u.String buf = .ok r0 ∧
      req = { r0 with Header := requestHeader c.UserAgent version } := by
  unfold Client.newRequest at h
  cases h1 : Parse urlStr with
  | error e => simp [h1] at h
  | ok rel =>
    simp only [h1] at h
    cases h2 : ResolveReference c.BaseURL rel with
    | none => simp [h2] at h
    | some u =>
      simp only [h2] at h
      cases h3 : encodeBody marshal body with
      | error e => simp [h3] at h
      | ok buf =>
        simp only [h3] at h
        cases h4 : NewRequest method u.String buf with
        | error e => simp [h4] at h
        | ok r0 =>
          simp only [h4, Except.ok.injEq] at h
          refine ⟨rel, u, buf, r0, rfl, h2, rfl, h4, ?_⟩
          rw [← h, (NewRequest_ok _ _ _ _ h4).1, header_sets]

theorem encodeBody_none {β : Type} (marshal : β → Except GoError GoString) :
    encodeBody marshal none = .ok [] := rfl

theorem encodeBody_some {β : Type} (marshal : β → Except GoError GoString) (b : β)
    (buf : GoString) (h : encodeBody marshal (some b) = .ok buf) :
    ∃ js, marshal b = .ok js ∧ buf = js ++ str "\n" := by
  unfold encodeBody at h
  cases hm : marshal b with
  | error e => simp [hm] at h
  | ok js =>
    simp only [hm, Except.ok.injEq] at h
    exact ⟨js, rfl, h.symm⟩

theorem newRequest_built {β : Type} (marshal : β → Except GoError GoString) (c : Client)
    (version enc : GoString) (hsafe : ∀ b ∈ enc, encodeSafe b = true) :
    c.newRequest version marshal MethodGet (withQuery enc) none
      = .ok { Method := MethodGet, URL := { baseParsed with RawQuery := enc },
              Header := requestHeader c.UserAgent version, Body := [],
              Host := str "connpass.com" } := by
  simp only [Client.newRequest, Parse_withQuery enc hsafe, ResolveReference_base, String_base,
    encodeBody_none, NewRequest_withQuery enc [] hsafe, header_sets]

theorem newRequest_example {β : Type} (marshal : β → Except GoError GoString)
    (version : GoString) (body : Option β) (buf : GoString)
    (hbuf : encodeBody marshal body = .ok buf) :
    defaultClient.newRequest version marshal MethodGet (str "/api/v1/event/?keyword=go&count=1")
        body
      = .ok { Method := MethodGet, URL := exampleURL,
              Header := requestHeader (str "connpass-go/1.0.0") version, Body := buf,
              Host := str "connpass.com" } := by
  have h1 : Parse (str "/api/v1/event/?keyword=go&count=1")
      = .ok { Path := str "/api/v1/event/", RawQuery := str "keyword=go&count=1" } := by decide
  have h2 : ResolveReference defaultClient.BaseURL
      { Path := str "/api/v1/event/", RawQuery := str "keyword=go&count=1" }
      = some exampleURL := by decide
  have h3 : exampleURL.String = str "https://connpass.com/api/v1/event/?keyword=go&count=1" := by
    decide
  have h4 : Parse (str "https://connpass.com/api/v1/event/?keyword=go&count=1")
      = .ok exampleURL := by decide
  have hm : (if MethodGet = [] then str "GET" else MethodGet) = MethodGet := by decide
  have hv : validMethod MethodGet = true := by decide
  have h5 : NewRequest MethodGet (str "https://connpass.com/api/v1/event/?keyword=go&count=1") buf
      = .ok { Method := MethodGet, URL := exampleURL, Header := [], Body := buf,
              Host := str "connpass.com" } := by
    simp only [NewRequest, hm, hv, Bool.not_true, Bool.false_eq_true, if_false, h4]
    rfl
  have hua : defaultClient.UserAgent = str "connpass-go/1.0.0" := by decide
  simp only [Client.newRequest, h1, h2, hbuf, h3, h5, header_sets, hua]

theorem exampleURL_String :
    exampleURL.String = str "https://connpass.com/api/v1/event/?keyword=go&count=1" := by decide

theorem encodeBody_example :
    encodeBody (marshalResults textTime) (some exampleBody) = .ok examplePayload := by
  decide

theorem newRequest_exampleBody (version : GoString) :
    defaultClient.newRequest version (marshalResults textTime) MethodGet
        (str "/api/v1/event/?keyword=go&count=1") (some exampleBody)
      = .ok (exampleRequest version examplePayload) :=
  newRequest_example _ version _ _ encodeBody_example

theorem newRequest_exampleNil (version : GoString) :
    defaultClient.newRequest version (marshalResults textTime) MethodGet
        (str "/api/v1/event/?keyword=go&count=1") none
      = .ok (exampleRequest version []) :=
  newRequest_example _ version _ _ (encodeBody_none _)

theorem newRequest_netPath (version : GoString) :
    defaultClient.newRequest version noBody MethodGet (str "//u@connpass.com/api/v1/event/")
        none
      = .ok (netPathRequest version) := by
  have h1 : Parse (str "//u@connpass.com/api/v1/event/")
      = .ok { netPathURL with Scheme := [] } := by decide
  have h2 : ResolveReference defaultClient.BaseURL { netPathURL with Scheme := [] }
      = some netPathURL := by decide
  have h3 : netPathURL.String = str "https://u@connpass.com/api/v1/event/" := by decide
  have h4 : Parse (str "https://u@connpass.com/api/v1/event/") = .ok netPathURL := by decide
  have hm : (if MethodGet = [] then str "GET" else MethodGet) = MethodGet := by decide
  have hv : validMethod MethodGet = true := by decide
  have h5 : NewRequest MethodGet (str "https://u@connpass.com/api/v1/event/") []
      = .ok { Method := MethodGet, URL := netPathURL, Header := [], Body := [],
              Host := str "connpass.com" } := by
    simp only [NewRequest, hm, hv, Bool.not_true, Bool.false_eq_true, if_false, h4]
    rfl
  have hua : defaultClient.UserAgent = str "connpass-go/1.0.0" := by decide
  simp only [Client.newRequest, h1, h2, encodeBody_none, h3, h5, header_sets, hua]
  rfl

theorem newRequest_userinfo (version : GoString) :
    defaultClient.newRequest version noBody MethodGet (str "http://user:pw@[::1]:8080/p") none
      = .ok (userinfoRequest version) := by
  have h1 : Parse (str "http://user:pw@[::1]:8080/p") = .ok userinfoURL := by decide
  have h2 : ResolveReference defaultClient.BaseURL userinfoURL = some userinfoURL := by decide
  have h3 : userinfoURL.String = str "http://user:pw@[::1]:8080/p" := by decide
  have hm : (if MethodGet = [] then str "GET" else MethodGet) = MethodGet := by decide
  have hv : validMethod MethodGet = true := by decide
  have h5 : NewRequest MethodGet (str "http://user:pw@[::1]:8080/p") []
      = .ok { Method := MethodGet, URL := userinfoURL, Header := [], Body := [],
              Host := str "[::1]:8080" } := by
    simp only [NewRequest, hm, hv, Bool.not_true, Bool.false_eq_true, if_false, h1]
    rfl
  have hua : defaultClient.UserAgent = str "connpass-go/1.0.0" := by decide
  simp only [Client.newRequest, h1, h2, encodeBody_none, h3, h5, header_sets, hua]
  rfl

/-- C11: for every transport argument, `NewClient` returns a client whose BaseURL renders
as `https://connpass.com/api/v1/event/` and whose UserAgent is `connpass-go/1.0.0`; its
HTTPClient is the given transport when one is supplied and the default client `dflt`, Go's
`http.DefaultClient`, when the argument is nil. -/
theorem NewClient_defaults (dflt : Transport) (httpClient : Option Transport)
    (t : Transport) :
    (∃ u, (NewClient dflt httpClient).BaseURL = some u ∧
      u.String = str "https://connpass.com/api/v1/event/") ∧
    (NewClient dflt httpClient).UserAgent = str "connpass-go/1.0.0" ∧
    (NewClient dflt (some t)).HTTPClient = t ∧
    (NewClient dflt none).HTTPClient = dflt := by
  refine ⟨⟨baseParsed, ?_, by decide⟩, ?_, rfl, rfl⟩
  · simp only [NewClient, Parse_baseURL]
  · show userAgent = _
    decide

/-- C12: a request `newRequest` returns carries an empty payload for a nil body and, for a
non-nil body, its JSON text followed by a newline; its URL is the reference resolved
against the base URL. For the client with the default base URL the reference
`/api/v1/event/?keyword=go&count=1` gives the request URL
`https://connpass.com/api/v1/event/?keyword=go&count=1`, and the body
`Results{ResultsReturned: 100}` gives the payload
`{"results_returned":100,"results_available":0,"results_start":0,"events":null}` and a
newline. -/
theorem newRequest_payload {β : Type} (c : Client) (version : GoString)
    (marshal : β → Except GoError GoString) (method urlStr : GoString) (body : Option β)
    (req : Request) (h : c.newRequest version marshal method urlStr body = .ok req) :
    (body = none → req.Body = []) ∧
    (∀ b, body = some b → ∃ js, marshal b = .ok js ∧ req.Body = js ++ str "\n") ∧
    (∃ rel u u1, Parse urlStr = .ok rel ∧ ResolveReference c.BaseURL rel = some u ∧
      Parse u.String = .ok u1 ∧ req.URL = { u1 with Host := removeEmptyPort u1.Host }) ∧
    (∃ r, defaultClient.newRequest version (marshalResults textTime) MethodGet
        (str "/api/v1/event/?keyword=go&count=1") (some exampleBody) = .ok r ∧
      r.URL.String = str "https://connpass.com/api/v1/event/?keyword=go&count=1" ∧
      r.Body = str ("\x7b\"results_returned\":100,\"results_available\":0,\"results_start\":0,"
        ++ "\"events\":null\x7d\n")) ∧
    (∃ r, defaultClient.newRequest version (marshalResults textTime) MethodGet
        (str "/api/v1/event/?keyword=go&count=1") none = .ok r ∧ r.Body = []) := by
  obtain ⟨rel, u, buf, r0, h1, h2, h3, h4, h5⟩ :=
    newRequest_ok c version marshal method urlStr body req h
  obtain ⟨_, hb, u1, hu1, hu2⟩ := NewRequest_ok _ _ _ _ h4
  have hbody : req.Body = buf := by rw [h5]; exact hb
  refine ⟨?_, ?_, ⟨rel, u, u1, h1, h2, hu1, by rw [h5]; exact hu2⟩, ?_, ?_⟩
  · intro hn
    rw [hn, encodeBody_none] at h3
    rw [hbody]
    exact (Except.ok.inj h3).symm
  · intro b hb1
    rw [hb1] at h3
    obtain ⟨js, hm, hbuf⟩ := encodeBody_some marshal b buf h3
    exact ⟨js, hm, by rw [hbody, hbuf]⟩
  · exact ⟨exampleRequest version examplePayload, newRequest_exampleBody version,
      exampleURL_String, rfl⟩
  · exact ⟨exampleRequest version [], newRequest_exampleNil version, rfl⟩

/-- Witness of C12: the request of `TestNewRequest`, and a request without body for a URL
with userinfo and an IPv6 host. -/
theorem newRequest_payload_witness :
    defaultClient.newRequest (str "go1.14") (marshalResults textTime) MethodGet
        (str "/api/v1/event/?keyword=go&count=1") (some exampleBody)
        = .ok (exampleRequest (str "go1.14") examplePayload) ∧
      (∃ js, marshalResults textTime exampleBody = .ok js ∧
        (exampleRequest (str "go1.14") examplePayload).Body = js ++ str "\n") ∧
      defaultClient.newRequest (str "go1.14") noBody MethodGet
        (str "http://user:pw@[::1]:8080/p") none = .ok (userinfoRequest (str "go1.14")) ∧
      (userinfoRequest (str "go1.14")).Body = [] :=
  ⟨newRequest_exampleBody _,
    (newRequest_payload defaultClient (str "go1.14") (marshalResults textTime) MethodGet
      (str "/api/v1/event/?keyword=go&count=1") (some exampleBody) _
      (newRequest_exampleBody _)).2.1 exampleBody rfl,
    newRequest_userinfo _,
    (newRequest_payload defaultClient (str "go1.14") noBody MethodGet
      (str "http://user:pw@[::1]:8080/p") none _ (newRequest_userinfo _)).1 rfl⟩

/-- C13: a request `newRequest` returns has exactly three headers: `Content-Type` and
`Accept`, both `application/json`, and `User-Agent`, the UserAgent of the client, a space and
the version of the runtime. -/
theorem newRequest_headers {β : Type} (c : Client) (version : GoString)
    (marshal : β → Except GoError GoString) (method urlStr : GoString) (body : Option β)
    (req : Request) (h : c.newRequest version marshal method urlStr body = .ok req) :
    req.Header = [ (str "Content-Type", [str "application/json"]),
                   (str "Accept", [str "application/json"]),
                   (str "User-Agent", [c.UserAgent ++ str " " ++ version]) ] := by
  obtain ⟨rel, u, buf, r0, _, _, _, _, h5⟩ := newRequest_ok c version marshal method urlStr body req h
  rw [h5]
  rfl

/-- Witness of C13: the request of `TestNewRequest`, whose `User-Agent` is
`connpass-go/1.0.0 go1.14` for the runtime `go1.14`, and the request for a reference with
userinfo. -/
theorem newRequest_headers_witness :
    defaultClient.newRequest (str "go1.14") (marshalResults textTime) MethodGet
        (str "/api/v1/event/?keyword=go&count=1") (some exampleBody)
        = .ok (exampleRequest (str "go1.14") examplePayload) ∧
      (exampleRequest (str "go1.14") examplePayload).Header
        = [ (str "Content-Type", [str "application/json"]),
            (str "Accept", [str "application/json"]),
            (str "User-Agent", [defaultClient.UserAgent ++ str " " ++ str "go1.14"]) ] ∧
      defaultClient.newRequest (str "go1.14") noBody MethodGet
        (str "//u@connpass.com/api/v1/event/") none = .ok (netPathRequest (str "go1.14")) ∧
      (netPathRequest (str "go1.14")).Header
        = [ (str "Content-Type", [str "application/json"]),
            (str "Accept", [str "application/json"]),
            (str "User-Agent", [defaultClient.UserAgent ++ str " " ++ str "go1.14"]) ] :=
  ⟨newRequest_exampleBody _,
    newRequest_headers defaultClient (str "go1.14") (marshalResults textTime) MethodGet
      (str "/api/v1/event/?keyword=go&count=1") (some exampleBody) _
      (newRequest_exampleBody _),
    newRequest_netPath _,
    newRequest_headers defaultClient (str "go1.14") noBody MethodGet
      (str "//u@connpass.com/api/v1/event/") none _ (newRequest_netPath _)⟩

theorem hasPrefix_withQuery (enc : GoString) :
    hasPrefix (withQuery enc) (str "https://connpass.com/") = true := by
  cases enc with
  | nil => decide
  | cons b t => rfl

/-- C18: the URL that `SearchEvents` requests does not depend on the BaseURL of the client.
`buildURL` returns an absolute URL on `https://connpass.com/`; `ResolveReference` gives the
same result for an absolute reference whatever the base; so for every client, every
replacement `b` of its BaseURL (nil included) and every QueryParams, `newRequest` gives the
same request, whose URL is the built URL, and `SearchEvents` returns the same. -/
theorem newRequest_ignores_BaseURL (c : Client) (b : Option URL) (version : GoString)
    (q : QueryParams) :
    (∃ s req, buildURL q = .ok s ∧ hasPrefix s (str "https://connpass.com/") = true ∧
      c.newRequest version noBody MethodGet s none = .ok req ∧
      ({ c with BaseURL := b } : Client).newRequest version noBody MethodGet s none
        = .ok req ∧
      req.URL.String = s) ∧
    (∀ (T : Type) (codec : TimeCodec T),
      ({ c with BaseURL := b } : Client).SearchEvents version codec q
        = c.SearchEvents version codec q) ∧
    (∀ (b1 b2 : Option URL) (ref : URL), ref.Scheme ≠ [] →
      ResolveReference b1 ref = ResolveReference b2 ref) := by
  have hsafe := encodeSafe_Encode (queryValues q)
  refine ⟨⟨_, _, buildURL_eq q, hasPrefix_withQuery _, newRequest_built _ c version _ hsafe,
    newRequest_built _ { c with BaseURL := b } version _ hsafe, String_base _⟩, ?_,
    ResolveReference_absolute⟩
  intro T codec
  simp only [Client.SearchEvents, buildURL_eq, newRequest_built _ _ version _ hsafe]
  rfl

/-! ### do and SearchEvents -/

theorem do_error {δ : Type} (c : Client) (req : Request)
    (decode : GoString → δ → δ × Option GoError) (v : δ) (e : GoError)
    (h : c.HTTPClient req = .error e) :
    c.do req decode v = { resp := none, err := some e, v := v, body := none } := by
  simp only [Client.do, h]

theorem do_ok_none {δ : Type} (c : Client) (req : Request)
    (decode : GoString → δ → δ × Option GoError) (v : δ) (resp : Response)
    (h : c.HTTPClient req = .ok resp) (hopen : resp.Body.closed = false)
    (hd : (decode resp.Body.data v).2 = none) :
    c.do req decode v
      = { resp := some { resp with Body := resp.Body.Close }, err := none,
          v := (decode resp.Body.data v).1, body := some resp.Body.Close } := by
  simp only [Client.do, h, Body.read, hopen, Bool.false_eq_true, if_false, hd]

theorem do_ok_some {δ : Type} (c : Client) (req : Request)
    (decode : GoString → δ → δ × Option GoError) (v : δ) (resp : Response) (e : GoError)
    (h : c.HTTPClient req = .ok resp) (hopen : resp.Body.closed = false)
    (hd : (decode resp.Body.data v).2 = some e) :
    c.do req decode v
      = { resp := none, err := some e, v := (decode resp.Body.data v).1,
          body := some resp.Body.Close } := by
  simp only [Client.do, h, Body.read, hopen, Bool.false_eq_true, if_false, hd]

theorem newRequest_test :
    (testClient fooResponse).newRequest (str "go1.14") (marshalResults textTime) MethodGet
      (str "/") none = .ok testRequest := by
  have h1 : Parse (str "/") = .ok { Path := str "/" } := by decide
  have h2 : ResolveReference (testClient fooResponse).BaseURL { Path := str "/" }
      = some testRequest.URL := by decide
  have h3 : testRequest.URL.String = str "http://127.0.0.1:8080/" := by decide
  have h4 : Parse (str "http://127.0.0.1:8080/") = .ok testRequest.URL := by decide
  have hm : (if MethodGet = [] then str "GET" else MethodGet) = MethodGet := by decide
  have hv : validMethod MethodGet = true := by decide
  have h5 : NewRequest MethodGet (str "http://127.0.0.1:8080/") []
      = .ok { Method := MethodGet, URL := testRequest.URL, Header := [], Body := [],
              Host := str "127.0.0.1:8080" } := by
    simp only [NewRequest, hm, hv, Bool.not_true, Bool.false_eq_true, if_false, h4]
    rfl
  have hua : (testClient fooResponse).UserAgent = str "connpass-go/1.0.0" := by decide
  simp only [Client.newRequest, h1, h2, encodeBody_none, h3, h5, header_sets, hua]
  rfl

theorem do_test_ok :
    ((testClient fooResponse).do testRequest (decodeJSON (storeStruct testFields)) {}).v
        = { FOO := str "bar" } ∧
      ((testClient fooResponse).do testRequest (decodeJSON (storeStruct testFields)) {}).err
        = none := by
  decide

theorem do_test_500 :
    ((testClient { fooResponse with StatusCode := 500 }).do testRequest
        (decodeJSON (storeStruct testFields)) {}).v = { FOO := str "bar" } ∧
      ((testClient { fooResponse with StatusCode := 500 }).do testRequest
        (decodeJSON (storeStruct testFields)) {}).err = none := by
  decide

theorem do_test_notjson :
    ((testClient { StatusCode := 200, Body := { data := str "not json" } }).do testRequest
          (decodeJSON (storeStruct testFields)) {}).body
        = some { data := str "not json", closed := true } := by
  decide

theorem do_body {δ : Type} (c : Client) (req : Request)
    (decode : GoString → δ → δ × Option GoError) (v : δ) (resp : Response)
    (h : c.HTTPClient req = .ok resp) :
    (c.do req decode v).body = some resp.Body.Close ∧
      ∀ r, (c.do req decode v).resp = some r → r.Body = resp.Body.Close := by
  simp only [Client.do, h]
  split <;> simp

theorem do_closed {δ : Type} (c : Client) (req : Request)
    (decode : GoString → δ → δ × Option GoError) (v : δ) (resp : Response)
    (h : c.HTTPClient req = .ok resp) (hclosed : resp.Body.closed = true) :
    (c.do req decode v).err = some .closedBody ∧ (c.do req decode v).resp = none ∧
      (c.do req decode v).v = v := by
  simp [Client.do, h, Body.read, hclosed]

/-- C14: with the transport a function from requests to an error or a response, `do`
returns the error of the transport, with no response and the destination untouched, when
the transport fails; when the transport answers with an open body, the error of `do` is
that of decoding the body into the destination, the destination holds what was decoded, and
the response is returned exactly when there is no error. So `do` returns an error exactly
when the transport fails or the body cannot be read and decoded. The error and the
destination do not depend on the status code. For the body `{"FOO":"bar"}` the destination
holds FOO = `bar`, with status 200 as with status 500. -/
theorem do_outcome {δ : Type} (c : Client) (req : Request)
    (decode : GoString → δ → δ × Option GoError) (v : δ) :
    (∀ e, c.HTTPClient req = .error e →
      (c.do req decode v).err = some e ∧ (c.do req decode v).resp = none ∧
        (c.do req decode v).v = v) ∧
    (∀ resp, c.HTTPClient req = .ok resp → resp.Body.closed = false →
      (c.do req decode v).err = (decode resp.Body.data v).2 ∧
        (c.do req decode v).v = (decode resp.Body.data v).1 ∧
        ((decode resp.Body.data v).2 = none →
          (c.do req decode v).resp = some { resp with Body := resp.Body.Close }) ∧
        ((decode resp.Body.data v).2 ≠ none → (c.do req decode v).resp = none)) ∧
    ((c.do req decode v).err ≠ none ↔
      (∃ e, c.HTTPClient req = .error e) ∨
        ∃ resp, c.HTTPClient req = .ok resp ∧
          (resp.Body.closed = true ∨ (decode resp.Body.data v).2 ≠ none)) ∧
    (∀ (c1 : Client) (resp : Response) (code : Int), c.HTTPClient req = .ok resp →
      c1.HTTPClient req = .ok { resp with StatusCode := code } →
      (c1.do req decode v).err = (c.do req decode v).err ∧
        (c1.do req decode v).v = (c.do req decode v).v) ∧
    ((testClient fooResponse).newRequest (str "go1.14") (marshalResults textTime) MethodGet
        (str "/") none = .ok testRequest ∧
      ((testClient fooResponse).do testRequest (decodeJSON (storeStruct testFields)) {}).v
        = { FOO := str "bar" } ∧
      ((testClient fooResponse).do testRequest (decodeJSON (storeStruct testFields)) {}).err
        = none ∧
      ((testClient { fooResponse with StatusCode := 500 }).do testRequest
        (decodeJSON (storeStruct testFields)) {}).v = { FOO := str "bar" } ∧
      ((testClient { fooResponse with StatusCode := 500 }).do testRequest
        (decodeJSON (storeStruct testFields)) {}).err = none) := by
  refine ⟨?_, ?_, ?_, ?_, newRequest_test, do_test_ok.1, do_test_ok.2, do_test_500.1,
    do_test_500.2⟩
  · intro e h
    rw [do_error c req decode v e h]
    exact ⟨rfl, rfl, rfl⟩
  · intro resp h hopen
    cases hd : (decode resp.Body.data v).2 with
    | none =>
      rw [do_ok_none c req decode v resp h hopen hd]
      simp
    | some e =>
      rw [do_ok_some c req decode v resp e h hopen hd]
      simp
  · cases h : c.HTTPClient req with
    | error e =>
      rw [do_error c req decode v e h]
      simp
    | ok resp =>
      cases hc : resp.Body.closed with
      | true =>
        rw [(do_closed c req decode v resp h hc).1]
        simp [hc]
      | false =>
        cases hd : (decode resp.Body.data v).2 with
        | none =>
          rw [do_ok_none c req decode v resp h hc hd]
          simp [hd, hc]
        | some e =>
          rw [do_ok_some c req decode v resp e h hc hd]
          simp [hd, hc]
  · intro c1 resp code h h1
    simp only [Client.do, h, h1]
    constructor <;> (split <;> split <;> simp_all)

/-- C17: whenever the transport call in `do` returns a response, the body of that response
is closed when `do` returns, whether the decoding succeeds or fails: the body `do` leaves is
the closed one, and so is the body of a response `do` returns. -/
theorem do_closes_body {δ : Type} (c : Client) (req : Request)
    (decode : GoString → δ → δ × Option GoError) (v : δ) (resp : Response)
    (h : c.HTTPClient req = .ok resp) :
    (∃ b, (c.do req decode v).body = some b ∧ b.closed = true ∧ b.data = resp.Body.data) ∧
      ∀ r, (c.do req decode v).resp = some r → r.Body.closed = true := by
  obtain ⟨h1, h2⟩ := do_body c req decode v resp h
  refine ⟨⟨_, h1, rfl, rfl⟩, ?_⟩
  intro r hr
  rw [h2 r hr]
  rfl

/-- Witness of C17: the response of `TestDo`, once decoded with success and once with a
body that is not JSON. -/
theorem do_closes_body_witness :
    (testClient fooResponse).HTTPClient testRequest = .ok fooResponse ∧
      (∃ b, ((testClient fooResponse).do testRequest (decodeJSON (storeStruct testFields))
          {}).body = some b ∧ b.closed = true ∧ b.data = fooResponse.Body.data) ∧
      ((testClient { StatusCode := 200, Body := { data := str "not json" } }).do testRequest
          (decodeJSON (storeStruct testFields)) {}).body
        = some { data := str "not json", closed := true } :=
  ⟨rfl,
    (do_closes_body (testClient fooResponse) testRequest (decodeJSON (storeStruct testFields))
      {} fooResponse rfl).1,
    do_test_notjson⟩

/-! ### Decoding integers -/

theorem digitByte_val (d : Nat) (h : d < 10) :
    ((Fin.ofNat (48 + d) : Byte).val - 48 = d) ∧ isDigit (Fin.ofNat (48 + d)) = true := by
  interval_cases d <;> decide

theorem decimal_all_digits (n : Nat) : (decimal n).all isDigit = true := by
  unfold decimal
  split_ifs with h
  · decide
  · rw [List.all_eq_true]
    intro b hb
    simp only [List.mem_map, List.mem_reverse] at hb
    obtain ⟨d, hd, rfl⟩ := hb
    exact (digitByte_val d (Nat.digits_lt_base (by norm_num) hd)).2

theorem decimal_ne_nil (n : Nat) : decimal n ≠ [] := by
  unfold decimal
  split_ifs with h
  · simp
  · simp [Nat.digits_ne_nil_iff_ne_zero, h]

theorem foldl_digits (l : List Nat) (hl : ∀ d ∈ l, d < 10) (acc : Nat) :
    (l.map (fun d => (Fin.ofNat (48 + d) : Byte))).foldl
        (fun acc d => acc * 10 + (d.val - 48)) acc
      = l.foldl (fun acc d => acc * 10 + d) acc := by
  induction l generalizing acc with
  | nil => rfl
  | cons d l ih =>
    simp only [List.map_cons, List.foldl_cons]
    rw [(digitByte_val d (hl d (List.mem_cons_self _ _))).1]
    exact ih (fun x hx => hl x (List.mem_cons_of_mem _ hx)) _

theorem foldl_reverse_digits (l : List Nat) :
    l.reverse.foldl (fun acc d => acc * 10 + d) 0 = Nat.ofDigits 10 l := by
  induction l with
  | nil => rfl
  | cons d l ih =>
    simp only [List.reverse_cons, List.foldl_append, List.foldl_cons, List.foldl_nil, ih,
      Nat.ofDigits_cons]
    ring

theorem decimal_value (n : Nat) :
    (decimal n).foldl (fun acc d => acc * 10 + (d.val - 48)) 0 = n := by
  unfold decimal
  split_ifs with h
  · subst h
    decide
  · rw [foldl_digits _ (fun d hd => Nat.digits_lt_base (by norm_num) (List.mem_reverse.1 hd)),
      foldl_reverse_digits, Nat.ofDigits_digits]

theorem decimal_head (n : Nat) :
    (decimal n).head? ≠ some (ch '-') ∧ (decimal n).head? ≠ some (ch '+') := by
  have h := decimal_all_digits n
  cases hd : decimal n with
  | nil => simp
  | cons b s =>
    rw [hd] at h
    simp only [List.all_cons, Bool.and_eq_true] at h
    simp only [List.head?_cons, ne_eq, Option.some.injEq]
    constructor
    · rintro rfl
      exact absurd h.1 (by decide)
    · rintro rfl
      exact absurd h.1 (by decide)

/-- An integer of Go's `int` is read back from its decimal text. -/
theorem ParseInt_Itoa (n : Int) (h : isInt n) : ParseInt (Itoa n) = some n := by
  obtain ⟨h1, h2⟩ := h
  unfold ParseInt Itoa
  rw [natDigits_eq]
  by_cases hn : n < 0
  · simp only [hn, if_true, List.head?_cons, true_or, List.drop_succ_cons, List.drop_zero,
      decimal_ne_nil, decimal_all_digits, Bool.true_eq_false, or_self, if_false, decimal_value]
    have : -((n.natAbs : Nat) : Int) = n := by omega
    rw [this]
    simp [h1, h2]
  · have hh := decimal_head n.natAbs
    simp only [hn, if_false, hh.1, hh.2, or_self, decimal_ne_nil, decimal_all_digits,
      Bool.true_eq_false, decimal_value]
    have : ((n.natAbs : Nat) : Int) = n := by omega
    rw [this]
    simp [h1, h2]

/-! ### Decoding structs -/

theorem findField_mem {S : Type} (fields : List (GoString × Store S))
    (hnd : (fields.map Prod.fst).Nodup) (k : GoString) (s : Store S) (hm : (k, s) ∈ fields) :
    findField fields k = some s := by
  have : fields.find? (fun f => decide (f.1 = k)) = some (k, s) := by
    induction fields with
    | nil => simp at hm
    | cons f fs ih =>
      simp only [List.map_cons, List.nodup_cons] at hnd
      by_cases hk : f.1 = k
      · have hf : f = (k, s) := by
          rcases List.mem_cons.1 hm with h | h
          · exact h.symm
          · exact absurd (List.mem_map.2 ⟨(k, s), h, hk.symm⟩) hnd.1
        simp [List.find?_cons, hf]
      · have hf : (k, s) ∈ fs := by
          rcases List.mem_cons.1 hm with h | h
          · exact absurd (by rw [← h]) hk
          · exact h
        simp only [List.find?_cons, hk, decide_False]
        exact ih hnd.2 hf
  simp only [findField, this]

theorem storeMembers_run {S : Type} (fields : List (GoString × Store S))
    (hnd : (fields.map Prod.fst).Nodup) (suf : List (GoString × Store S))
    (hsuf : ∀ f ∈ suf, f ∈ fields) (vs : List Json) (st : DecodeState S) :
    storeMembers fields (List.zipWith (fun f v => (f.1, v)) suf vs) st = runFields suf vs st := by
  induction suf generalizing vs st with
  | nil => simp [storeMembers, runFields]
  | cons f fs ih =>
    cases vs with
    | nil => simp [storeMembers, runFields]
    | cons v vs =>
      have hf : findField fields f.1 = some f.2 :=
        findField_mem fields hnd f.1 f.2 (hsuf f (List.mem_cons_self _ _))
      simp only [List.zipWith_cons_cons, storeMembers, hf, runFields]
      rw [ih (fun g hg => hsuf g (List.mem_cons_of_mem _ hg))]

theorem storeStruct_run {S : Type} (fields : List (GoString × Store S))
    (hnd : (fields.map Prod.fst).Nodup) (vs : List Json) (st : DecodeState S) :
    storeStruct fields (.object (List.zipWith (fun f v => (f.1, v)) fields vs)) st
      = runFields fields vs st := by
  simp only [storeStruct]
  exact storeMembers_run fields hnd fields (fun _ h => h) vs st

theorem storeField_int {S : Type} (get : S → Int) (set : S → Int → S) (n : Int) (h : isInt n)
    (st : DecodeState S) :
    storeField storeInt get set (.number (Itoa n)) st
      = { value := set st.value n, saved := st.saved, aborted := st.aborted } := by
  simp only [storeField, storeInt, ParseInt_Itoa n h]

theorem storeField_string {S : Type} (get : S → GoString) (set : S → GoString → S)
    (s : GoString) (st : DecodeState S) :
    storeField storeString get set (.string s) st
      = { value := set st.value s, saved := st.saved, aborted := st.aborted } := by
  simp only [storeField, storeString]

theorem storeField_time {S T : Type} (codec : TimeCodec T) (get : S → T) (set : S → T → S)
    (s : GoString) (t : T) (h : codec.parse s = .ok t) (st : DecodeState S) :
    storeField (storeTime codec) get set (.string s) st
      = { value := set st.value t, saved := st.saved, aborted := st.aborted } := by
  simp only [storeField, storeTime, h]

theorem seriesKeys_nodup : (seriesFields.map Prod.fst).Nodup := by
  decide

theorem eventKeys_nodup : eventKeys.Nodup := by
  decide

theorem storeStruct_series (s v : Series) (sv : Option GoError) (h : isInt s.ID) :
    storeStruct seriesFields (jsonOfSeries s) { value := v, saved := sv, aborted := false }
      = { value := s, saved := sv, aborted := false } := by
  have hj : jsonOfSeries s
      = .object (List.zipWith (fun f v => (f.1, v)) seriesFields
          [.number (Itoa s.ID), .string s.Title, .string s.URL]) := rfl
  rw [hj, storeStruct_run _ seriesKeys_nodup]
  simp only [seriesFields, runFields, storeField_int _ _ _ h, storeField_string,
    Bool.false_eq_true, if_false]

theorem storeField_series {S : Type} (get : S → Series) (set : S → Series → S) (s : Series)
    (h : isInt s.ID) (v : S) (sv : Option GoError) :
    storeField (storeStruct seriesFields) get set (jsonOfSeries s)
        { value := v, saved := sv, aborted := false }
      = { value := set v s, saved := sv, aborted := false } := by
  simp only [storeField, storeStruct_series _ _ _ h]

theorem eventFields_keys {T : Type} (codec : TimeCodec T) :
    (eventFields codec).map Prod.fst = eventKeys := rfl

theorem storeStruct_event {T : Type} (codec : TimeCodec T) (text : T → GoString)
    (e v : Event T) (sv : Option GoError) (h : Event.Carried codec text e) :
    storeStruct (eventFields codec) (jsonOfEvent text e)
        { value := v, saved := sv, aborted := false }
      = { value := e, saved := sv, aborted := false } := by
  obtain ⟨h1, h2, h3, h4, h5, h6, h7, h8, h9⟩ := h
  have hj : jsonOfEvent text e
      = .object (List.zipWith (fun f v => (f.1, v)) (eventFields codec)
          [.number (Itoa e.EventID), .string e.Title, .string e.Catch, .string e.Description,
           .string e.EventURL, .string e.HashTag, .string (text e.StartedAt),
           .string (text e.EndedAt), .number (Itoa e.Limit), .string e.EventType,
           jsonOfSeries e.Series, .string e.Address, .string e.Place, .string e.Lat,
           .string e.Lon, .number (Itoa e.OwnerID), .string e.OwnerNickname,
           .string e.OwnerDisplayName, .number (Itoa e.Accepted), .number (Itoa e.Waiting),
           .string (text e.UpdatedAt)]) := rfl
  rw [hj, storeStruct_run _ (by rw [eventFields_keys]; exact eventKeys_nodup)]
  cases v
  simp only [eventFields, runFields, storeField_int _ _ _ h1, storeField_int _ _ _ h2,
    storeField_int _ _ _ h4, storeField_int _ _ _ h5, storeField_int _ _ _ h6,
    storeField_string, storeField_time codec _ _ _ _ h7, storeField_time codec _ _ _ _ h8,
    storeField_time codec _ _ _ _ h9, storeField_series _ _ _ h3, Bool.false_eq_true, if_false]

theorem storeElems_events {T : Type} (codec : TimeCodec T) (text : T → GoString)
    (es old : List (Event T)) (sv : Option GoError) (h : ∀ e ∈ es, Event.Carried codec text e) :
    storeElems (Event.zero codec) (storeStruct (eventFields codec)) (es.map (jsonOfEvent text))
        old sv
      = { value := es, saved := sv, aborted := false } := by
  induction es generalizing old with
  | nil => rfl
  | cons e es ih =>
    simp only [List.map_cons, storeElems,
      storeStruct_event codec text e _ sv (h e (List.mem_cons_self _ _)), Bool.false_eq_true,
      if_false, ih _ (fun x hx => h x (List.mem_cons_of_mem _ hx))]

theorem storeField_events {S T : Type} (codec : TimeCodec T) (text : T → GoString)
    (get : S → Option (List (Event T))) (set : S → Option (List (Event T)) → S)
    (es : List (Event T)) (h : ∀ e ∈ es, Event.Carried codec text e) (v : S)
    (sv : Option GoError) :
    storeField (storeSlice (Event.zero codec) (storeStruct (eventFields codec))) get set
        (.array (es.map (jsonOfEvent text))) { value := v, saved := sv, aborted := false }
      = { value := set v (some es), saved := sv, aborted := false } := by
  simp only [storeField, storeSlice, storeElems_events codec text es _ _ h]

theorem storeField_null {S E : Type} (zero : E) (inner : Store E)
    (get : S → Option (List E)) (set : S → Option (List E) → S) (st : DecodeState S) :
    storeField (storeSlice zero inner) get set .null st
      = { value := set st.value none, saved := st.saved, aborted := st.aborted } := by
  simp only [storeField, storeSlice]

theorem resultsKeys_nodup {T : Type} (codec : TimeCodec T) :
    ((resultsFields codec).map Prod.fst).Nodup := by
  have h : (resultsFields codec).map Prod.fst
      = [str "results_returned", str "results_available", str "results_start", str "events"] :=
    rfl
  rw [h]
  decide

/-- The envelope that carries a `Results` is decoded into a zero `Results` as that value,
with no error. -/
theorem storeResults_roundtrip {T : Type} (codec : TimeCodec T) (text : T → GoString)
    (r : Results T) (h : Results.Carried codec text r) :
    storeResults codec (jsonOfResults text r) { value := {} } = { value := r } := by
  obtain ⟨h1, h2, h3, h4⟩ := h
  have hj : jsonOfResults text r
      = .object (List.zipWith (fun f v => (f.1, v)) (resultsFields codec)
          [.number (Itoa r.ResultsReturned), .number (Itoa r.ResultsAvailable),
           .number (Itoa r.ResultsStart),
           match r.Events with
           | none => .null
           | some es => .array (es.map (jsonOfEvent text))]) := rfl
  rw [storeResults, hj, storeStruct_run _ (resultsKeys_nodup codec)]
  obtain ⟨a, b, c, evs⟩ := r
  have h1 : isInt a := h1
  have h2 : isInt b := h2
  have h3 : isInt c := h3
  cases evs with
  | none =>
    simp only [resultsFields, runFields, storeField_int _ _ _ h1, storeField_int _ _ _ h2,
      storeField_int _ _ _ h3, Bool.false_eq_true, if_false, storeField_null]
  | some es =>
    have h5 : ∀ e ∈ es, Event.Carried codec text e := h4
    simp only [resultsFields, runFields, storeField_int _ _ _ h1, storeField_int _ _ _ h2,
      storeField_int _ _ _ h3, Bool.false_eq_true, if_false,
      storeField_events codec text _ _ es h5]

theorem marshal_sample : marshalResults textTime sampleResults = .ok sampleText := by
  decide

theorem parse_sample : parseJSON sampleText = .ok (jsonOfResults id sampleResults) := by
  rfl

theorem SearchEvents_decoded {T : Type} (c : Client) (version : GoString)
    (codec : TimeCodec T) (q : QueryParams) (resp : Response) (r : Results T)
    (ht : ∀ req, c.HTTPClient req = .ok resp) (hopen : resp.Body.closed = false)
    (hd : decodeJSON (storeResults codec) resp.Body.data {} = (r, none)) :
    c.SearchEvents version codec q = (some r, none) := by
  have hsafe := encodeSafe_Encode (queryValues q)
  simp only [Client.SearchEvents, buildURL_eq, newRequest_built _ _ version _ hsafe]
  rw [do_ok_none c _ _ _ resp (ht _) hopen (by rw [hd])]
  simp only [hd]

theorem decode_shuffled :
    decodeJSON (storeResults textTime) shuffledText {} = (sampleResults, none) := by
  decide

theorem SearchEvents_shuffled :
    (clientAnswering (answer shuffledText)).SearchEvents (str "go1.14") textTime sampleQuery
      = (some sampleResults, none) :=
  SearchEvents_decoded _ _ _ _ (answer shuffledText) _ (fun _ => rfl) rfl decode_shuffled

theorem sample_carried : Results.Carried textTime id sampleResults := by
  refine ⟨by decide, by decide, by decide, ?_⟩
  intro e he
  have h : e = sampleEvent := by simpa [sampleResults] using he
  subst h
  exact ⟨by decide, by decide, by decide, by decide, by decide, by decide, by decide, by decide,
    by decide⟩

/-- C15: `SearchEvents` composes `buildURL`, `newRequest` with GET and no body, and `do`
into a zero `Results`. An error of `buildURL`, of `newRequest` or of `do` is returned as it
is, with a nil result; when the three succeed the result is the `Results` that `do` filled,
with a nil error. The first two steps succeed for every client and every QueryParams, with a
GET request without payload, so the outcome is that of `do`; an error of the transport is
the error of `SearchEvents`. -/
theorem SearchEvents_propagates {T : Type} (c : Client) (version : GoString)
    (codec : TimeCodec T) (q : QueryParams) :
    (∀ e, buildURL q = .error e → c.SearchEvents version codec q = (none, some (.url e))) ∧
    (∀ u e, buildURL q = .ok u → c.newRequest version noBody MethodGet u none = .error e →
      c.SearchEvents version codec q = (none, some e)) ∧
    (∀ u req e, buildURL q = .ok u → c.newRequest version noBody MethodGet u none = .ok req →
      (c.do req (decodeJSON (storeResults codec)) {}).err = some e →
      c.SearchEvents version codec q = (none, some e)) ∧
    (∀ u req, buildURL q = .ok u → c.newRequest version noBody MethodGet u none = .ok req →
      (c.do req (decodeJSON (storeResults codec)) {}).err = none →
      c.SearchEvents version codec q
        = (some (c.do req (decodeJSON (storeResults codec)) {}).v, none)) ∧
    (∃ u req, buildURL q = .ok u ∧ c.newRequest version noBody MethodGet u none = .ok req ∧
      req.Method = str "GET" ∧ req.Body = [] ∧
      (c.SearchEvents version codec q).2 = (c.do req (decodeJSON (storeResults codec)) {}).err) ∧
    (∀ e, ({ c with HTTPClient := fun _ => .error e } : Client).SearchEvents version codec q
      = (none, some e)) := by
  have hsafe := encodeSafe_Encode (queryValues q)
  refine ⟨?_, ?_, ?_, ?_, ⟨_, _, buildURL_eq q, newRequest_built _ c version _ hsafe, rfl, rfl,
    ?_⟩, ?_⟩
  · intro e h
    simp only [Client.SearchEvents, h]
  · intro u e h1 h2
    simp only [Client.SearchEvents, h1, h2]
  · intro u req e h1 h2 h3
    simp only [Client.SearchEvents, h1, h2, h3]
  · intro u req h1 h2 h3
    simp only [Client.SearchEvents, h1, h2, h3]
  · simp only [Client.SearchEvents, buildURL_eq, newRequest_built _ _ version _ hsafe]
    split <;> simp_all
  · intro e
    simp only [Client.SearchEvents, buildURL_eq, newRequest_built _ _ version _ hsafe, Client.do]

/-! ### UTF-8 -/

theorem Fin_ofNat_eq (n : Nat) (b : Byte) (h : n = b.val) : (Fin.ofNat n : Byte) = b := by
  apply Fin.ext
  simp only [Fin.ofNat, h]
  exact Nat.mod_eq_of_lt b.isLt

theorem inRange_iff (lo hi : Nat) (b : Byte) : inRange lo hi b = true ↔ lo ≤ b.val ∧ b.val ≤ hi := by
  simp [inRange]

/-- A rune that `decodeRune` reads is written back by `encodeRune` as the bytes read. -/
theorem encodeRune_decodeRune (s : GoString) (h : decodeRune s ≠ (0xFFFD, 1)) :
    encodeRune (decodeRune s).1 = s.take (decodeRune s).2
      ∧ 2 ≤ (decodeRune s).2 ∧ (decodeRune s).2 ≤ s.length := by
  unfold decodeRune at h ⊢
  match s with
  | [] => exact absurd rfl h
  | [_] => exact absurd rfl h
  | b0 :: b1 :: rest =>
    simp only at h ⊢
    by_cases h2 : inRange 0xC2 0xDF b0 = true ∧ inRange 0x80 0xBF b1 = true
    · simp only [h2, and_self, if_true]
      obtain ⟨ha, hb⟩ := h2
      rw [inRange_iff] at ha hb
      refine ⟨?_, by simp, by simp⟩
      unfold encodeRune
      have e1 : ¬ (b0.val % 32 * 64 + b1.val % 64 < 0x80) := by omega
      have e2 : b0.val % 32 * 64 + b1.val % 64 < 0x800 := by omega
      simp only [e1, e2, if_false, if_true, List.take_succ_cons, List.take_zero]
      rw [Fin_ofNat_eq _ b0 (by omega), Fin_ofNat_eq _ b1 (by omega)]
    · simp only [h2, if_false] at h ⊢
      match rest with
      | [] => exact absurd rfl h
      | b2 :: rest2 =>
        simp only at h ⊢
        by_cases h3 : inRange 0xE0 0xEF b0 = true
            ∧ inRange (if b0.val = 0xE0 then 0xA0 else if b0.val = 0xF0 then 0x90 else 0x80)
                (if b0.val = 0xED then 0x9F else if b0.val = 0xF4 then 0x8F else 0xBF) b1 = true
            ∧ inRange 0x80 0xBF b2 = true
        · simp only [h3, and_self, if_true]
          obtain ⟨ha, hb, hc⟩ := h3
          rw [inRange_iff] at ha hb hc
          refine ⟨?_, by simp, by simp⟩
          unfold encodeRune
          have hlo : (b0.val = 0xE0 → 0xA0 ≤ b1.val) := by
            intro h0; simp only [h0, if_true] at hb; exact hb.1
          have hhi : (b0.val = 0xED → b1.val ≤ 0x9F) := by
            intro h0; simp only [h0, if_true] at hb; simpa using hb.2
          have hb1 : 0x80 ≤ b1.val ∧ b1.val ≤ 0xBF := by
            constructor
            · split_ifs at hb <;> omega
            · split_ifs at hb <;> omega
          have e1 : ¬ (b0.val % 16 * 4096 + b1.val % 64 * 64 + b2.val % 64 < 0x80) := by omega
          have e2 : ¬ (b0.val % 16 * 4096 + b1.val % 64 * 64 + b2.val % 64 < 0x800) := by omega
          have e3 : ¬ ((0xD800 ≤ b0.val % 16 * 4096 + b1.val % 64 * 64 + b2.val % 64
              ∧ b0.val % 16 * 4096 + b1.val % 64 * 64 + b2.val % 64 < 0xE000)
              ∨ 0x10FFFF < b0.val % 16 * 4096 + b1.val % 64 * 64 + b2.val % 64) := by omega
          have e4 : b0.val % 16 * 4096 + b1.val % 64 * 64 + b2.val % 64 < 0x10000 := by omega
          simp only [e1, e2, e3, e4, if_false, if_true, List.take_succ_cons, List.take_zero]
          rw [Fin_ofNat_eq _ b0 (by omega), Fin_ofNat_eq _ b1 (by omega),
            Fin_ofNat_eq _ b2 (by omega)]
        · simp only [h3, if_false] at h ⊢
          match rest2 with
          | [] => exact absurd rfl h
          | b3 :: rest3 =>
            simp only at h ⊢
            by_cases h4 : inRange 0xF0 0xF4 b0 = true
                ∧ inRange (if b0.val = 0xE0 then 0xA0 else if b0.val = 0xF0 then 0x90 else 0x80)
                    (if b0.val = 0xED then 0x9F else if b0.val = 0xF4 then 0x8F else 0xBF) b1
                  = true
                ∧ inRange 0x80 0xBF b2 = true ∧ inRange 0x80 0xBF b3 = true
            · simp only [h4, and_self, if_true]
              obtain ⟨ha, hb, hc, hd⟩ := h4
              rw [inRange_iff] at ha hb hc hd
              refine ⟨?_, by simp, by simp⟩
              unfold encodeRune
              have hlo : (b0.val = 0xF0 → 0x90 ≤ b1.val) := by
                intro h0; simp only [h0] at hb; exact hb.1
              have hhi : (b0.val = 0xF4 → b1.val ≤ 0x8F) := by
                intro h0; simp only [h0] at hb; simpa using hb.2
              have hb1 : 0x80 ≤ b1.val ∧ b1.val ≤ 0xBF := by
                constructor
                · split_ifs at hb <;> omega
                · split_ifs at hb <;> omega
              have e1 : ¬ (b0.val % 8 * 262144 + b1.val % 64 * 4096 + b2.val % 64 * 64
                  + b3.val % 64 < 0x80) := by omega
              have e2 : ¬ (b0.val % 8 * 262144 + b1.val % 64 * 4096 + b2.val % 64 * 64
                  + b3.val % 64 < 0x800) := by omega
              have e3 : ¬ ((0xD800 ≤ b0.val % 8 * 262144 + b1.val % 64 * 4096 + b2.val % 64 * 64
                    + b3.val % 64
                  ∧ b0.val % 8 * 262144 + b1.val % 64 * 4096 + b2.val % 64 * 64
                    + b3.val % 64 < 0xE000)
                  ∨ 0x10FFFF < b0.val % 8 * 262144 + b1.val % 64 * 4096 + b2.val % 64 * 64
                    + b3.val % 64) := by omega
              have e4 : ¬ (b0.val % 8 * 262144 + b1.val % 64 * 4096 + b2.val % 64 * 64
                  + b3.val % 64 < 0x10000) := by omega
              simp only [e1, e2, e3, e4, if_false, List.take_succ_cons, List.take_zero]
              rw [Fin_ofNat_eq _ b0 (by omega), Fin_ofNat_eq _ b1 (by omega),
                Fin_ofNat_eq _ b2 (by omega), Fin_ofNat_eq _ b3 (by omega)]
            · simp only [h4, if_false] at h
              exact absurd rfl h

theorem decodeRune_append (s X : GoString) (h : decodeRune s ≠ (0xFFFD, 1)) :
    decodeRune (s.take (decodeRune s).2 ++ X) = decodeRune s := by
  match s with
  | [] => exact absurd rfl h
  | [_] => exact absurd rfl h
  | b0 :: b1 :: rest =>
    by_cases h2 : inRange 0xC2 0xDF b0 = true ∧ inRange 0x80 0xBF b1 = true
    · have e : ∀ Y, decodeRune (b0 :: b1 :: Y) = ((b0.val % 32) * 64 + b1.val % 64, 2) := by
        intro Y
        simp only [decodeRune]
        rw [if_pos h2]
      rw [e rest]
      exact e X
    · match rest with
      | [] =>
        exfalso
        apply h
        simp only [decodeRune]
        rw [if_neg h2]
      | b2 :: rest2 =>
        by_cases h3 : inRange 0xE0 0xEF b0 = true
            ∧ inRange (if b0.val = 0xE0 then 0xA0 else if b0.val = 0xF0 then 0x90 else 0x80)
                (if b0.val = 0xED then 0x9F else if b0.val = 0xF4 then 0x8F else 0xBF) b1 = true
            ∧ inRange 0x80 0xBF b2 = true
        · have e : ∀ Y, decodeRune (b0 :: b1 :: b2 :: Y)
              = ((b0.val % 16) * 4096 + (b1.val % 64) * 64 + b2.val % 64, 3) := by
            intro Y
            simp only [decodeRune]
            rw [if_neg h2, if_pos h3]
          rw [e rest2]
          exact e X
        · match rest2 with
          | [] =>
            exfalso
            apply h
            simp only [decodeRune]
            rw [if_neg h2, if_neg h3]
          | b3 :: rest3 =>
            by_cases h4 : inRange 0xF0 0xF4 b0 = true
                ∧ inRange (if b0.val = 0xE0 then 0xA0 else if b0.val = 0xF0 then 0x90 else 0x80)
                    (if b0.val = 0xED then 0x9F else if b0.val = 0xF4 then 0x8F else 0xBF) b1
                  = true
                ∧ inRange 0x80 0xBF b2 = true ∧ inRange 0x80 0xBF b3 = true
            · have e : ∀ Y, decodeRune (b0 :: b1 :: b2 :: b3 :: Y)
                  = ((b0.val % 8) * 262144 + (b1.val % 64) * 4096 + (b2.val % 64) * 64
                      + b3.val % 64, 4) := by
                intro Y
                simp only [decodeRune]
                rw [if_neg h2, if_neg h3, if_pos h4]
              rw [e rest3]
              exact e X
            · exfalso
              apply h
              simp only [decodeRune]
              rw [if_neg h2, if_neg h3, if_neg h4]

/-! ### Reading back a quoted string -/

theorem htmlSafe_plain : ∀ b : Byte, htmlSafe b = true →
    b ≠ 0x22 ∧ b ≠ ch '\\' ∧ ¬ b < 0x20 ∧ b < 0x80 := by
  decide

theorem parseStringBody_plain (b : Byte) (hb : htmlSafe b = true) (fuel : Nat)
    (X acc : GoString) :
    parseStringBody (fuel + 1) (b :: X) acc = parseStringBody fuel X (b :: acc) := by
  obtain ⟨h1, h2, h3, h4⟩ := htmlSafe_plain b hb
  simp only [parseStringBody, h1, h2, h3, h4, if_false, if_true]

theorem parseStringBody_quote (fuel : Nat) (X acc : GoString) :
    parseStringBody (fuel + 1) (0x22 :: X) acc = .ok (acc.reverse, X) := by
  simp only [parseStringBody, if_true]

/-- A text of bytes that JSON writes as they are, followed by a quote, is read as it is. -/
theorem parseStringBody_text (t : GoString) (ht : t.all htmlSafe = true) :
    ∀ (fuel : Nat) (X acc : GoString), t.length < fuel →
      parseStringBody fuel (t ++ 0x22 :: X) acc = .ok (acc.reverse ++ t, X) := by
  induction t with
  | nil =>
    intro fuel X acc hf
    obtain ⟨f, rfl⟩ : ∃ f, fuel = f + 1 := ⟨fuel - 1, by simp at hf; omega⟩
    simp [parseStringBody_quote]
  | cons b t ih =>
    intro fuel X acc hf
    obtain ⟨f, rfl⟩ : ∃ f, fuel = f + 1 := ⟨fuel - 1, by simp at hf; omega⟩
    simp only [List.all_cons, Bool.and_eq_true] at ht
    rw [List.cons_append, parseStringBody_plain b ht.1, ih ht.2 f X (b :: acc)
      (by simp at hf; omega)]
    simp

theorem bs_ne_quote : (ch '\\' : Byte) ≠ 0x22 := by decide

theorem parseStringBody_simple (e b : Byte) (he : e ≠ ch 'u') (hs : simpleEscape e = some b)
    (fuel : Nat) (X acc : GoString) :
    parseStringBody (fuel + 1) (ch '\\' :: e :: X) acc = parseStringBody fuel X (b :: acc) := by
  simp only [parseStringBody, bs_ne_quote, if_false, if_true, he, hs]

theorem parseStringBody_u4 (a b c d : Byte) (rr : Nat) (hg : getu4 a b c d = some rr)
    (hs : ¬ (0xD800 ≤ rr ∧ rr < 0xE000)) (fuel : Nat) (X acc : GoString) :
    parseStringBody (fuel + 1) (ch '\\' :: ch 'u' :: a :: b :: c :: d :: X) acc
      = parseStringBody fuel X ((encodeRune rr).reverse ++ acc) := by
  simp only [parseStringBody, bs_ne_quote, if_false, if_true, hg, hs]

theorem high_byte : ∀ b : Byte, ¬ b < 0x80 → b ≠ 0x22 ∧ b ≠ ch '\\' ∧ ¬ b < 0x20 := by
  decide

theorem parseStringBody_rune (b : Byte) (s : GoString) (hb : ¬ b < 0x80)
    (hv : decodeRune (b :: s) ≠ (0xFFFD, 1)) (fuel : Nat) (Z acc : GoString) :
    parseStringBody (fuel + 1) ((b :: s).take (decodeRune (b :: s)).2 ++ Z) acc
      = parseStringBody fuel Z ((encodeRune (decodeRune (b :: s)).1).reverse ++ acc) := by
  obtain ⟨_, h2, h3⟩ := encodeRune_decodeRune (b :: s) hv
  have hd := decodeRune_append (b :: s) Z hv
  obtain ⟨n, hn⟩ : ∃ n, (decodeRune (b :: s)).2 = n + 1 :=
    ⟨(decodeRune (b :: s)).2 - 1, by omega⟩
  have hlen : ((b :: s).take (decodeRune (b :: s)).2).length = (decodeRune (b :: s)).2 := by
    rw [List.length_take]
    exact Nat.min_eq_left h3
  have hdrop : ((b :: s).take (decodeRune (b :: s)).2 ++ Z).drop (decodeRune (b :: s)).2 = Z := by
    rw [List.drop_append_eq_append_drop, hlen, Nat.sub_self, List.drop_zero,
      List.drop_eq_nil_of_le (le_of_eq hlen), List.nil_append]
  obtain ⟨g1, g2, g3⟩ := high_byte b hb
  have hcons : (b :: s).take (decodeRune (b :: s)).2 ++ Z
      = b :: (s.take n ++ Z) := by
    rw [hn, List.take_succ_cons, List.cons_append]
  rw [hcons] at hd hdrop ⊢
  simp only [parseStringBody, g1, g2, g3, hb, if_false, hd, hdrop]

theorem ascii_step : ∀ b : Byte, b < 0x80 → htmlSafe b = false →
    ((b = ch '\\' ∨ b = 0x22) → simpleEscape b = some b ∧ b ≠ ch 'u') ∧
    (¬ (b = ch '\\' ∨ b = 0x22) → b ≠ 0x0A → b ≠ 0x0D → b ≠ 0x09 →
      getu4 (ch '0') (ch '0') (lowerhex (b.val / 16)) (lowerhex (b.val % 16)) = some b.val
        ∧ ¬ (0xD800 ≤ b.val ∧ b.val < 0xE000) ∧ encodeRune b.val = [b]) := by
  decide

/-- The text `quoteBody` writes for a valid UTF-8 string, followed by a quote, is read back
as the string. -/
theorem parseStringBody_quoteBody : ∀ (k : Nat) (s : GoString), s.length ≤ k →
    validUTF8 k s = true → ∀ (fuel : Nat) (X acc : GoString), (quoteBody k s).length < fuel →
      parseStringBody fuel (quoteBody k s ++ 0x22 :: X) acc = .ok (acc.reverse ++ s, X) := by
  intro k
  induction k with
  | zero =>
    intro s hs _ fuel X acc hf
    have : s = [] := List.eq_nil_of_length_eq_zero (Nat.le_zero.1 hs)
    subst this
    obtain ⟨f, rfl⟩ : ∃ f, fuel = f + 1 := ⟨fuel - 1, by simp [quoteBody] at hf; omega⟩
    simp [quoteBody, parseStringBody_quote]
  | succ k ih =>
    intro s hs hv fuel X acc hf
    cases s with
    | nil =>
      obtain ⟨f, rfl⟩ : ∃ f, fuel = f + 1 := ⟨fuel - 1, by simp [quoteBody] at hf; omega⟩
      simp [quoteBody, parseStringBody_quote]
    | cons b s =>
      have hs1 : s.length ≤ k := by simpa using hs
      obtain ⟨f, rfl⟩ : ∃ f, fuel = f + 1 := ⟨fuel - 1, by omega⟩
      by_cases hb : b < 0x80
      · have hv1 : validUTF8 k s = true := by simpa [validUTF8, hb] using hv
        have fin : ∀ acc1 : GoString, (quoteBody k s).length < f →
            acc1.reverse = acc.reverse ++ [b] →
            parseStringBody f (quoteBody k s ++ 0x22 :: X) acc1
              = .ok (acc.reverse ++ b :: s, X) := by
          intro acc1 hf1 hacc
          rw [ih s hs1 hv1 f X acc1 hf1, hacc]
          simp
        by_cases h1 : htmlSafe b = true
        · have hq : quoteBody (k + 1) (b :: s) = b :: quoteBody k s := by
            simp only [quoteBody]
            rw [if_pos hb, if_pos h1]
          rw [hq] at hf ⊢
          rw [List.cons_append, parseStringBody_plain b h1]
          exact fin _ (by simpa using hf) (by simp)
        · have h1f : htmlSafe b = false := by simpa using h1
          obtain ⟨st1, st2⟩ := ascii_step b hb h1f
          by_cases h2 : b = ch '\\' ∨ b = 0x22
          · have hq : quoteBody (k + 1) (b :: s) = ch '\\' :: b :: quoteBody k s := by
              simp only [quoteBody]
              rw [if_pos hb, if_neg h1, if_pos h2]
            rw [hq] at hf ⊢
            simp only [List.cons_append]
            rw [parseStringBody_simple b b (st1 h2).2 (st1 h2).1]
            exact fin _ (by simp at hf; omega) (by simp)
          · by_cases h3 : b = 0x0A
            · have hq : quoteBody (k + 1) (b :: s) = ch '\\' :: ch 'n' :: quoteBody k s := by
                simp only [quoteBody]
                rw [if_pos hb, if_neg h1, if_neg h2, if_pos h3]
              rw [hq] at hf ⊢
              simp only [List.cons_append]
              rw [parseStringBody_simple (ch 'n') b (by decide) (by rw [h3]; decide)]
              exact fin _ (by simp at hf; omega) (by simp)
            · by_cases h4 : b = 0x0D
              · have hq : quoteBody (k + 1) (b :: s) = ch '\\' :: ch 'r' :: quoteBody k s := by
                  simp only [quoteBody]
                  rw [if_pos hb, if_neg h1, if_neg h2, if_neg h3, if_pos h4]
                rw [hq] at hf ⊢
                simp only [List.cons_append]
                rw [parseStringBody_simple (ch 'r') b (by decide) (by rw [h4]; decide)]
                exact fin _ (by simp at hf; omega) (by simp)
              · by_cases h5 : b = 0x09
                · have hq : quoteBody (k + 1) (b :: s)
                      = ch '\\' :: ch 't' :: quoteBody k s := by
                    simp only [quoteBody]
                    rw [if_pos hb, if_neg h1, if_neg h2, if_neg h3, if_neg h4, if_pos h5]
                  rw [hq] at hf ⊢
                  simp only [List.cons_append]
                  rw [parseStringBody_simple (ch 't') b (by decide) (by rw [h5]; decide)]
                  exact fin _ (by simp at hf; omega) (by simp)
                · obtain ⟨g1, g2, g3⟩ := st2 h2 h3 h4 h5
                  have hq : quoteBody (k + 1) (b :: s)
                      = ch '\\' :: ch 'u' :: ch '0' :: ch '0' :: lowerhex (b.val / 16)
                          :: lowerhex (b.val % 16) :: quoteBody k s := by
                    simp only [quoteBody]
                    rw [if_pos hb, if_neg h1, if_neg h2, if_neg h3, if_neg h4, if_neg h5]
                    rfl
                  rw [hq] at hf ⊢
                  simp only [List.cons_append]
                  rw [parseStringBody_u4 _ _ _ _ _ g1 g2, g3]
                  exact fin _ (by simp at hf; omega) (by simp)
      · have hv0 : decodeRune (b :: s) ≠ (0xFFFD, 1)
            ∧ validUTF8 k ((b :: s).drop (decodeRune (b :: s)).2) = true := by
          simpa [validUTF8, hb] using hv
        obtain ⟨hv1, hv2⟩ := hv0
        obtain ⟨e1, e2, e3⟩ := encodeRune_decodeRune (b :: s) hv1
        have hlen : ((b :: s).drop (decodeRune (b :: s)).2).length ≤ k := by
          rw [List.length_drop]
          simp only [List.length_cons] at hs ⊢
          omega
        have fin : ∀ acc1 : GoString,
            (quoteBody k ((b :: s).drop (decodeRune (b :: s)).2)).length < f →
            acc1.reverse = acc.reverse ++ (b :: s).take (decodeRune (b :: s)).2 →
            parseStringBody f
                (quoteBody k ((b :: s).drop (decodeRune (b :: s)).2) ++ 0x22 :: X) acc1
              = .ok (acc.reverse ++ b :: s, X) := by
          intro acc1 hf1 hacc
          rw [ih _ hlen hv2 f X acc1 hf1, hacc, List.append_assoc, List.take_append_drop]
        by_cases h6 : (decodeRune (b :: s)).1 = 0x2028 ∨ (decodeRune (b :: s)).1 = 0x2029
        · have hq : quoteBody (k + 1) (b :: s)
              = ch '\\' :: ch 'u' :: ch '2' :: ch '0' :: ch '2'
                  :: lowerhex ((decodeRune (b :: s)).1 % 16)
                  :: quoteBody k ((b :: s).drop (decodeRune (b :: s)).2) := by
            simp only [quoteBody]
            rw [if_neg hb, if_neg hv1, if_pos h6]
            rfl
          have hg : getu4 (ch '2') (ch '0') (ch '2') (lowerhex ((decodeRune (b :: s)).1 % 16))
                = some (decodeRune (b :: s)).1
              ∧ ¬ (0xD800 ≤ (decodeRune (b :: s)).1 ∧ (decodeRune (b :: s)).1 < 0xE000) := by
            rcases h6 with h6 | h6 <;> rw [h6] <;> decide
          rw [hq] at hf ⊢
          simp only [List.cons_append]
          rw [parseStringBody_u4 _ _ _ _ _ hg.1 hg.2]
          exact fin _ (by simp at hf; omega) (by rw [List.reverse_append, List.reverse_reverse, e1])
        · have hq : quoteBody (k + 1) (b :: s)
              = (b :: s).take (decodeRune (b :: s)).2
                  ++ quoteBody k ((b :: s).drop (decodeRune (b :: s)).2) := by
            simp only [quoteBody]
            rw [if_neg hb, if_neg hv1, if_neg h6]
          rw [hq] at hf ⊢
          rw [List.append_assoc, parseStringBody_rune b s hb hv1]
          refine fin _ ?_ (by rw [List.reverse_append, List.reverse_reverse, e1])
          rw [List.length_append, List.length_take, Nat.min_eq_left e3] at hf
          omega

/-! ### Reading back numbers -/

theorem delimited_cons (c : Byte) (s : GoString) (h : c = ch ',' ∨ c = ch '}' ∨ c = ch ']') :
    delimited (c :: s) := by
  intro d hd
  simp only [List.head?_cons, Option.some.injEq] at hd
  rw [← hd]
  exact h

theorem delimited_nil : delimited [] := by
  intro d hd
  simp at hd

theorem delim_byte : ∀ c : Byte, (c = ch ',' ∨ c = ch '}' ∨ c = ch ']') →
    isDigit c = false ∧ c ≠ ch '.' ∧ c ≠ ch 'e' ∧ c ≠ ch 'E' := by
  decide

theorem spanDigits_append (ds rest : GoString) (hd : ds.all isDigit = true)
    (hr : delimited rest) : spanDigits (ds ++ rest) = (ds, rest) := by
  have hrest : rest.takeWhile isDigit = [] ∧ rest.dropWhile isDigit = rest := by
    cases rest with
    | nil => simp
    | cons c s =>
      have := (delim_byte c (hr c rfl)).1
      simp [List.takeWhile, List.dropWhile, this]
  induction ds with
  | nil => simp [spanDigits, hrest.1, hrest.2]
  | cons d ds ih =>
    simp only [List.all_cons, Bool.and_eq_true] at hd
    have ih1 := ih hd.2
    simp only [spanDigits, Prod.mk.injEq] at ih1 ⊢
    simp [List.takeWhile, List.dropWhile, hd.1, ih1.1, ih1.2]

theorem digit_head : ∀ c : Byte, isDigit c = true → c ≠ ch '-' := by
  decide

theorem parseNumber_digits (sign D rest : GoString) (hs : sign = [] ∨ sign = [ch '-'])
    (hD : D = [ch '0'] ∨ ∃ d ds, D = d :: ds ∧ d ≠ ch '0' ∧ isDigit d = true
      ∧ ds.all isDigit = true)
    (hr : delimited rest) : parseNumber (sign ++ D ++ rest) = .ok (sign ++ D, rest) := by
  have z1 : (ch '0' : Byte) ≠ ch '-' := by decide
  rcases hs with rfl | rfl <;> rcases hD with rfl | ⟨d, ds, rfl, h0, hd, hds⟩
  · cases rest with
    | nil => rfl
    | cons c s =>
      obtain ⟨_, d1, d2, d3⟩ := delim_byte c (hr c rfl)
      simp [parseNumber, z1, d1, d2, d3]
  · have hsp := spanDigits_append ds rest hds hr
    have hm := digit_head d hd
    cases rest with
    | nil =>
      have hsp1 : spanDigits ds = (ds, []) := by simpa using hsp
      simp [parseNumber, hm, h0, hd, hsp1]
    | cons c s =>
      obtain ⟨_, d1, d2, d3⟩ := delim_byte c (hr c rfl)
      simp [parseNumber, hm, h0, hd, hsp, d1, d2, d3]
  · cases rest with
    | nil => rfl
    | cons c s =>
      obtain ⟨_, d1, d2, d3⟩ := delim_byte c (hr c rfl)
      simp [parseNumber, d1, d2, d3]
  · have hsp := spanDigits_append ds rest hds hr
    cases rest with
    | nil =>
      have hsp1 : spanDigits ds = (ds, []) := by simpa using hsp
      simp [parseNumber, h0, hd, hsp1]
    | cons c s =>
      obtain ⟨_, d1, d2, d3⟩ := delim_byte c (hr c rfl)
      simp [parseNumber, h0, hd, hsp, d1, d2, d3]

theorem decimal_shape (n : Nat) :
    decimal n = [ch '0'] ∨ ∃ d ds, decimal n = d :: ds ∧ d ≠ ch '0' ∧ isDigit d = true
      ∧ ds.all isDigit = true := by
  by_cases h : n = 0
  · left
    simp [decimal, h]
  · right
    have hall := decimal_all_digits n
    cases hd : decimal n with
    | nil => exact absurd hd (decimal_ne_nil n)
    | cons d ds =>
      rw [hd] at hall
      simp only [List.all_cons, Bool.and_eq_true] at hall
      refine ⟨d, ds, rfl, ?_, hall.1, hall.2⟩
      intro h0
      subst h0
      have hne : Nat.digits 10 n ≠ [] := Nat.digits_ne_nil_iff_ne_zero.2 h
      have hlast : (Nat.digits 10 n).getLast hne ≠ 0 := Nat.getLast_digit_ne_zero 10 h
      have hrev : decimal n = (Nat.digits 10 n).reverse.map (fun d => Fin.ofNat (48 + d)) := by
        simp [decimal, h]
      rw [hrev] at hd
      have hh : ((Nat.digits 10 n).reverse.map (fun d => (Fin.ofNat (48 + d) : Byte))).head?
          = some (ch '0') := by rw [hd]; rfl
      rw [List.head?_map, List.head?_reverse, List.getLast?_eq_getLast _ hne] at hh
      simp only [Option.map_some', Option.some.injEq] at hh
      have hlt : (Nat.digits 10 n).getLast hne < 10 :=
        Nat.digits_lt_base (by norm_num) (List.getLast_mem hne)
      have : (Nat.digits 10 n).getLast hne = 0 := by
        generalize (Nat.digits 10 n).getLast hne = x at hh hlt
        interval_cases x <;> first | rfl | (exfalso; revert hh; decide)
      exact hlast this

theorem parseNumber_Itoa (n : Int) (rest : GoString) (hr : delimited rest) :
    parseNumber (Itoa n ++ rest) = .ok (Itoa n, rest) := by
  unfold Itoa
  rw [natDigits_eq]
  split_ifs with h
  · exact parseNumber_digits [ch '-'] _ rest (Or.inr rfl) (decimal_shape _) hr
  · exact parseNumber_digits [] _ rest (Or.inl rfl) (decimal_shape _) hr

theorem Itoa_head (n : Int) : ∃ c s, Itoa n = c :: s ∧ (c = ch '-' ∨ isDigit c = true) := by
  unfold Itoa
  rw [natDigits_eq]
  split_ifs with h
  · exact ⟨_, _, rfl, Or.inl rfl⟩
  · rcases decimal_shape n.natAbs with h1 | ⟨d, ds, h1, _, hd, _⟩
    · exact ⟨_, _, h1, Or.inr (by decide)⟩
    · exact ⟨d, ds, h1, Or.inr hd⟩

/-! ### Reading back values -/

theorem skipSpace_cons (c : Byte) (s : GoString) (h : isSpace c = false) :
    skipSpace (c :: s) = c :: s := by
  simp [skipSpace, List.dropWhile, h]

theorem number_byte : ∀ c : Byte, (c = ch '-' ∨ isDigit c = true) →
    isSpace c = false ∧ c ≠ ch '{' ∧ c ≠ ch '[' ∧ c ≠ 0x22 ∧ c ≠ ch 't' ∧ c ≠ ch 'f'
      ∧ c ≠ ch 'n' := by
  decide

theorem hasPrefix_cons_ne (c p : Byte) (s pre : GoString) (h : c ≠ p) :
    hasPrefix (c :: s) (p :: pre) = false := by
  simp [hasPrefix, List.isPrefixOf, Ne.symm h]

theorem str_true : str "true" = [ch 't', ch 'r', ch 'u', ch 'e'] := by decide

theorem str_false : str "false" = [ch 'f', ch 'a', ch 'l', ch 's', ch 'e'] := by decide

theorem str_null : str "null" = [ch 'n', ch 'u', ch 'l', ch 'l'] := by decide

theorem parseValue_number (c : Byte) (s : GoString) (hc : c = ch '-' ∨ isDigit c = true)
    (fuel : Nat) (lit rest : GoString) (h : parseNumber (c :: s) = .ok (lit, rest)) :
    parseValue (fuel + 1) (c :: s) = .ok (.number lit, rest) := by
  obtain ⟨h0, h1, h2, h3, h4, h5, h6⟩ := number_byte c hc
  rw [parseValue, skipSpace_cons c s h0]
  simp only [h1, h2, h3, if_false, str_true, str_false, str_null,
    hasPrefix_cons_ne c _ s _ h4, hasPrefix_cons_ne c _ s _ h5, hasPrefix_cons_ne c _ s _ h6,
    Bool.false_eq_true, hc, if_true, h]

theorem Parses_number (n : Int) : Parses (Itoa n) (.number (Itoa n)) := by
  intro fuel rest hf hr
  obtain ⟨f, rfl⟩ : ∃ f, fuel = f + 1 := ⟨fuel - 1, by omega⟩
  obtain ⟨c, s, hcs, hc⟩ := Itoa_head n
  have h := parseNumber_Itoa n rest hr
  rw [hcs] at h ⊢
  exact parseValue_number c (s ++ rest) hc f _ _ h

theorem parseValue_string (fuel : Nat) (body s1 rest1 : GoString)
    (h : parseStringBody body.length body [] = .ok (s1, rest1)) :
    parseValue (fuel + 1) (0x22 :: body) = .ok (.string s1, rest1) := by
  rw [parseValue, skipSpace_cons _ _ (by decide)]
  have h1 : (0x22 : Byte) ≠ ch '{' := by decide
  have h2 : (0x22 : Byte) ≠ ch '[' := by decide
  simp only [h1, h2, if_false, if_true, h]

/-- The JSON text of a valid UTF-8 string is read as the string. -/
theorem Parses_quote (s : GoString) (hv : ValidString s = true) :
    Parses (quote s) (.string s) := by
  intro fuel rest hf _
  obtain ⟨f, rfl⟩ : ∃ f, fuel = f + 1 := ⟨fuel - 1, by omega⟩
  have h := parseStringBody_quoteBody s.length s (le_refl _) hv
    (quoteBody s.length s ++ 0x22 :: rest).length rest [] (by simp)
  simp only [quote, List.cons_append, List.append_assoc, List.singleton_append]
  exact parseValue_string f _ _ _ h

/-- A text of bytes that JSON writes as they are, in quotes, is read as it is. -/
theorem Parses_text (t : GoString) (ht : t.all htmlSafe = true) :
    Parses (0x22 :: (t ++ [0x22])) (.string t) := by
  intro fuel rest hf _
  obtain ⟨f, rfl⟩ : ∃ f, fuel = f + 1 := ⟨fuel - 1, by omega⟩
  have h := parseStringBody_text t ht (t ++ 0x22 :: rest).length rest [] (by simp)
  simp only [List.cons_append, List.append_assoc, List.singleton_append]
  exact parseValue_string f _ _ _ h

theorem Parses_null : Parses (str "null") .null := by
  intro fuel rest hf _
  obtain ⟨f, rfl⟩ : ∃ f, fuel = f + 1 := ⟨fuel - 1, by omega⟩
  rw [str_null]
  simp only [List.cons_append, List.nil_append]
  rw [parseValue, skipSpace_cons _ _ (by decide)]
  have h1 : (ch 'n' : Byte) ≠ ch '{' := by decide
  have h2 : (ch 'n' : Byte) ≠ ch '[' := by decide
  have h3 : (ch 'n' : Byte) ≠ 0x22 := by decide
  have h4 : (ch 'n' : Byte) ≠ ch 't' := by decide
  have h5 : (ch 'n' : Byte) ≠ ch 'f' := by decide
  have h6 : hasPrefix (ch 'n' :: ch 'u' :: ch 'l' :: ch 'l' :: rest) (str "null") = true := by
    rw [str_null]
    simp [hasPrefix, List.isPrefixOf]
  simp only [h1, h2, h3, if_false, str_true, str_false, hasPrefix_cons_ne _ _ _ _ h4,
    hasPrefix_cons_ne _ _ _ _ h5, Bool.false_eq_true, h6, if_true, List.drop_succ_cons,
    List.drop_zero]

theorem membersText_cons (m : GoString × GoString × Json)
    (ms : List (GoString × GoString × Json)) :
    ∃ T, membersText (m :: ms) = 0x22 :: T := by
  cases ms with
  | nil => exact ⟨_, rfl⟩
  | cons m1 ms => exact ⟨_, rfl⟩

theorem parseMembers_last (fuel : Nat) (k Y rest : GoString) (v : Json)
    (hk : k.all htmlSafe = true) (hv : parseValue fuel Y = .ok (v, ch '}' :: rest)) :
    parseMembers (fuel + 1) (0x22 :: (k ++ 0x22 :: ch ':' :: Y)) = .ok ([(k, v)], rest) := by
  have hp := parseStringBody_text k hk (k ++ 0x22 :: ch ':' :: Y).length (ch ':' :: Y) []
    (by simp)
  rw [parseMembers, skipSpace_cons _ _ (by decide)]
  simp only [ne_eq, not_true_eq_false, if_false, hp, List.reverse_nil, List.nil_append,
    skipSpace_cons (ch ':') Y (by decide), hv, skipSpace_cons (ch '}') rest (by decide),
    if_true]

theorem parseMembers_more (fuel : Nat) (k Y Z rest : GoString) (v : Json)
    (ms : List (GoString × Json)) (hk : k.all htmlSafe = true)
    (hv : parseValue fuel Y = .ok (v, ch ',' :: Z))
    (hm : parseMembers fuel Z = .ok (ms, rest)) :
    parseMembers (fuel + 1) (0x22 :: (k ++ 0x22 :: ch ':' :: Y)) = .ok ((k, v) :: ms, rest) := by
  have hp := parseStringBody_text k hk (k ++ 0x22 :: ch ':' :: Y).length (ch ':' :: Y) []
    (by simp)
  have hc : (ch ',' : Byte) ≠ ch '}' := by decide
  rw [parseMembers, skipSpace_cons _ _ (by decide)]
  simp only [ne_eq, not_true_eq_false, if_false, hp, List.reverse_nil, List.nil_append,
    skipSpace_cons (ch ':') Y (by decide), hv, skipSpace_cons (ch ',') Z (by decide),
    if_true, hc, hm]

/-- The members of an object, each with a plain key and a text that is read as its value,
are read as the list of the keys with the values. -/
theorem parseMembers_text : ∀ (ms : List (GoString × GoString × Json))
    (m : GoString × GoString × Json),
    (∀ x ∈ m :: ms, x.1.all htmlSafe = true ∧ Parses x.2.1 x.2.2) →
    ∀ (fuel : Nat) (rest : GoString), (membersText (m :: ms)).length < fuel →
      parseMembers fuel (membersText (m :: ms) ++ rest)
        = .ok ((m :: ms).map (fun x => (x.1, x.2.2)), rest) := by
  intro ms
  induction ms with
  | nil =>
    intro m hm fuel rest hf
    obtain ⟨f, rfl⟩ : ∃ f, fuel = f + 1 := ⟨fuel - 1, by omega⟩
    obtain ⟨hk, hv⟩ := hm m (List.mem_cons_self _ _)
    simp only [membersText, List.cons_append, List.append_assoc, List.singleton_append,
      List.nil_append, List.map_cons, List.map_nil] at hf ⊢
    refine parseMembers_last f _ _ _ _ hk ?_
    exact hv f (ch '}' :: rest) (by simp at hf; omega) (delimited_cons _ _ (by simp))
  | cons m1 ms ih =>
    intro m hm fuel rest hf
    obtain ⟨f, rfl⟩ : ∃ f, fuel = f + 1 := ⟨fuel - 1, by omega⟩
    obtain ⟨hk, hv⟩ := hm m (List.mem_cons_self _ _)
    have hlen : (membersText (m :: m1 :: ms)).length
        = m.1.length + m.2.1.length + (membersText (m1 :: ms)).length + 4 := by
      simp only [membersText, List.length_cons, List.length_append]
      omega
    rw [hlen] at hf
    have hrec := ih m1 (fun x hx => hm x (List.mem_cons_of_mem _ hx)) f rest (by omega)
    have hval := hv f (ch ',' :: (membersText (m1 :: ms) ++ rest)) (by omega)
      (delimited_cons _ _ (by simp))
    have htext : membersText (m :: m1 :: ms) ++ rest
        = 0x22 :: (m.1 ++ 0x22 :: ch ':' :: (m.2.1 ++ ch ',' :: (membersText (m1 :: ms) ++ rest)))
        := by
      simp only [membersText, List.cons_append, List.append_assoc]
    rw [htext, List.map_cons]
    exact parseMembers_more f _ _ _ _ _ _ hk hval hrec

/-- The text of an object is read as the object. -/
theorem Parses_object (m : GoString × GoString × Json)
    (ms : List (GoString × GoString × Json))
    (hm : ∀ x ∈ m :: ms, x.1.all htmlSafe = true ∧ Parses x.2.1 x.2.2) :
    Parses (ch '{' :: membersText (m :: ms))
      (.object ((m :: ms).map (fun x => (x.1, x.2.2)))) := by
  intro fuel rest hf _
  obtain ⟨f, rfl⟩ : ∃ f, fuel = f + 1 := ⟨fuel - 1, by omega⟩
  have h := parseMembers_text ms m hm f rest (by simp at hf; omega)
  obtain ⟨T, hT⟩ := membersText_cons m ms
  rw [hT] at h
  have h1 : (0x22 : Byte) ≠ ch '}' := by decide
  rw [List.cons_append, parseValue, skipSpace_cons _ _ (by decide), hT]
  simp only [if_true, List.cons_append, skipSpace_cons (0x22 : Byte) _ (by decide), h1,
    if_false]
  rw [List.cons_append] at h
  simp only [h]

theorem parseElems_last (fuel : Nat) (Y rest : GoString) (v : Json)
    (hv : parseValue fuel Y = .ok (v, ch ']' :: rest)) :
    parseElems (fuel + 1) Y = .ok ([v], rest) := by
  rw [parseElems]
  simp only [hv, skipSpace_cons (ch ']') rest (by decide), if_true]

theorem parseElems_more (fuel : Nat) (Y Z rest : GoString) (v : Json) (vs : List Json)
    (hv : parseValue fuel Y = .ok (v, ch ',' :: Z)) (hm : parseElems fuel Z = .ok (vs, rest)) :
    parseElems (fuel + 1) Y = .ok (v :: vs, rest) := by
  have hc : (ch ',' : Byte) ≠ ch ']' := by decide
  rw [parseElems]
  simp only [hv, skipSpace_cons (ch ',') Z (by decide), hc, if_false, if_true, hm]

theorem parseElems_text : ∀ (xs : List (GoString × Json)) (x : GoString × Json),
    (∀ y ∈ x :: xs, Parses y.1 y.2) →
    ∀ (fuel : Nat) (rest : GoString), (elemsText (x :: xs)).length < fuel →
      parseElems fuel (elemsText (x :: xs) ++ rest) = .ok ((x :: xs).map Prod.snd, rest) := by
  intro xs
  induction xs with
  | nil =>
    intro x hx fuel rest hf
    obtain ⟨f, rfl⟩ : ∃ f, fuel = f + 1 := ⟨fuel - 1, by omega⟩
    simp only [elemsText, List.append_assoc, List.singleton_append, List.map_cons,
      List.map_nil, List.length_append, List.length_singleton] at hf ⊢
    exact parseElems_last f _ _ _
      (hx x (List.mem_cons_self _ _) f (ch ']' :: rest) (by omega)
        (delimited_cons _ _ (by simp)))
  | cons y xs ih =>
    intro x hx fuel rest hf
    obtain ⟨f, rfl⟩ : ∃ f, fuel = f + 1 := ⟨fuel - 1, by omega⟩
    have hlen : (elemsText (x :: y :: xs)).length
        = x.1.length + (elemsText (y :: xs)).length + 1 := by
      simp only [elemsText, List.length_cons, List.length_append]
      omega
    rw [hlen] at hf
    have hrec := ih y (fun z hz => hx z (List.mem_cons_of_mem _ hz)) f rest (by omega)
    have hval := hx x (List.mem_cons_self _ _) f (ch ',' :: (elemsText (y :: xs) ++ rest))
      (by omega) (delimited_cons _ _ (by simp))
    have htext : elemsText (x :: y :: xs) ++ rest
        = x.1 ++ ch ',' :: (elemsText (y :: xs) ++ rest) := by
      simp only [elemsText, List.cons_append, List.append_assoc]
    rw [htext, List.map_cons]
    exact parseElems_more f _ _ _ _ _ hval hrec

/-- The text of an array of objects is read as the array. -/
theorem Parses_array (xs : List (GoString × Json)) (hx : ∀ y ∈ xs, Parses y.1 y.2)
    (ho : ∀ y ∈ xs, ∃ T, y.1 = ch '{' :: T) :
    Parses (ch '[' :: elemsText xs) (.array (xs.map Prod.snd)) := by
  intro fuel rest hf _
  obtain ⟨f, rfl⟩ : ∃ f, fuel = f + 1 := ⟨fuel - 1, by omega⟩
  have h0 : (ch '[' : Byte) ≠ ch '{' := by decide
  cases xs with
  | nil =>
    rw [List.cons_append, parseValue, skipSpace_cons _ _ (by decide)]
    simp only [h0, if_false, if_true, elemsText, List.singleton_append,
      skipSpace_cons (ch ']') rest (by decide), List.map_nil]
  | cons x xs =>
    have h := parseElems_text xs x hx f rest (by simp at hf; omega)
    obtain ⟨T, hT⟩ := ho x (List.mem_cons_self _ _)
    have hhead : ∃ U, elemsText (x :: xs) ++ rest = ch '{' :: U := by
      cases xs with
      | nil => exact ⟨_, by simp only [elemsText, hT, List.cons_append]; rfl⟩
      | cons y ys => exact ⟨_, by simp only [elemsText, hT, List.cons_append]; rfl⟩
    obtain ⟨U, hU⟩ := hhead
    have h1 : (ch '{' : Byte) ≠ ch ']' := by decide
    rw [hU] at h
    rw [List.cons_append, parseValue, skipSpace_cons _ _ (by decide), hU]
    simp only [h0, if_false, if_true, skipSpace_cons (ch '{') U (by decide), h1, h]

/-! ### What json.Marshal writes is read back -/

theorem marshalSeries_eq (s : Series) :
    marshalSeries s = ch '{' :: membersText (seriesMembers s) := by
  simp only [marshalSeries, List.append_assoc]
  rfl

theorem Parses_series (s : Series) (h1 : ValidString s.Title = true)
    (h2 : ValidString s.URL = true) :
    Parses (ch '{' :: membersText (seriesMembers s)) (jsonOfSeries s) := by
  have hj : jsonOfSeries s = .object ((seriesMembers s).map (fun x => (x.1, x.2.2))) := rfl
  rw [hj]
  apply Parses_object
  simp only [List.forall_mem_cons, List.not_mem_nil, false_implies, implies_true, and_true]
  exact ⟨⟨by decide, Parses_number _⟩, ⟨by decide, Parses_quote _ h1⟩,
    ⟨by decide, Parses_quote _ h2⟩⟩

theorem marshalEvent_eq {T : Type} (codec : TimeCodec T) (text : T → GoString) (e : Event T)
    (h : Event.Written codec text e) :
    marshalEvent codec e = .ok (ch '{' :: membersText (eventMembers text e)) := by
  obtain ⟨_, ht⟩ := h
  have h1 := (ht e.StartedAt (by simp [Event.times])).1
  have h2 := (ht e.EndedAt (by simp [Event.times])).1
  have h3 := (ht e.UpdatedAt (by simp [Event.times])).1
  simp only [marshalEvent, marshalTime, h1, h2, h3, marshalSeries_eq, List.append_assoc]
  rfl

theorem Parses_event {T : Type} (codec : TimeCodec T) (text : T → GoString) (e : Event T)
    (h : Event.Written codec text e) :
    Parses (ch '{' :: membersText (eventMembers text e)) (jsonOfEvent text e) := by
  obtain ⟨hs, ht⟩ := h
  have hj : jsonOfEvent text e = .object ((eventMembers text e).map (fun x => (x.1, x.2.2))) :=
    rfl
  have s : ∀ x ∈ e.strings, Parses (quote x) (.string x) := fun x hx => Parses_quote x (hs x hx)
  have t : ∀ x ∈ e.times, Parses (0x22 :: (text x ++ [0x22])) (.string (text x)) :=
    fun x hx => Parses_text _ (ht x hx).2
  rw [hj]
  apply Parses_object
  simp only [List.forall_mem_cons, List.not_mem_nil, false_implies, implies_true, and_true]
  exact ⟨⟨by decide, Parses_number _⟩,
    ⟨by decide, s _ (by simp [Event.strings])⟩,
    ⟨by decide, s _ (by simp [Event.strings])⟩,
    ⟨by decide, s _ (by simp [Event.strings])⟩,
    ⟨by decide, s _ (by simp [Event.strings])⟩,
    ⟨by decide, s _ (by simp [Event.strings])⟩,
    ⟨by decide, t _ (by simp [Event.times])⟩,
    ⟨by decide, t _ (by simp [Event.times])⟩,
    ⟨by decide, Parses_number _⟩,
    ⟨by decide, s _ (by simp [Event.strings])⟩,
    ⟨by decide, Parses_series _ (hs _ (by simp [Event.strings])) (hs _ (by simp [Event.strings]))⟩,
    ⟨by decide, s _ (by simp [Event.strings])⟩,
    ⟨by decide, s _ (by simp [Event.strings])⟩,
    ⟨by decide, s _ (by simp [Event.strings])⟩,
    ⟨by decide, s _ (by simp [Event.strings])⟩,
    ⟨by decide, Parses_number _⟩,
    ⟨by decide, s _ (by simp [Event.strings])⟩,
    ⟨by decide, s _ (by simp [Event.strings])⟩,
    ⟨by decide, Parses_number _⟩,
    ⟨by decide, Parses_number _⟩,
    ⟨by decide, t _ (by simp [Event.times])⟩⟩

theorem marshalEvents_eq {T : Type} (codec : TimeCodec T) (text : T → GoString)
    (es : List (Event T)) (h : ∀ e ∈ es, Event.Written codec text e) :
    marshalEvents codec es = .ok ((eventElems text es).map Prod.fst) := by
  induction es with
  | nil => rfl
  | cons e es ih =>
    simp only [marshalEvents, marshalEvent_eq codec text e (h e (List.mem_cons_self _ _)),
      ih (fun x hx => h x (List.mem_cons_of_mem _ hx))]
    rfl

theorem join_elemsText (xs : List (GoString × Json)) (X : GoString) :
    str "[" ++ (join (xs.map Prod.fst) (str ",") ++ (str "]" ++ X))
      = ch '[' :: (elemsText xs ++ X) := by
  have h : ∀ xs : List (GoString × Json),
      join (xs.map Prod.fst) (str ",") ++ [ch ']'] = elemsText xs := by
    intro xs
    induction xs with
    | nil => rfl
    | cons x xs ih =>
      cases xs with
      | nil => rfl
      | cons y ys =>
        simp only [List.map_cons, join, elemsText, List.append_assoc] at ih ⊢
        rw [ih]
        rfl
  rw [← h xs, List.append_assoc]
  rfl

theorem marshalResults_eq {T : Type} (codec : TimeCodec T) (text : T → GoString)
    (r : Results T) (h : Results.Written codec text r) :
    marshalResults codec r = .ok (ch '{' :: membersText (resultsMembers text r)) := by
  obtain ⟨a, b, c, evs⟩ := r
  cases evs with
  | none =>
    simp only [marshalResults, List.append_assoc]
    rfl
  | some es =>
    have h1 : ∀ e ∈ es, Event.Written codec text e := h
    simp only [marshalResults, marshalEvents_eq codec text es h1, List.append_assoc,
      join_elemsText]
    rfl

theorem Parses_results {T : Type} (codec : TimeCodec T) (text : T → GoString)
    (r : Results T) (h : Results.Written codec text r) :
    Parses (ch '{' :: membersText (resultsMembers text r)) (jsonOfResults text r) := by
  have hj : jsonOfResults text r = .object ((resultsMembers text r).map (fun x => (x.1, x.2.2)))
      := rfl
  rw [hj]
  apply Parses_object
  simp only [List.forall_mem_cons, List.not_mem_nil, false_implies, implies_true, and_true]
  refine ⟨⟨by decide, Parses_number _⟩, ⟨by decide, Parses_number _⟩,
    ⟨by decide, Parses_number _⟩, by decide, ?_⟩
  obtain ⟨a, b, c, evs⟩ := r
  cases evs with
  | none => exact Parses_null
  | some es =>
    have h1 : ∀ e ∈ es, Event.Written codec text e := h
    have hm : es.map (jsonOfEvent text) = (eventElems text es).map Prod.snd := by
      simp [eventElems]
    show Parses (ch '[' :: elemsText (eventElems text es)) (.array (es.map (jsonOfEvent text)))
    rw [hm]
    apply Parses_array
    · intro y hy
      simp only [eventElems, List.mem_map] at hy
      obtain ⟨e, he, rfl⟩ := hy
      exact Parses_event codec text e (h1 e he)
    · intro y hy
      simp only [eventElems, List.mem_map] at hy
      obtain ⟨e, he, rfl⟩ := hy
      exact ⟨_, rfl⟩

/-- The text `json.Marshal` writes for a `Results` with valid UTF-8 strings is read as the
object that carries its fields. -/
theorem parse_marshalResults {T : Type} (codec : TimeCodec T) (text : T → GoString)
    (r : Results T) (h : Results.Written codec text r) :
    ∃ data, marshalResults codec r = .ok data ∧ parseJSON data = .ok (jsonOfResults text r) := by
  refine ⟨_, marshalResults_eq codec text r h, ?_⟩
  have hp := Parses_results codec text r h (membersText (resultsMembers text r)).length.succ.succ
    [] (by simp) delimited_nil
  rw [List.append_nil] at hp
  simp only [parseJSON, List.length_cons]
  rw [show (membersText (resultsMembers text r)).length + 1 + 1
    = (membersText (resultsMembers text r)).length.succ.succ from rfl, hp]

theorem invalidTitle_carried : Results.Carried textTime id invalidTitle := by
  refine ⟨by decide, by decide, by decide, ?_⟩
  intro e he
  have h : e = { Event.zero textTime with Title := [0xFF] } := by simpa [invalidTitle] using he
  subst h
  exact ⟨by decide, by decide, by decide, by decide, by decide, by decide, by decide, by decide,
    by decide⟩

theorem marshal_invalidTitle : marshalResults textTime invalidTitle = .ok invalidTitleText := by
  decide

theorem decode_invalidTitle :
    decodeJSON (storeResults textTime) invalidTitleText {} = (replacedTitle, none) := by
  decide

theorem sample_written : Results.Written textTime id sampleResults := by
  intro e he
  have h : e = sampleEvent := by simpa [sampleResults] using he
  subst h
  constructor
  · decide
  · decide

/-- Counterexample to C16 as stated, for every `Results` value: the `Results` whose one
event has the title 0xFF, which is not valid UTF-8, has integers of `int` and times that
are read back, yet `json.Marshal` writes its title as `\ufffd`, and decoding that text, as
`SearchEvents` does with a body that holds it, gives the title U+FFFD: a `Results` that is
not the one that was written. -/
theorem roundtrip_loses_invalid_utf8 :
    Results.Carried textTime id invalidTitle ∧
      marshalResults textTime invalidTitle = .ok invalidTitleText ∧
      decodeJSON (storeResults textTime) invalidTitleText {} = (replacedTitle, none) ∧
      (clientAnswering (answer invalidTitleText)).SearchEvents (str "go1.14") textTime
        sampleQuery = (some replacedTitle, none) ∧
      replacedTitle ≠ invalidTitle ∧ ValidString [0xFF] = false :=
  ⟨invalidTitle_carried, marshal_invalidTitle, decode_invalidTitle,
    SearchEvents_decoded _ _ _ _ (answer invalidTitleText) _ (fun _ => rfl) rfl
      decode_invalidTitle,
    by decide, by decide⟩

/-- C16, amended: for every `Results` value `r` that JSON can carry (the strings of its
events and of their series are valid UTF-8, each of its times is written as a plain text
that is read back to the same time, and its integers are values of `int`), the text
`json.Marshal` writes for `r` is the JSON object that carries the fields of `r`, of its
events and of their series under the wire names; decoding this text, or any text that is
read as this object, into a zero `Results` yields `r` with no error, and `SearchEvents`
returns `r` when the transport answers with such a body. -/
theorem SearchEvents_roundtrip {T : Type} (codec : TimeCodec T) (text : T → GoString)
    (r : Results T) (hr : Results.Carried codec text r) (hw : Results.Written codec text r) :
    (∃ data, marshalResults codec r = .ok data ∧
      parseJSON data = .ok (jsonOfResults text r) ∧
      decodeJSON (storeResults codec) data {} = (r, none) ∧
      ∀ (c : Client) (version : GoString) (q : QueryParams) (code : Int),
        (∀ req, c.HTTPClient req = .ok { StatusCode := code, Body := { data := data } }) →
        c.SearchEvents version codec q = (some r, none)) ∧
    storeResults codec (jsonOfResults text r) { value := {} } = { value := r } ∧
    (∀ data, parseJSON data = .ok (jsonOfResults text r) →
      decodeJSON (storeResults codec) data {} = (r, none)) ∧
    (∀ (c : Client) (version : GoString) (q : QueryParams) (resp : Response),
      (∀ req, c.HTTPClient req = .ok resp) → resp.Body.closed = false →
      parseJSON resp.Body.data = .ok (jsonOfResults text r) →
      c.SearchEvents version codec q = (some r, none)) := by
  have h1 := storeResults_roundtrip codec text r hr
  have h2 : ∀ data, parseJSON data = .ok (jsonOfResults text r) →
      decodeJSON (storeResults codec) data {} = (r, none) := by
    intro data hp
    simp only [decodeJSON, hp, h1]
  obtain ⟨data, hm, hp⟩ := parse_marshalResults codec text r hw
  exact ⟨⟨data, hm, hp, h2 _ hp, fun c version q code ht =>
      SearchEvents_decoded c version codec q _ r ht rfl (h2 _ hp)⟩,
    h1, h2, fun c version q resp ht hopen hp1 =>
      SearchEvents_decoded c version codec q resp r ht hopen (h2 _ hp1)⟩

/-- Witness of C16: an envelope like the one of `TestSearchEvents`, with a title that
`json.Marshal` escapes and a catch that is not ASCII. The text `json.Marshal` writes for it
is read as the object that carries it, and `SearchEvents` returns it; so it does when the
members come in the order of the handler of the test. -/
theorem SearchEvents_roundtrip_witness :
    Results.Carried textTime id sampleResults ∧ Results.Written textTime id sampleResults ∧
      marshalResults textTime sampleResults = .ok sampleText ∧
      parseJSON sampleText = .ok (jsonOfResults id sampleResults) ∧
      (clientAnswering (answer sampleText)).SearchEvents (str "go1.14") textTime sampleQuery
        = (some sampleResults, none) ∧
      (clientAnswering (answer shuffledText)).SearchEvents (str "go1.14") textTime sampleQuery
        = (some sampleResults, none) :=
  ⟨sample_carried, sample_written, marshal_sample, parse_sample,
    (SearchEvents_roundtrip textTime id sampleResults sample_carried sample_written).2.2.2 _ _ _
      (answer sampleText) (fun _ => rfl) rfl parse_sample,
    SearchEvents_shuffled⟩

end Connpass
